import Mathlib

/-!
# ARM64 backend of the MiniC compiler: a shallow embedding

The definitions below transcribe `backend/arm64/CodeGeneratorArm64.cpp`,
`backend/arm64/InstSelectorArm64.cpp`, `backend/arm64/ILocArm64.cpp` and
`backend/arm64/PlatformArm64.{h,cpp}`.

Conventions of the embedding.

* A `Value *` is a `VId`; the mutable fields of the pointed-to object live in a
  store `VId → Value` carried by the function (`Func.vals`).
* `std::vector` is `List`; `push_back` appends at the end, `back`/`pop_back`
  read and drop the last element.
* `int`/`int32_t`/`int64_t` quantities are `Int`.  Additions on frame depths and
  offsets are not wrapped (signed overflow is undefined in C++); the one bitwise
  operation of the allocator, `(dep + 15) & ~15`, is computed on the 32-bit
  two's-complement representation.
* Loops driven by an integer counter take a fuel argument; the theorems that
  describe their result also show that the loop condition is false on exit.
-/

namespace Arm64

/-! ## PlatformArm64.h -/

/-- First scratch register, `#define ARM64_TMP_REG_NO 16`. -/
def ARM64_TMP_REG_NO : Int := 16

/-- Second scratch register, `#define ARM64_TMP_REG_NO2 17`. -/
def ARM64_TMP_REG_NO2 : Int := 17

/-- Stack pointer, `#define ARM64_SP_REG_NO 31`. -/
def ARM64_SP_REG_NO : Int := 31

/-- Frame pointer, `#define ARM64_FP_REG_NO 29`. -/
def ARM64_FP_REG_NO : Int := 29

/-- Link register, `#define ARM64_LR_REG_NO 30`. -/
def ARM64_LR_REG_NO : Int := 30

/-- Name of the frame pointer, `#define ARM64_FP "x29"`. -/
def ARM64_FP : String := "x29"

/-- Zero register, `#define ARM64_ZR_REG_NO 32`. -/
def ARM64_ZR_REG_NO : Int := 32

/-- The macro `ARM64_CALLER_SAVE(x) ((x)>=19 && (x)<=28)`. -/
def ARM64_CALLER_SAVE (x : Int) : Bool := decide (19 ≤ x) && decide (x ≤ 28)

/-! ## Values -/

/-- Identity of a `Value` object.  `user n` is a value handed over by the front
end, `intRegVal k` is the singleton `PlatformArm64::intRegVal[k]`, and
`newLocal n` / `newInst n` is the local variable / the instruction that the
backend creates when its creation counter (`Func.newCnt`) stands at `n`. -/
inductive VId where
  | user (n : Nat)
  | intRegVal (k : Nat)
  | newLocal (n : Nat)
  | newInst (n : Nat)
  deriving DecidableEq, Repr

/-- Dynamic class of a `Value`, as tested by `dynamic_cast` in the backend. -/
inductive ValueKind where
  | constInt
  | constFloat
  | globalVariable
  | localVariable
  | formalParam
  | instruction
  | regVariable
  | memVariable
  deriving DecidableEq, Repr

/-- The fields of a `Value` that the backend reads or writes.  `isArrayType` and
`size` are `getType()->isArrayType()` and `getType()->getSize()`; `regId`,
`baseRegNo` and `offset` are the location fields declared in `Instruction.h`
(`regId = -1`: no register; `baseRegNo = -1`: no memory address); `intVal` is
`ConstInt::getVal()` and `name` is `getName()`.  The headers of the other value
classes (`LocalVariable`, `FormalParam`, ...) are not part of the sources; their
location fields are taken to behave like those of `Instruction`. -/
structure Value where
  kind : ValueKind
  isArrayType : Bool := false
  size : Int := 4
  regId : Int := -1
  baseRegNo : Int := -1
  offset : Int := 0
  intVal : Int := 0
  name : String := ""
  deriving DecidableEq, Repr

/-- The result of `getMemoryAddr()`: false exactly when no base register has been
recorded (`Instruction::getMemoryAddr`, `Instruction.h` lines 181-202). -/
def Value.hasMemoryAddr (v : Value) : Bool := decide (v.baseRegNo ≠ -1)

/-- The value store of a function. -/
abbrev Store := VId → Value

/-- The call `v->setRegId(reg)`. -/
def setRegId (st : Store) (v : VId) (reg : Int) : Store :=
  fun x => if x = v then { st x with regId := reg } else st x

/-- Modelled from the spec: the call `v->setMemoryAddr(base, off)`.  The method
is declared in `Instruction.h`; its body (`Instruction.cpp`) is not part of the
sources.  It records the memory address (base-register id, offset) in the fields
`baseRegNo` and `offset` that `getMemoryAddr` reads.  The field `offset` is an
`int32_t` in `Instruction.h`; the embedding keeps the offset as it is given and
does not cut an offset outside that range down to 32 bits. -/
def setMemoryAddr (st : Store) (v : VId) (base off : Int) : Store :=
  fun x => if x = v then { st x with baseRegNo := base, offset := off } else st x

/-! ## Instructions and functions -/

/-- The enumeration `IRInstOperator` of `Instruction.h`, in declaration order. -/
inductive IRInstOperator where
  | IRINST_OP_ENTRY
  | IRINST_OP_EXIT
  | IRINST_OP_LABEL
  | IRINST_OP_GOTO
  | IRINST_OP_IADD
  | IRINST_OP_ISUB
  | IRINST_OP_IMUL
  | IRINST_OP_IDIV
  | IRINST_OP_IMOD
  | IRINST_OP_IEQ
  | IRINST_OP_INE
  | IRINST_OP_IGT
  | IRINST_OP_ILE
  | IRINST_OP_IGE
  | IRINST_OP_ILT
  | IRINST_OP_FADD
  | IRINST_OP_FSUB
  | IRINST_OP_FMUL
  | IRINST_OP_FDIV
  | IRINST_OP_FMOD
  | IRINST_OP_FEQ
  | IRINST_OP_FNE
  | IRINST_OP_FGT
  | IRINST_OP_FGE
  | IRINST_OP_FLT
  | IRINST_OP_FLE
  | IRINST_OP_XOR
  | IRINST_OP_ASSIGN
  | IRINST_OP_CAST
  | IRINST_OP_FUNC_CALL
  | IRINST_OP_ARG
  | IRINST_OP_GEP
  | IRINST_OP_STORE
  | IRINST_OP_LOAD
  | IRINST_OP_MAX
  deriving DecidableEq, Repr

open IRInstOperator

/-- An IR instruction: `self` is the instruction seen as a `Value` (its own
address), `operands` the operand vector of `User`, `hasResultValue` the result
of `Instruction::hasResultValue()`. -/
structure Inst where
  self : VId
  op : IRInstOperator
  operands : List VId := []
  hasResultValue : Bool := false
  dead : Bool := false
  deriving DecidableEq, Repr

/-- Modelled from the spec: the constructor `MoveInstruction(func, result, src)`
(`MoveInstruction.h` is not part of the sources) builds an `ASSIGN` with the
operands `result, src` and no result value of its own; `translate_assign` reads
operand 0 as the destination and operand 1 as the source.  `self` is the
identity of the new object. -/
def MoveInstruction (self : VId) (result src : VId) : Inst :=
  { self := self, op := IRINST_OP_ASSIGN, operands := [result, src] }

/-- Modelled from the spec: the constructor `ArgInstruction(func, src)`
(`ArgInstruction.h` is not part of the sources) builds an `ARG` marker with the
single operand `src`, which `translate_arg` reads as operand 0. -/
def ArgInstruction (self : VId) (src : VId) : Inst :=
  { self := self, op := IRINST_OP_ARG, operands := [src] }

/-- The part of `Function` the backend uses. -/
structure Func where
  builtin : Bool := false
  existFuncCall : Bool := false
  maxFuncCallArgCnt : Int := 0
  maxDep : Int := 0
  protectedReg : List Int := []
  params : List VId := []
  insts : List Inst := []
  vals : Store
  /-- Number of values the backend has created so far in this function. -/
  newCnt : Nat := 0

/-- A live range, `struct LiveRange` of `CodeGeneratorArm64.h`; the field `end`
is called `end_` here. -/
structure LiveRange where
  value : VId
  start : Int
  end_ : Int
  reg : Int := -1
  stackOffset : Int := -1
  deriving DecidableEq, Repr

/-- The method `LiveRange::overlaps`. -/
def LiveRange.overlaps (a other : LiveRange) : Bool :=
  !(decide (a.end_ < other.start) || decide (a.start > other.end_))

/-! ## Linear scan (CodeGeneratorArm64.cpp, lines 496-563) -/

/-- The function `expireOldRanges(active, freeRegs, pos)`: every active range
with `end <= pos` is erased and its register pushed on the free list. -/
def expireOldRanges : List LiveRange → List Int → Int → List LiveRange × List Int
  | [], freeRegs, _ => ([], freeRegs)
  | it :: rest, freeRegs, pos =>
    if it.end_ ≤ pos then
      expireOldRanges rest (freeRegs ++ [it.reg]) pos
    else
      let r := expireOldRanges rest freeRegs pos
      (it :: r.1, r.2)

/-- The function `allocateStackSlot(func, type)` on the frame depth: returns the
offset of the slot and the new `max_frame_depth`. -/
def allocateStackSlot (maxDep : Int) (size : Int) : Int × Int :=
  (maxDep, maxDep + size)

/-- The initial free list of `linearScanRegisterAllocation`. -/
def initialFreeRegs (existFuncCall : Bool) : List Int :=
  let freeRegs : List Int := [19, 20, 21, 22, 23, 24, 25, 26, 27, 28]
  if !existFuncCall then freeRegs ++ [9, 10, 11, 12, 13, 14, 15] else freeRegs

/-- The local state of the first loop of `linearScanRegisterAllocation`. -/
structure ScanState where
  freeRegs : List Int
  active : List LiveRange
  maxDep : Int
  deriving DecidableEq, Repr

/-- One iteration of the first loop: expire, then assign a register or spill.
Returns the updated range and the updated state. -/
def scanStep (st : Store) (s : ScanState) (range : LiveRange) : LiveRange × ScanState :=
  let e := expireOldRanges s.active s.freeRegs range.start
  let active := e.1
  let freeRegs := e.2
  if !((st range.value).isArrayType || freeRegs.isEmpty) then
    let range1 := { range with reg := freeRegs.getLastD 0 }
    (range1, { freeRegs := freeRegs.dropLast, active := active ++ [range1], maxDep := s.maxDep })
  else
    let slot := allocateStackSlot s.maxDep (st range.value).size
    ({ range with stackOffset := slot.1 },
     { freeRegs := freeRegs, active := active, maxDep := slot.2 })

/-- The first loop of `linearScanRegisterAllocation` over `ranges`. -/
def scanLoop (st : Store) : List LiveRange → ScanState → List LiveRange × ScanState
  | [], s => ([], s)
  | range :: rest, s =>
    let r := scanStep st s range
    let t := scanLoop st rest r.2
    (r.1 :: t.1, t.2)

/-- One iteration of the second loop: write the assignment back to the value and
record a used register of 19..28 in the protected list. -/
def publishStep (acc : Store × List Int) (range : LiveRange) : Store × List Int :=
  if range.reg ≠ -1 then
    (setRegId acc.1 range.value range.reg,
     if ARM64_CALLER_SAVE range.reg && decide (range.reg ∉ acc.2) then acc.2 ++ [range.reg]
     else acc.2)
  else
    (setMemoryAddr acc.1 range.value ARM64_FP_REG_NO range.stackOffset, acc.2)

/-- The second loop of `linearScanRegisterAllocation`. -/
def publish (ranges : List LiveRange) (acc : Store × List Int) : Store × List Int :=
  ranges.foldl publishStep acc

/-- The method `CodeGeneratorArm64::linearScanRegisterAllocation(ranges, func)`:
returns the ranges as updated in place and the updated function. -/
def linearScanRegisterAllocation (ranges : List LiveRange) (func : Func) : List LiveRange × Func :=
  let s0 : ScanState :=
    { freeRegs := initialFreeRegs func.existFuncCall, active := [], maxDep := func.maxDep }
  let r := scanLoop func.vals ranges s0
  let p := publish r.1 (func.vals, func.protectedReg)
  (r.1, { func with maxDep := r.2.maxDep, vals := p.1, protectedReg := p.2 })

/-! ## Liveness (CodeGeneratorArm64.cpp, lines 465-494 and 534-582) -/

/-- The loop of `findLastUse`, counting `i` down from `insts.size() - 1`; the
inner loop over the operands is the membership test. -/
def findLastUseLoop (val : VId) (insts : List Inst) (startPos : Int) : Nat → Int → Int
  | 0, _ => startPos
  | fuel + 1, i =>
    if i ≥ startPos then
      match insts[i.toNat]? with
      | some inst => if val ∈ inst.operands then i else findLastUseLoop val insts startPos fuel (i - 1)
      | none => findLastUseLoop val insts startPos fuel (i - 1)
    else startPos

/-- The function `findLastUse(val, insts, startPos)`. -/
def findLastUse (val : VId) (insts : List Inst) (startPos : Int) : Int :=
  findLastUseLoop val insts startPos insts.length ((insts.length : Int) - 1)

/-- The search loop of `extendRangeIfExists`: widens the first range of `value`,
or answers `none` when there is no such range. -/
def extendFirst (value : VId) (currentPos : Int) : List LiveRange → Option (List LiveRange)
  | [] => none
  | range :: rest =>
    if range.value = value then
      some ({ range with end_ := max range.end_ currentPos } :: rest)
    else
      (extendFirst value currentPos rest).map (fun t => range :: t)

/-- The function `extendRangeIfExists(ranges, value, currentPos)`. -/
def extendRangeIfExists (st : Store) (ranges : List LiveRange) (value : VId) (currentPos : Int) :
    List LiveRange :=
  match extendFirst value currentPos ranges with
  | some ranges1 => ranges1
  | none =>
    if (st value).kind ≠ ValueKind.constInt then
      ranges ++ [{ value := value,
                   start := if (st value).kind = ValueKind.formalParam then 0 else currentPos,
                   end_ := currentPos }]
    else ranges

/-- The test `dynamic_cast<Instruction*>(operand) || dynamic_cast<LocalVariable*>(operand)
|| dynamic_cast<FormalParam*>(operand)` of `calculateLiveRanges`. -/
def isAllocatable (v : Value) : Bool :=
  decide (v.kind = ValueKind.instruction) || decide (v.kind = ValueKind.localVariable) ||
    decide (v.kind = ValueKind.formalParam)

/-- The operand loop of `calculateLiveRanges` for the instruction `inst` at `pos`. -/
def useOperands (st : Store) (inst : Inst) (pos : Int) : List VId → List LiveRange → List LiveRange
  | [], ranges => ranges
  | operand :: rest, ranges =>
    if operand = inst.self then useOperands st inst pos rest ranges
    else if isAllocatable (st operand) then
      useOperands st inst pos rest (extendRangeIfExists st ranges operand pos)
    else useOperands st inst pos rest ranges

/-- The instruction loop of `calculateLiveRanges`: `todo` are the instructions
from position `pos` on, `insts` is the whole vector. -/
def calcLoop (st : Store) (insts : List Inst) : List Inst → Int → List LiveRange → List LiveRange
  | [], _, ranges => ranges
  | inst :: todo, pos, ranges =>
    let ranges1 :=
      if inst.hasResultValue then
        ranges ++ [{ value := inst.self, start := pos, end_ := findLastUse inst.self insts pos }]
      else ranges
    calcLoop st insts todo (pos + 1) (useOperands st inst pos inst.operands ranges1)

/-- The function `calculateLiveRanges(func)`. -/
def calculateLiveRanges (func : Func) : List LiveRange :=
  calcLoop func.vals func.insts func.insts 0 []

/-- The call `std::sort(ranges.begin(), ranges.end(), [](a, b) { return a.start < b.start; })`.
`std::sort` does not fix the order of ranges with equal `start`; the embedding
takes the stable order, which an implementation need not produce once the vector
is too long for its insertion sort (more than 16 ranges in libstdc++). -/
def sortRanges (ranges : List LiveRange) : List LiveRange :=
  ranges.insertionSort (fun a b => a.start ≤ b.start)

/-! ## Call-site lowering (CodeGeneratorArm64.cpp, lines 301-390) -/

/-- Modelled from the spec: `Function::newLocalVarValue(IntegerType::getTypeInt())`
(`Function.h` and `IntegerType.h` are not part of the sources) creates a fresh
local variable of integer type, four bytes wide, with no register and no memory
address.  The store entry of the new value is returned. -/
def newLocalVarValue : Value :=
  { kind := ValueKind.localVariable, isArrayType := false, size := 4 }

/-- The first loop of the call rewrite (arguments 8, 9, ...): `ops` are the
operands from index `k` on.  Returns the rewritten operands, the inserted moves,
the store and the creation counter. -/
def lowerStackArgs (callSelf : VId) :
    List VId → Int → Store → Nat → List VId × List Inst × Store × Nat
  | [], _, st, n => ([], [], st, n)
  | arg :: rest, esp, st, n =>
    if arg = callSelf then (arg :: rest, [], st, n)
    else
      let newVal := VId.newLocal n
      let st0 : Store := fun x => if x = newVal then newLocalVarValue else st x
      let st1 := setMemoryAddr st0 newVal ARM64_SP_REG_NO esp
      let assignInst := MoveInstruction (VId.newInst (n + 1)) newVal arg
      let r := lowerStackArgs callSelf rest (esp + 4) st1 (n + 2)
      (newVal :: r.1, assignInst :: r.2.1, r.2.2.1, r.2.2.2)

/-- The second loop of the call rewrite (arguments 0..7): `ops` are the operands
from index `k` on, already cut to the first eight. -/
def lowerRegArgs (callSelf : VId) (st : Store) :
    List VId → Nat → Nat → List VId × List Inst × Nat
  | [], _, n => ([], [], n)
  | arg :: rest, k, n =>
    if arg = callSelf then (arg :: rest, [], n)
    else if (st arg).regId = (k : Int) then
      let r := lowerRegArgs callSelf st rest (k + 1) n
      (arg :: r.1, r.2.1, r.2.2)
    else
      let assignInst := MoveInstruction (VId.newInst n) (VId.intRegVal k) arg
      let r := lowerRegArgs callSelf st rest (k + 1) (n + 1)
      (VId.intRegVal k :: r.1, assignInst :: r.2.1, r.2.2)

/-- The third loop of the call rewrite: one `ARG` per operand that is not the
call itself. -/
def makeArgs (callSelf : VId) : List VId → Nat → List Inst × Nat
  | [], n => ([], n)
  | arg :: rest, n =>
    if arg = callSelf then makeArgs callSelf rest n
    else
      let r := makeArgs callSelf rest (n + 1)
      (ArgInstruction (VId.newInst n) arg :: r.1, r.2)

/-- What the body of the loop of `adjustFuncCallInsts` does for one call. -/
structure LoweredCall where
  before : List Inst
  call : Inst
  after : List Inst
  vals : Store
  newCnt : Nat

/-- The body of the loop of `adjustFuncCallInsts` for the call `callInst`. -/
def lowerCall (callInst : Inst) (st : Store) (n : Nat) : LoweredCall :=
  let s := lowerStackArgs callInst.self (callInst.operands.drop 8) 0 st n
  let r := lowerRegArgs callInst.self s.2.2.1 (callInst.operands.take 8) 0 s.2.2.2
  let operands := r.1 ++ s.1
  let a := makeArgs callInst.self operands r.2.2
  let after :=
    if callInst.hasResultValue then
      if (s.2.2.1 callInst.self).regId = 0 then []
      else [MoveInstruction (VId.newInst a.2) callInst.self (VId.intRegVal 0)]
    else []
  { before := s.2.1 ++ r.2.1 ++ a.1,
    call := { callInst with operands := operands },
    after := after,
    vals := s.2.2.1,
    newCnt := a.2 + after.length }

/-- The loop of `adjustFuncCallInsts` over the instruction vector.  Inserted
instructions are never function calls, so the iterator passes them untouched. -/
def adjustFuncCallLoop : List Inst → Store → Nat → List Inst × Store × Nat
  | [], st, n => ([], st, n)
  | inst :: rest, st, n =>
    if inst.op = IRINST_OP_FUNC_CALL then
      let c := lowerCall inst st n
      let t := adjustFuncCallLoop rest c.vals c.newCnt
      (c.before ++ c.call :: (c.after ++ t.1), t.2.1, t.2.2)
    else
      let t := adjustFuncCallLoop rest st n
      (inst :: t.1, t.2.1, t.2.2)

/-- The method `CodeGeneratorArm64::adjustFuncCallInsts(func)`. -/
def adjustFuncCallInsts (func : Func) : Func :=
  let r := adjustFuncCallLoop func.insts func.vals func.newCnt
  { func with insts := r.1, vals := r.2.1, newCnt := r.2.2 }

/-! ## Formal-parameter binding (CodeGeneratorArm64.cpp, lines 251-297) -/

/-- The call `std::remove(first, last, x)` whose result is discarded: the
elements different from `x` are moved to the front in order, the size of the
vector is unchanged and the positions behind them keep what they held. -/
def stdRemove (l : List Int) (x : Int) : List Int :=
  let kept := l.filter (fun y => y ≠ x)
  kept ++ l.drop kept.length

/-- The moves `param_k <- x_k` built by the first loop, `k = from, from+1, ...`
for the parameters `ps`. -/
def paramMoves : List VId → Nat → Nat → List Inst
  | [], _, _ => []
  | p :: ps, k, n => MoveInstruction (VId.newInst n) p (VId.intRegVal k) :: paramMoves ps (k + 1) (n + 1)

/-- The second loop (`k < min(pm, 8)`): the parameter takes register `k`. -/
def bindRegParams : List VId → Nat → Store → List Int → Store × List Int
  | [], _, st, protects => (st, protects)
  | p :: ps, k, st, protects =>
    let reg := (st p).regId
    let protects1 := if ARM64_CALLER_SAVE reg then stdRemove protects reg else protects
    bindRegParams ps (k + 1) (setRegId st p k) protects1

/-- The third loop (`k < pm`): the parameter is bound to `(FP, fp_esp)`. -/
def bindStackParams : List VId → Int → Store → List Int → Store × List Int
  | [], _, st, protects => (st, protects)
  | p :: ps, fp_esp, st, protects =>
    let reg := (st p).regId
    let protects1 := if ARM64_CALLER_SAVE reg then stdRemove protects reg else protects
    let st1 := if ARM64_CALLER_SAVE reg then setRegId st p (-1) else st
    bindStackParams ps (fp_esp + 4) (setMemoryAddr st1 p ARM64_FP_REG_NO fp_esp) protects1

/-- The method `CodeGeneratorArm64::adjustFormalParamInsts(func)`. -/
def adjustFormalParamInsts (func : Func) : Func :=
  let params := func.params
  let pm : Nat := if func.existFuncCall then params.length else 0
  let k := min 8 pm
  let moves := paramMoves (params.take k) 0 func.newCnt
  let insts := func.insts.take 1 ++ moves ++ func.insts.drop 1
  let pm := params.length
  let j := min pm 8
  let b := bindRegParams ((params.take j).drop k) k func.vals func.protectedReg
  let fp_esp : Int := func.maxDep + (b.2.length : Int) * 4
  let c := bindStackParams (params.drop (max k j)) fp_esp b.1 b.2
  { func with insts := insts, vals := c.1, protectedReg := c.2, newCnt := func.newCnt + k }

/-! ## Register allocation (CodeGeneratorArm64.cpp, lines 200-246) -/

/-- The 32-bit two's-complement representation of an `int`. -/
def toU32 (x : Int) : Nat := (x % 4294967296).toNat

/-- The `int` represented by a 32-bit pattern. -/
def ofU32 (n : Nat) : Int := if n < 2147483648 then (n : Int) else (n : Int) - 4294967296

/-- The expression `(dep + 15) & ~15` on `int`. -/
def alignDep (dep : Int) : Int := ofU32 (toU32 (dep + 15) &&& toU32 (~~~(15 : Int)))

/-- Lines 214-219 of `registerAllocation`: FP, and LR when the function calls,
are pushed on the protected list. -/
def seedProtectedReg (func : Func) : Func :=
  let protectedRegNo := func.protectedReg ++ [ARM64_FP_REG_NO]
  let protectedRegNo :=
    if func.existFuncCall then protectedRegNo ++ [ARM64_LR_REG_NO] else protectedRegNo
  { func with protectedReg := protectedRegNo }

/-- Steps 1 to 3 of `registerAllocation` (lines 221-229): live ranges, sort,
linear scan, on the function with its protected list seeded. -/
def allocateRegisters (func : Func) : Func :=
  let func1 := seedProtectedReg func
  let ranges := calculateLiveRanges func1
  let ranges := sortRanges ranges
  (linearScanRegisterAllocation ranges func1).2

/-- The method `CodeGeneratorArm64::registerAllocation(func)`. -/
def registerAllocation (func : Func) : Func :=
  if func.builtin then func
  else
    let func2 := allocateRegisters func
    let func3 := adjustFuncCallInsts func2
    let dep := func3.maxDep
    let func4 := { func3 with maxDep := alignDep dep }
    adjustFormalParamInsts func4

/-! ## PlatformArm64.cpp -/

/-- The table `PlatformArm64::regName`. -/
def regNameTable : List String :=
  ["w0", "w1", "w2", "w3", "w4", "w5", "w6", "w7", "w8", "w9", "w10", "w11", "w12", "w13",
   "w14", "w15", "w16", "w17", "w18", "w19", "w20", "w21", "w22", "w23", "w24", "w25", "w26",
   "w27", "w28", "x29", "x30", "sp", "wzr"]

/-- The expression `PlatformArm64::regName[i]`; an index outside the table is
undefined behaviour in the source and gives the empty string here. -/
def regName (i : Int) : String :=
  if 0 ≤ i then regNameTable.getD i.toNat "" else ""

/-- The method `roundLeftShiftTwoBit` on a 32-bit `unsigned int`. -/
def roundLeftShiftTwoBit (num : Nat) : Nat :=
  let overFlow := num &&& 0xc0000000
  ((num <<< 2) % 4294967296) ||| (overFlow >>> 30)

/-- The loop of `__constExpr`, `count` iterations left. -/
def constExprLoop : Nat → Nat → Bool
  | 0, _ => false
  | count + 1, new_num =>
    if new_num ≤ 0xff then true else constExprLoop count (roundLeftShiftTwoBit new_num)

/-- The method `PlatformArm64::__constExpr(num)`. -/
def __constExpr (num : Int) : Bool := constExprLoop 16 (toU32 num)

/-- The method `PlatformArm64::constExpr(num)`. -/
def constExpr (num : Int) : Bool := __constExpr num || __constExpr (-num)

/-- The method `PlatformArm64::isDisp(num)`. -/
def isDisp (num : Int) : Bool := decide (num < 4096) && decide (num > -4096)

/-! ## ILocArm64.cpp -/

/-- Modelled from the spec: a line of the assembly buffer, the record
`(opcode, rd, a1, a2, dead_flag)` that the `emit` macro builds with
`ArmInst(opcode, result, arg1, arg2)` (`ILocArm64.h` is not part of the
sources). -/
structure ArmInst where
  opcode : String
  result : String := ""
  arg1 : String := ""
  arg2 : String := ""
  dead : Bool := false
  deriving DecidableEq, Repr

/-- The method `ILocArm64::toStr(num, flag)`.  The default of `flag` is declared
in `ILocArm64.h`, which is not part of the sources; it is true (the `#` is put
in front), as the comments `sub sp,sp,#16` and `[fp,#-16]` at the call sites
show. -/
def toStr (num : Int) (flag : Bool := true) : String :=
  (if flag then "#" else "") ++ toString num

/-- The macro `xregs(i)`, also written `"x" + std::to_string(i)` in the selector. -/
def xregs (i : Int) : String := "x" ++ toString i

/-- The method `ILocArm64::load_imm(rs_reg_no, constant)`: the lines it emits.
The union of the source splits the 32-bit pattern into `low` and `high`. -/
def load_imm (rs_reg_no : Int) (constant : Int) : List ArmInst :=
  if constant = 0 then
    [{ opcode := "mov", result := regName rs_reg_no, arg1 := "wzr" }]
  else
    let z := toU32 constant
    let n := toU32 (~~~constant)
    let zlow := z % 65536
    let zhigh := z / 65536
    let nlow := n % 65536
    let nhigh := n / 65536
    if zhigh ≠ 0 ∧ zlow ≠ 0 ∧ nhigh ≠ 0 ∧ nlow ≠ 0 then
      [{ opcode := "mov", result := regName rs_reg_no, arg1 := "#" ++ toString zlow },
       { opcode := "movk", result := regName rs_reg_no, arg1 := "#" ++ toString zhigh,
         arg2 := "lsl #16" }]
    else
      [{ opcode := "mov", result := regName rs_reg_no, arg1 := "#" ++ toString constant }]

/-- The method `ILocArm64::load_symbol(rs_reg_no, name)`. -/
def load_symbol (rs_reg_no : Int) (name : String) : List ArmInst :=
  let x := xregs rs_reg_no
  let adr := "[" ++ x ++ ",:lo12:" ++ name ++ "]"
  [{ opcode := "adrp", result := x, arg1 := name },
   { opcode := "ldr", result := regName rs_reg_no, arg1 := adr }]

/-- The statement `if (base[0]=='w') base[0] = 'x';`. -/
def wToX (base : String) : String :=
  match base.data with
  | 'w' :: cs => String.mk ('x' :: cs)
  | _ => base

/-- The method `ILocArm64::load_base(rs_reg_no, base_reg_no, offset)`. -/
def load_base (rs_reg_no base_reg_no : Int) (offset : Int) : List ArmInst :=
  let rsReg := regName rs_reg_no
  let base := wToX (regName base_reg_no)
  if isDisp offset then
    let base := if offset ≠ 0 then base ++ "," ++ toStr offset else base
    [{ opcode := "ldr", result := rsReg, arg1 := "[" ++ base ++ "]" }]
  else
    load_imm rs_reg_no offset ++
      [{ opcode := "ldr", result := rsReg, arg1 := "[" ++ (base ++ "," ++ rsReg) ++ "]" }]

/-- The method `ILocArm64::load_var(rs_reg_no, src_var)`.  A value without
register and without memory address makes the source log `BUG` and go on with
base register `-1` and offset `-1`. -/
def load_var (st : Store) (rs_reg_no : Int) (src_var : VId) : List ArmInst :=
  let v := st src_var
  if v.kind = ValueKind.constInt then load_imm rs_reg_no v.intVal
  else if v.regId ≠ -1 then
    if v.regId ≠ rs_reg_no then
      [{ opcode := "mov", result := regName rs_reg_no, arg1 := regName v.regId }]
    else []
  else if v.kind = ValueKind.globalVariable then load_symbol rs_reg_no v.name
  else if v.hasMemoryAddr then load_base rs_reg_no v.baseRegNo v.offset
  else load_base rs_reg_no (-1) (-1)

/-- The variable `funcCallArgCnt` of `allocStack` (lines 451-454): the number of
call arguments beyond the eighth. -/
def allocStackArgCnt (func : Func) : Int :=
  let funcCallArgCnt := func.maxFuncCallArgCnt - 8
  if funcCallArgCnt < 0 then 0 else funcCallArgCnt

/-- The variable `off` of `allocStack` (lines 457-459): the frame size that the
prologue subtracts from SP. -/
def allocStackOff (func : Func) : Int :=
  let off := func.maxDep
  off + allocStackArgCnt func * 8

/-- The method `ILocArm64::allocStack(func, tmp_reg_no)`. -/
def allocStack (func : Func) (tmp_reg_no : Int) : List ArmInst :=
  let funcCallArgCnt := allocStackArgCnt func
  let off := allocStackOff func
  if 0 = off then []
  else
    (if constExpr off then
      [{ opcode := "sub", result := "sp", arg1 := "sp", arg2 := toStr off }]
    else
      load_imm tmp_reg_no off ++
        [{ opcode := "sub", result := "sp", arg1 := "sp", arg2 := regName tmp_reg_no }]) ++
    [{ opcode := "add", result := ARM64_FP, arg1 := "sp", arg2 := toStr (funcCallArgCnt * 8) }]

/-! ## InstSelectorArm64.cpp: entry and exit -/

/-- The element `protectedReg[i]` for an `int` index. -/
def regAt (protectedReg : List Int) (i : Int) : Int := protectedReg.getD i.toNat 0

/-- The `while (i < m)` loop of `translate_entry`: the emitted lines and the
final value of `i`. -/
def entryLoop (protectedReg : List Int) (m : Int) : Nat → Int → List ArmInst × Int
  | 0, i => ([], i)
  | fuel + 1, i =>
    if i < m then
      let xa := regAt protectedReg i
      let xb := regAt protectedReg (i + 1)
      let r := entryLoop protectedReg m fuel (i + 2)
      ({ opcode := "stp", result := "x" ++ toString xa, arg1 := "x" ++ toString xb,
         arg2 := "[sp,#-16]!" } :: r.1, r.2)
    else ([], i)

/-- The register-save lines of `translate_entry` (lines 189-198). -/
def entrySaves (protectedReg : List Int) : List ArmInst :=
  let m : Int := (protectedReg.length : Int) - 1
  let r := entryLoop protectedReg m protectedReg.length 0
  let i := r.2
  r.1 ++
    (if i ≤ m then
      [{ opcode := "str", result := "x" ++ toString (regAt protectedReg i), arg1 := "[sp,#-16]!" }]
    else [])

/-- The method `InstSelectorArm64::translate_entry(inst)`. -/
def translate_entry (func : Func) : List ArmInst :=
  entrySaves func.protectedReg ++ allocStack func ARM64_TMP_REG_NO

/-- The `while (i > 0)` loop of `translate_exit`. -/
def exitLoop (protectedReg : List Int) : Nat → Int → List ArmInst × Int
  | 0, i => ([], i)
  | fuel + 1, i =>
    if i > 0 then
      let xa := regAt protectedReg (i - 1)
      let xb := regAt protectedReg i
      let r := exitLoop protectedReg fuel (i - 2)
      ({ opcode := "ldp", result := "x" ++ toString xa, arg1 := "x" ++ toString xb,
         arg2 := "[sp],#16" } :: r.1, r.2)
    else ([], i)

/-- The expression `a | b` on `int`, through the 32-bit representation. -/
def orInt (a b : Int) : Int := ofU32 (toU32 a ||| toU32 b)

/-- The expression `a & b` on `int`, through the 32-bit representation. -/
def andInt (a b : Int) : Int := ofU32 (toU32 a &&& toU32 b)

/-- The register-restore lines of `translate_exit` (lines 221-232). -/
def exitRestores (protectedReg : List Int) : List ArmInst :=
  if !protectedReg.isEmpty then
    let m : Int := protectedReg.length
    (if andInt m 1 ≠ 0 then
      [{ opcode := "ldr", result := "x" ++ toString (regAt protectedReg (m - 1)),
         arg1 := "[sp],#16" }]
    else []) ++
    (exitLoop protectedReg protectedReg.length (orInt (m - 2) 1)).1
  else []

/-- The stack-release lines of `translate_exit` (lines 216-219). -/
def exitStackRelease (func : Func) : List ArmInst :=
  let dp := func.maxDep
  if dp ≠ 0 then [{ opcode := "add", result := "sp", arg1 := "sp", arg2 := toStr dp }] else []

/-- The method `InstSelectorArm64::translate_exit(inst)`. -/
def translate_exit (func : Func) (inst : Inst) : List ArmInst :=
  (match inst.operands with
    | [] => []
    | retVal :: _ => load_var func.vals 0 retVal) ++
  exitStackRelease func ++
  exitRestores func.protectedReg ++
  [{ opcode := "ret", result := "" }]

/-- The ordinal of an opcode in the enumeration `IRInstOperator`. -/
def IRInstOperator.toInt : IRInstOperator → Int
  | IRINST_OP_ENTRY => 0
  | IRINST_OP_EXIT => 1
  | IRINST_OP_LABEL => 2
  | IRINST_OP_GOTO => 3
  | IRINST_OP_IADD => 4
  | IRINST_OP_ISUB => 5
  | IRINST_OP_IMUL => 6
  | IRINST_OP_IDIV => 7
  | IRINST_OP_IMOD => 8
  | IRINST_OP_IEQ => 9
  | IRINST_OP_INE => 10
  | IRINST_OP_IGT => 11
  | IRINST_OP_ILE => 12
  | IRINST_OP_IGE => 13
  | IRINST_OP_ILT => 14
  | IRINST_OP_FADD => 15
  | IRINST_OP_FSUB => 16
  | IRINST_OP_FMUL => 17
  | IRINST_OP_FDIV => 18
  | IRINST_OP_FMOD => 19
  | IRINST_OP_FEQ => 20
  | IRINST_OP_FNE => 21
  | IRINST_OP_FGT => 22
  | IRINST_OP_FGE => 23
  | IRINST_OP_FLT => 24
  | IRINST_OP_FLE => 25
  | IRINST_OP_XOR => 26
  | IRINST_OP_ASSIGN => 27
  | IRINST_OP_CAST => 28
  | IRINST_OP_FUNC_CALL => 29
  | IRINST_OP_ARG => 30
  | IRINST_OP_GEP => 31
  | IRINST_OP_STORE => 32
  | IRINST_OP_LOAD => 33
  | IRINST_OP_MAX => 34

/-- The table `cmpmap` of `InstSelectorArm64.cpp`. -/
def cmpmap : List String := ["eq", "ne", "gt", "le", "ge", "lt"]

/-- The element `cmpmap[i]` for an `int` index; an index outside the table is
undefined behaviour in the source and gives the empty string here. -/
def cmpmapAt (i : Int) : String := if 0 ≤ i then cmpmap.getD i.toNat "" else ""

/-- The expression `a ^ b` on `int`, through the 32-bit representation. -/
def xorInt (a b : Int) : Int := ofU32 (toU32 a ^^^ toU32 b)

/-- The macro `CSTR(C)`, `cmpmap[(C - IRINST_OP_IEQ)]`. -/
def CSTR (C : IRInstOperator) : String := cmpmapAt (C.toInt - IRINST_OP_IEQ.toInt)

/-- The macro `CSTRJ(C)`, `cmpmap[(C - IRINST_OP_IEQ) ^ 1]`. -/
def CSTRJ (C : IRInstOperator) : String :=
  cmpmapAt (xorInt (C.toInt - IRINST_OP_IEQ.toInt) 1)

/-- The state of a (non-builtin) function when `registerAllocation` reaches its
call of `adjustFormalParamInsts` (lines 221-241). -/
def beforeParamBinding (func : Func) : Func :=
  { adjustFuncCallInsts (allocateRegisters func) with
    maxDep := alignDep (adjustFuncCallInsts (allocateRegisters func)).maxDep }

/-! ## Instruction selection (ILocArm64.cpp, lines 254-283 and 375-422; InstSelectorArm64.cpp) -/

/-- The method `ILocArm64::store_base(src_reg_no, base_reg_no, disp, tmp_reg_no)`. -/
def store_base (src_reg_no base_reg_no : Int) (disp : Int) (tmp_reg_no : Int) : List ArmInst :=
  let base := wToX (regName base_reg_no)
  if isDisp disp then
    let base := if disp ≠ 0 then base ++ "," ++ toStr disp else base
    [{ opcode := "str", result := regName src_reg_no, arg1 := "[" ++ base ++ "]" }]
  else
    load_imm tmp_reg_no disp ++
      [{ opcode := "str", result := regName src_reg_no,
         arg1 := "[" ++ (base ++ "," ++ regName tmp_reg_no) ++ "]" }]

/-- The method `ILocArm64::store_var(src_reg_no, dest_var, tmp_reg_no)`.  A value
without register and without memory address makes the source log `BUG` and go on
with base register `-1` and offset `-1`. -/
def store_var (st : Store) (src_reg_no : Int) (dest_var : VId) (tmp_reg_no : Int) :
    List ArmInst :=
  let v := st dest_var
  if v.regId ≠ -1 then
    if src_reg_no ≠ v.regId then
      [{ opcode := "mov", result := regName v.regId, arg1 := regName src_reg_no }]
    else []
  else if v.kind = ValueKind.globalVariable then
    let x := xregs tmp_reg_no
    [{ opcode := "adrp", result := x, arg1 := v.name },
     { opcode := "str", result := regName src_reg_no,
       arg1 := "[" ++ x ++ ",:lo12:" ++ v.name ++ "]" }]
  else if v.hasMemoryAddr then store_base src_reg_no v.baseRegNo v.offset tmp_reg_no
  else store_base src_reg_no (-1) (-1) tmp_reg_no

/-- The state of `InstSelectorArm64` that the handlers below read and write:
`code` is the assembly buffer `iloc.getCode()`, `lstcmp` the member of that
name, `vals` the values of the function, and `instOp v` the opcode `getOp()` of a
value that is an `Instruction` (`dynamic_cast<Instruction *>(v)`), `none` for
every other value. -/
structure Selector where
  code : List ArmInst := []
  lstcmp : IRInstOperator := IRINST_OP_MAX
  vals : Store
  instOp : VId → Option IRInstOperator := fun _ => none

/-- The fields of a `GotoInstruction` (`GotoInstruction.cpp`): the condition value
(`nullptr` for an unconditional jump) and the two targets, each given by the
name `getName()` of its label, the only thing `translate_goto` reads of it. -/
structure GotoInstruction where
  cond : Option VId := none
  iftrue : String
  iffalse : String := ""
  deriving DecidableEq, Repr

/-- The method `InstSelectorArm64::translate_two_operator(inst, operator_name)`.
An instruction with fewer than two operands is undefined behaviour in the
source and emits nothing here. -/
def translate_two_operator (s : Selector) (inst : Inst) (operator_name : String) : Selector :=
  match inst.operands with
  | arg1 :: arg2 :: _ =>
    let arg1_reg_no := (s.vals arg1).regId
    let arg2_reg_no := (s.vals arg2).regId
    let result_reg_no := (s.vals inst.self).regId
    let load1 := if arg1_reg_no = -1 then load_var s.vals ARM64_TMP_REG_NO arg1 else []
    let load_arg1_reg_no := if arg1_reg_no = -1 then ARM64_TMP_REG_NO else arg1_reg_no
    let load2 := if arg2_reg_no = -1 then load_var s.vals ARM64_TMP_REG_NO2 arg2 else []
    let load_arg2_reg_no := if arg2_reg_no = -1 then ARM64_TMP_REG_NO2 else arg2_reg_no
    let load_result_reg_no := if result_reg_no = -1 then ARM64_TMP_REG_NO2 else result_reg_no
    let line : ArmInst :=
      { opcode := operator_name, result := regName load_result_reg_no,
        arg1 := regName load_arg1_reg_no, arg2 := regName load_arg2_reg_no }
    let store :=
      if result_reg_no = -1 then store_var s.vals load_result_reg_no inst.self ARM64_TMP_REG_NO
      else []
    { s with code := s.code ++ load1 ++ load2 ++ [line] ++ store }
  | _ => s

/-- The method `InstSelectorArm64::translate_add_int32(inst)`. -/
def translate_add_int32 (s : Selector) (inst : Inst) : Selector :=
  translate_two_operator s inst "add"

/-- The method `InstSelectorArm64::translate_goto(inst)`; `emit(op, rs)` of
`branch` and `jump` puts the label in the first operand slot of the line. -/
def translate_goto (s : Selector) (gotoInst : GotoInstruction) : Selector :=
  match gotoInst.cond with
  | some _ =>
    if s.lstcmp ≠ IRINST_OP_MAX then
      { s with
        code := s.code ++ [{ opcode := "b" ++ CSTR s.lstcmp, result := gotoInst.iftrue },
                           { opcode := "b", result := gotoInst.iffalse }],
        lstcmp := IRINST_OP_MAX }
    else
      { s with
        code := s.code ++ [{ opcode := "b" ++ "ne", result := gotoInst.iftrue },
                           { opcode := "b", result := gotoInst.iffalse }] }
  | none => { s with code := s.code ++ [{ opcode := "b", result := gotoInst.iftrue }] }

/-- The fusion test of `translate_bi_op` (lines 488-497): the assembly buffer
with the opcode of its last line extended by `s`, when the right operand is the
constant 0, the left operand has a register whose name is the field `arg1` of
the last line, and that line is an `add` or a `sub`; `none` otherwise.  `back()`
of an empty buffer is undefined behaviour in the source and gives `none` here. -/
def fuseWithLast (s : Selector) (left right : VId) : Option (List ArmInst) :=
  if (s.vals right).kind = ValueKind.constInt ∧ (s.vals right).intVal = 0 then
    match s.code.getLast? with
    | some it =>
      let reg := (s.vals left).regId
      if 0 ≤ reg ∧ regName reg = it.arg1 ∧ (it.opcode = "add" ∨ it.opcode = "sub") then
        some (s.code.dropLast ++ [{ it with opcode := it.opcode ++ "s" }])
      else none
    | none => none
  else none

/-- The method `InstSelectorArm64::translate_bi_op(inst)`. -/
def translate_bi_op (s : Selector) (inst : Inst) : Selector :=
  if inst.op = IRINST_OP_IEQ ∨ inst.op = IRINST_OP_INE ∨ inst.op = IRINST_OP_IGT ∨
      inst.op = IRINST_OP_ILE ∨ inst.op = IRINST_OP_IGE ∨ inst.op = IRINST_OP_ILT then
    let s1 := { s with lstcmp := inst.op }
    match inst.operands with
    | left :: right :: _ =>
      match fuseWithLast s left right with
      | some code => { s1 with code := code }
      | none =>
        let x := (s.vals inst.self).regId
        let s2 := translate_two_operator
          { s1 with vals := setRegId s.vals inst.self ARM64_ZR_REG_NO } inst "subs"
        { s2 with vals := setRegId s2.vals inst.self x }
    | _ => s1
  else s

/-- The test of the peephole of `translate_xor_int32` (line 534): the opcode of
the left operand, when the right operand is the constant 1 and the left operand
is an instruction with an opcode from `IRINST_OP_IEQ` to `IRINST_OP_ILT`. -/
def xorPeephole (s : Selector) (inst : Inst) : Option IRInstOperator :=
  match inst.operands with
  | left :: right :: _ =>
    match s.instOp left with
    | some ir =>
      if (s.vals right).kind = ValueKind.constInt ∧ (s.vals right).intVal = 1 ∧
          IRINST_OP_IEQ.toInt ≤ ir.toInt ∧ ir.toInt ≤ IRINST_OP_ILT.toInt then some ir
      else none
    | none => none
  | _ => none

/-- The method `InstSelectorArm64::translate_xor_int32(inst)`.
Modelled from the spec: `SimpleRegisterAllocator` is not part of the sources;
`allocated` is the register id that `simpleRegisterAllocator.Allocate(inst)`
returns, and `Allocate` and `free` emit no line and leave the register id of
`inst` alone. -/
def translate_xor_int32 (s : Selector) (inst : Inst) (allocated : Int) : Selector :=
  match xorPeephole s inst with
  | some ir =>
    let regId := (s.vals inst.self).regId
    let load_regId := if regId = -1 then allocated else regId
    let line : ArmInst :=
      { opcode := "cset", result := regName load_regId, arg1 := CSTRJ ir }
    let store := if regId = -1 then store_var s.vals load_regId inst.self ARM64_FP_REG_NO else []
    { s with code := s.code ++ [line] ++ store }
  | none => translate_two_operator s inst "eor"

/-! ## Instruction selection: cast and remainder (InstSelectorArm64.cpp, lines 381-403 and 508-527) -/

/-- The enumeration `CastInstruction::CastType` (`CastInstruction.h`). -/
inductive CastType where
  | INT_TO_FLOAT
  | FLOAT_TO_INT
  | BOOL_TO_INT
  | INT_TO_BOOL
  deriving DecidableEq, Repr

/-- The method `InstSelectorArm64::translate_cast(inst)`; `castType` is
`cast->getCastType()`.  A cast without operand is undefined behaviour in the
source and emits nothing here. -/
def translate_cast (s : Selector) (inst : Inst) (castType : CastType) : Selector :=
  match inst.operands with
  | arg :: _ =>
    match castType with
    | CastType.BOOL_TO_INT =>
      let reg0 := (s.vals arg).regId
      let load := if reg0 = -1 then load_var s.vals ARM64_TMP_REG_NO arg else []
      let reg := if reg0 = -1 then ARM64_TMP_REG_NO2 else reg0
      let line : ArmInst := { opcode := "cset", result := regName reg, arg1 := CSTR s.lstcmp }
      let store :=
        if reg = ARM64_TMP_REG_NO2 then store_var s.vals ARM64_TMP_REG_NO2 arg ARM64_TMP_REG_NO
        else []
      { s with code := s.code ++ load ++ [line] ++ store }
    | _ => s
  | [] => s

/-- The method `InstSelectorArm64::translate_rem_int32(inst)`. -/
def translate_rem_int32 (s : Selector) (inst : Inst) : Selector :=
  match inst.operands with
  | arg1 :: arg2 :: _ =>
    let reg1 := (s.vals arg1).regId
    let reg2 := (s.vals arg2).regId
    let res := (s.vals inst.self).regId
    let s1 : Selector :=
      if res ≠ -1 then
        if res = reg1 then
          { s with
            code := s.code ++ [{ opcode := "mov", result := regName ARM64_TMP_REG_NO,
                                 arg1 := regName reg1 }],
            vals := setRegId s.vals arg1 ARM64_TMP_REG_NO }
        else if res = reg2 then
          { s with
            code := s.code ++ [{ opcode := "mov", result := regName ARM64_TMP_REG_NO,
                                 arg1 := regName reg2 }],
            vals := setRegId s.vals arg2 ARM64_TMP_REG_NO }
        else s
      else s
    let s2 := translate_two_operator s1 inst "rem"
    { s2 with vals := setRegId (setRegId s2.vals arg1 reg1) arg2 reg2 }
  | _ => s

/-- The body of the assembler macro `rem dst, divd, divr` that
`CodeGeneratorArm64::genHeader` writes, with its arguments substituted. -/
def remMacro (dst divd divr : String) : List String :=
  ["sdiv " ++ dst ++ ", " ++ divd ++ ", " ++ divr,
   "msub " ++ dst ++ ", " ++ dst ++ ", " ++ divr ++ ", " ++ divd]

/-! ## Dead-label elimination (ILocArm64.cpp, lines 42-68) -/

/-- The test `arm->opcode[0] == c`; the first character of an empty string is
the terminating zero, which is neither `'.'` nor `'b'`. -/
def opcodeStartsWith (arm : ArmInst) (c : Char) : Bool :=
  decide (arm.opcode.data.head? = some c)

/-- The test of the first loop of `deleteUsedLabel`:
`(!arm->dead) && (arm->opcode[0] == '.') && (arm->result == ":")`. -/
def isLabelLine (arm : ArmInst) : Bool :=
  !arm.dead && opcodeStartsWith arm '.' && decide (arm.result = ":")

/-- The inner loop of `deleteUsedLabel`: some line of the buffer satisfies
`(!arm->dead) && (arm->opcode[0] == 'b') && (arm->result == labelArm->opcode)`. -/
def labelUsed (code : List ArmInst) (name : String) : Bool :=
  code.any (fun arm => !arm.dead && opcodeStartsWith arm 'b' && decide (arm.result = name))

/-- The vector `labelInsts` of `deleteUsedLabel`, as positions in the buffer. -/
def labelInsts (code : List ArmInst) : List Nat :=
  (List.range code.length).filter (fun i =>
    match code[i]? with
    | some arm => isLabelLine arm
    | none => false)

/-- The second loop of `deleteUsedLabel` over the collected labels; `setDead()`
sets the flag `dead` of the line. -/
def markUnusedLabels : List Nat → List ArmInst → List ArmInst
  | [], code => code
  | i :: rest, code =>
    match code[i]? with
    | some labelArm =>
      if labelUsed code labelArm.opcode then markUnusedLabels rest code
      else markUnusedLabels rest (code.set i { labelArm with dead := true })
    | none => markUnusedLabels rest code

/-- The method `ILocArm64::deleteUsedLabel()` on the assembly buffer. -/
def deleteUsedLabel (code : List ArmInst) : List ArmInst :=
  markUnusedLabels (labelInsts code) code

/-! ## Instruction selection: GEP (InstSelectorArm64.cpp, lines 405-443; ArrayType.h, lines 95-98) -/

/-- An IR type as far as `translate_gep` reads it: an `ArrayType` with its element
type and element count (`ArrayType.h`), or a type that is no array, given by the
result of its `getSize()`. -/
inductive IRType where
  | scalar (size : Int)
  | array (elementType : IRType) (numElements : Nat)
  deriving DecidableEq, Repr

/-- The method `Type::getSize()`; for an `ArrayType` (`ArrayType.h`, lines 95-98)
it is `elementType->getSize() * numElements`, an `int32_t` times a `uint32_t`
returned as `int32_t`. -/
def IRType.getSize : IRType → Int
  | IRType.scalar size => size
  | IRType.array elementType numElements =>
    ofU32 ((toU32 elementType.getSize * (numElements % 4294967296)) % 4294967296)

/-- The value `((ArrayType*)(inst->getType()))->getElementType()->getSize()` that
`translate_gep` stores in the `uint32_t l`.  The cast of a type that is no array
is undefined behaviour in the source and gives 0 here. -/
def gepElementSize : IRType → Nat
  | IRType.array elementType _ => toU32 elementType.getSize
  | IRType.scalar _ => 0

/-- The loop behind `__builtin_popcount`: the number of 1 bits among the lowest
`fuel` bits. -/
def popcountLoop : Nat → Nat → Nat
  | 0, _ => 0
  | fuel + 1, l => l % 2 + popcountLoop fuel (l / 2)

/-- The GCC builtin `__builtin_popcount` on a 32-bit `unsigned int`. -/
def __builtin_popcount (l : Nat) : Nat := popcountLoop 32 l

/-- The loop behind `__builtin_ctz`: the number of 0 bits below the lowest 1 bit
among the lowest `fuel` bits. -/
def ctzLoop : Nat → Nat → Nat
  | 0, _ => 0
  | fuel + 1, l => if l % 2 = 1 then 0 else 1 + ctzLoop fuel (l / 2)

/-- The GCC builtin `__builtin_ctz` on a 32-bit `unsigned int`; its result for 0
is undefined in the source and 32 here. -/
def __builtin_ctz (l : Nat) : Nat := ctzLoop 32 l

/-- The value of an expression of type `int64_t`. -/
def toI64 (x : Int) : Int := (x + 9223372036854775808) % 18446744073709551616 - 9223372036854775808

/-- The method `InstSelectorArm64::translate_gep(inst)`; `ty` is `inst->getType()`.
`getMemoryAddr` leaves `baseReg` at -1 and `baseOff` uninitialised when the base
operand has no memory address; the embedding reads 0 for `baseOff` then. -/
def translate_gep (s : Selector) (inst : Inst) (ty : IRType) : Selector :=
  match inst.operands with
  | arg1 :: arg2 :: _ =>
    let base := s.vals arg1
    let baseReg0 : Int := if base.hasMemoryAddr then base.baseRegNo else -1
    let baseOff : Int := if base.hasMemoryAddr then base.offset else 0
    let l := gepElementSize ty
    if (s.vals arg2).kind = ValueKind.constInt then
      let prod : Nat := (toU32 (s.vals arg2).intVal * l) % 4294967296
      { s with vals := setMemoryAddr s.vals inst.self baseReg0 (toI64 (baseOff + (prod : Int))) }
    else
      let load1 := if baseReg0 = -1 then load_var s.vals ARM64_TMP_REG_NO arg1 else []
      let baseReg := if baseReg0 = -1 then ARM64_TMP_REG_NO else baseReg0
      let reg20 := (s.vals arg2).regId
      let load2 := if reg20 = -1 then load_var s.vals ARM64_TMP_REG_NO2 arg2 else []
      let reg2 := if reg20 = -1 then ARM64_TMP_REG_NO2 else reg20
      let lines : List ArmInst :=
        if __builtin_popcount l = 1 then
          [{ opcode := "add", result := xregs ARM64_TMP_REG_NO2, arg1 := xregs baseReg,
             arg2 := xregs reg2 ++ ",lsl " ++ toString (__builtin_ctz l) }]
        else
          [{ opcode := "mov", result := xregs ARM64_TMP_REG_NO, arg1 := "#" ++ toString l },
           { opcode := "madd", result := xregs ARM64_TMP_REG_NO2, arg1 := xregs reg2,
             arg2 := xregs ARM64_TMP_REG_NO ++ ",x" ++ toString baseReg }]
      { s with
        code := s.code ++ load1 ++ load2 ++ lines,
        vals := setMemoryAddr s.vals inst.self ARM64_TMP_REG_NO2 baseOff }
  | _ => s

/-! ## Instruction selection: STORE (InstSelectorArm64.cpp, lines 445-460) -/

/-- The method `InstSelectorArm64::translate_store(inst)`.  An instruction with
fewer than two operands is undefined behaviour in the source and emits nothing
here. -/
def translate_store (s : Selector) (inst : Inst) : Selector :=
  match inst.operands with
  | ptr :: src :: _ =>
    let off : Int := 0
    let basereg := (s.vals ptr).regId
    let loadreg := (s.vals src).regId
    let load := if loadreg = -1 then load_var s.vals ARM64_TMP_REG_NO src else []
    let loadreg := if loadreg = -1 then ARM64_TMP_REG_NO else loadreg
    let addr : Int × Int :=
      if basereg = -1 then
        if (s.vals ptr).hasMemoryAddr then ((s.vals ptr).baseRegNo, (s.vals ptr).offset)
        else (basereg, off)
      else (basereg, off)
    { s with code := s.code ++ load ++ store_base loadreg addr.1 addr.2 ARM64_TMP_REG_NO }
  | _ => s

/-! ## Array types (ArrayType.cpp, lines 22-84) -/

/-- The method `Type::isArrayType()`. -/
def IRType.isArrayType : IRType → Bool
  | IRType.scalar _ => false
  | IRType.array _ _ => true

/-- The `while` loop of `ArrayType::getDimensions`, with the `uint32_t` counter
`i`. -/
def getDimensionsLoop : IRType → Nat → Nat
  | IRType.scalar _, i => i
  | IRType.array elementType _, i => getDimensionsLoop elementType ((i + 1) % 4294967296)

/-- The method `ArrayType::getDimensions()`; it is a method of `ArrayType` only
and gives 0 here for a type that is no array. -/
def IRType.getDimensions : IRType → Nat
  | IRType.scalar _ => 0
  | IRType.array elementType _ => getDimensionsLoop elementType 1

/-- The method `ArrayType::getDimensionSizes()`: the `do ... while` loop pushes
`numElements` and steps to the element type as long as that is an array.  It is
a method of `ArrayType` only and gives the empty vector here for a type that is
no array. -/
def IRType.getDimensionSizes : IRType → List Nat
  | IRType.scalar _ => []
  | IRType.array elementType numElements => numElements :: elementType.getDimensionSizes

/-- The method `ArrayType::getBaseElementType()`: the element type of the
innermost array.  It is a method of `ArrayType` only and gives the type itself
here for a type that is no array. -/
def IRType.getBaseElementType : IRType → IRType
  | IRType.scalar size => IRType.scalar size
  | IRType.array elementType _ =>
    if elementType.isArrayType then elementType.getBaseElementType else elementType

/-- The method `ArrayType::createMultiDimensional(baseType, dimensions)`:
`nullptr` (here `none`) for the empty vector; otherwise the loop wraps
`currentType` in an `ArrayType` for `dimensions[i]`, `i` going down from the last
index to 0. -/
def createMultiDimensional (baseType : IRType) (dimensions : List Nat) : Option IRType :=
  if dimensions.isEmpty then none
  else some (dimensions.reverse.foldl (fun currentType d => IRType.array currentType d) baseType)

/-! ## Label renaming (CodeGeneratorArm64.cpp, lines 143-151) -/

/-- Modelled from the spec: the constant `IR_LABEL_PREFIX`, declared in a header
that is not part of the sources; labels are of the form `.L<index>`. -/
def IR_LABEL_PREFIX : String := ".L"

/-- Modelled from the spec: the call `v->setName(name)` (`Value.h` is not part of
the sources); it writes the name that `getName()` reads. -/
def setName (st : Store) (v : VId) (name : String) : Store :=
  fun x => if x = v then { st x with name := name } else st x

/-- The label loop of `genCodeSection` (lines 147-151): every `LABEL` instruction
is renamed to `IR_LABEL_PREFIX + std::to_string(labelIndex++)`.  Returns the
store and the counter.  The counter `labelIndex` is declared in a header that is
not part of the sources; it is taken as a counter that does not overflow. -/
def renameLabels : List Inst → Store → Nat → Store × Nat
  | [], st, labelIndex => (st, labelIndex)
  | inst :: rest, st, labelIndex =>
    if inst.op = IRINST_OP_LABEL then
      renameLabels rest (setName st inst.self (IR_LABEL_PREFIX ++ toString labelIndex))
        (labelIndex + 1)
    else renameLabels rest st labelIndex

/-! ## Instruction selection: the remaining handlers, the dispatch and the pipeline -/

/-- The method `InstSelectorArm64::translate_assign(inst)`.
Modelled from the spec: `SimpleRegisterAllocator` is not part of the sources;
`allocated` is the register id that `simpleRegisterAllocator.Allocate()` returns
in the memory-to-memory case, and `Allocate` and `free` emit no line.  An
instruction with fewer than two operands is undefined behaviour in the source
and emits nothing here. -/
def translate_assign (s : Selector) (inst : Inst) (allocated : Int) : Selector :=
  match inst.operands with
  | result :: arg1 :: _ =>
    let arg1_regId := (s.vals arg1).regId
    let result_regId := (s.vals result).regId
    if arg1_regId ≠ -1 then
      { s with code := s.code ++ store_var s.vals arg1_regId result ARM64_TMP_REG_NO }
    else if result_regId ≠ -1 then
      { s with code := s.code ++ load_var s.vals result_regId arg1 }
    else
      { s with
        code := s.code ++ load_var s.vals allocated arg1 ++
          store_var s.vals allocated result ARM64_TMP_REG_NO }
  | _ => s

/-- The method `InstSelectorArm64::translate_label(inst)`: a branch to this very
label at the end of the buffer is flagged dead, then the label line is emitted.
`back()` of an empty buffer is undefined behaviour in the source; nothing is
flagged here then. -/
def translate_label (s : Selector) (inst : Inst) : Selector :=
  let name := (s.vals inst.self).name
  let code :=
    match s.code.getLast? with
    | some ai =>
      if opcodeStartsWith ai 'b' && decide (ai.result = name) then
        s.code.dropLast ++ [{ ai with dead := true }]
      else s.code
    | none => s.code
  { s with code := code ++ [{ opcode := name, result := ":" }] }

/-- The method `InstSelectorArm64::translate_load(inst)`.  An instruction
without operand is undefined behaviour in the source and emits nothing here. -/
def translate_load (s : Selector) (inst : Inst) : Selector :=
  match inst.operands with
  | addr :: _ =>
    let off : Int := 0
    let basereg := (s.vals addr).regId
    let loadreg := (s.vals inst.self).regId
    let load := if loadreg = -1 then load_var s.vals ARM64_TMP_REG_NO addr else []
    let loadreg := if loadreg = -1 then ARM64_TMP_REG_NO else loadreg
    let at_ : Int × Int :=
      if basereg = -1 then
        if (s.vals addr).hasMemoryAddr then ((s.vals addr).baseRegNo, (s.vals addr).offset)
        else (basereg, off)
      else (basereg, off)
    { s with code := s.code ++ load ++ load_base loadreg at_.1 at_.2 }
  | [] => s

/-- The state of `InstSelectorArm64`: the state that the handlers above read and
write, the member `realArgCount`, and the creation counter of the function for
the values that `translate_call` creates. -/
structure InstSelector extends Selector where
  realArgCount : Int := 0
  newCnt : Nat := 0

/-- Modelled from the spec: `SimpleRegisterAllocator` is not part of the sources.
`allocated` is the register id that `Allocate()` returns when no register is
reserved, `allocatedInCall` the one it returns while `translate_call` has
reserved x0..x7; `Allocate` and `free` emit no line. -/
structure SimpleRegisterAllocator where
  allocated : Int
  allocatedInCall : Int
  deriving DecidableEq, Repr

/-- What the handlers read of an instruction beyond the fields of `Inst`:
`condiValue`, `iftrue` and `iffalse` of a `GotoInstruction` (the targets are
`LABEL` instructions, `nullptr` is `none`), `getCastType()` of a
`CastInstruction`, `getType()`, and `calledFunction->getParams().size()` of a
`FuncCallInstruction`. -/
structure InstExtra where
  condiValue : Option VId := none
  iftrue : Option VId := none
  iffalse : Option VId := none
  castType : CastType := CastType.INT_TO_FLOAT
  type : IRType := IRType.scalar 4
  calledParams : Nat := 0

/-- The name `getName()` of a label that a goto points to; a null target is
undefined behaviour in the source and gives the empty name here. -/
def targetName (st : Store) (target : Option VId) : String :=
  match target with
  | some l => (st l).name
  | none => ""

/-- Modelled from the spec: the store entry of the value that
`func->newMemVariable(type)` creates (`Function.h` is not part of the sources),
after `setMemoryAddr(ARM64_SP_REG_NO, esp)`: a memory variable without register
at `(SP, esp)`. -/
def newMemVariableValue (esp : Int) : Value :=
  { kind := ValueKind.memVariable, size := 8, baseRegNo := ARM64_SP_REG_NO, offset := esp }

/-- The first loop of `translate_call` (arguments 8, 9, ...): `args` are the
operands from index 8 on, cut to the number of parameters of the callee. -/
def callStackArgs (allocated : Int) : List VId → Int → InstSelector → InstSelector
  | [], _, s => s
  | arg :: rest, esp, s =>
    let newVal := VId.newLocal s.newCnt
    let st : Store := fun x => if x = newVal then newMemVariableValue esp else s.vals x
    let assignInst := MoveInstruction (VId.newInst (s.newCnt + 1)) newVal arg
    let t := translate_assign { s.toSelector with vals := st } assignInst allocated
    callStackArgs allocated rest (esp + 4) { s with toSelector := t, newCnt := s.newCnt + 2 }

/-- The second loop of `translate_call` (arguments 0..7): `args` are the first
eight operands, cut to the number of parameters of the callee; `d` counts the
arguments that were moved. -/
def callRegArgs (callSelf : VId) (allocated : Int) :
    List VId → Nat → InstSelector → InstSelector
  | [], _, s => s
  | arg :: rest, d, s =>
    if arg = callSelf then callRegArgs callSelf allocated rest d s
    else
      let assignInst := MoveInstruction (VId.newInst s.newCnt) (VId.intRegVal d) arg
      let t := translate_assign s.toSelector assignInst allocated
      callRegArgs callSelf allocated rest (d + 1)
        { s with toSelector := t, newCnt := s.newCnt + 1 }

/-- The method `InstSelectorArm64::translate_call(inst)`; `operandNum` is
`calledFunction->getParams().size()`.  Reading an operand that the call does not
have is undefined behaviour in the source; the loops stop at the last operand
here. -/
def translate_call (s : InstSelector) (inst : Inst) (operandNum : Nat)
    (allocator : SimpleRegisterAllocator) : InstSelector :=
  let s1 :=
    if operandNum ≠ 0 then
      let s0 := callStackArgs allocator.allocatedInCall
        ((inst.operands.take operandNum).drop 8) 0 s
      callRegArgs inst.self allocator.allocatedInCall
        ((inst.operands.take operandNum).take 8) 0 s0
    else s
  { s1 with
    code := s1.code ++ [{ opcode := "bl", result := (s.vals inst.self).name }],
    realArgCount := 0 }

/-- The method `InstSelectorArm64::translate_arg(inst)`: it logs and counts. -/
def translate_arg (s : InstSelector) (_inst : Inst) : InstSelector :=
  { s with realArgCount := s.realArgCount + 1 }

/-- The opcodes for which the constructor of `InstSelectorArm64` registers a
handler (lines 51-87). -/
def registeredOps : List IRInstOperator :=
  [IRINST_OP_ENTRY, IRINST_OP_EXIT, IRINST_OP_LABEL, IRINST_OP_GOTO, IRINST_OP_ASSIGN,
   IRINST_OP_IADD, IRINST_OP_ISUB, IRINST_OP_IMUL, IRINST_OP_IDIV, IRINST_OP_IMOD,
   IRINST_OP_FUNC_CALL, IRINST_OP_ARG,
   IRINST_OP_IEQ, IRINST_OP_INE, IRINST_OP_IGT, IRINST_OP_IGE, IRINST_OP_ILT, IRINST_OP_ILE,
   IRINST_OP_FADD, IRINST_OP_FSUB, IRINST_OP_FMUL, IRINST_OP_FDIV, IRINST_OP_FMOD,
   IRINST_OP_GEP, IRINST_OP_STORE, IRINST_OP_LOAD, IRINST_OP_CAST, IRINST_OP_XOR]

/-- The method `InstSelectorArm64::translate(inst)`: an opcode that is
`IRINST_OP_MAX` or beyond, or that has no registered handler, only prints a
message; otherwise the registered handler runs (`setShowLinearIR(false)` is in
force, so no comment line is emitted).
Modelled from the spec: the table `translator_handlers` is declared in
`InstSelectorArm64.h`, which is not part of the sources; an entry that the
constructor does not fill is taken to be null. -/
def translate (func : Func) (extra : VId → InstExtra) (allocator : SimpleRegisterAllocator)
    (s : InstSelector) (inst : Inst) : InstSelector :=
  if IRINST_OP_MAX.toInt ≤ inst.op.toInt ∨ inst.op ∉ registeredOps then s
  else
    match inst.op with
    | IRINST_OP_ENTRY =>
      { s with code := s.code ++ translate_entry { func with vals := s.vals } }
    | IRINST_OP_EXIT =>
      { s with code := s.code ++ translate_exit { func with vals := s.vals } inst }
    | IRINST_OP_LABEL => { s with toSelector := translate_label s.toSelector inst }
    | IRINST_OP_GOTO =>
      { s with
        toSelector := translate_goto s.toSelector
          { cond := (extra inst.self).condiValue,
            iftrue := targetName s.vals (extra inst.self).iftrue,
            iffalse := targetName s.vals (extra inst.self).iffalse } }
    | IRINST_OP_ASSIGN =>
      { s with toSelector := translate_assign s.toSelector inst allocator.allocated }
    | IRINST_OP_IADD => { s with toSelector := translate_add_int32 s.toSelector inst }
    | IRINST_OP_ISUB => { s with toSelector := translate_two_operator s.toSelector inst "sub" }
    | IRINST_OP_IMUL => { s with toSelector := translate_two_operator s.toSelector inst "mul" }
    | IRINST_OP_IDIV => { s with toSelector := translate_two_operator s.toSelector inst "sdiv" }
    | IRINST_OP_IMOD => { s with toSelector := translate_rem_int32 s.toSelector inst }
    | IRINST_OP_FUNC_CALL => translate_call s inst (extra inst.self).calledParams allocator
    | IRINST_OP_ARG => translate_arg s inst
    | IRINST_OP_IEQ => { s with toSelector := translate_bi_op s.toSelector inst }
    | IRINST_OP_INE => { s with toSelector := translate_bi_op s.toSelector inst }
    | IRINST_OP_IGT => { s with toSelector := translate_bi_op s.toSelector inst }
    | IRINST_OP_IGE => { s with toSelector := translate_bi_op s.toSelector inst }
    | IRINST_OP_ILT => { s with toSelector := translate_bi_op s.toSelector inst }
    | IRINST_OP_ILE => { s with toSelector := translate_bi_op s.toSelector inst }
    | IRINST_OP_FADD => { s with toSelector := translate_two_operator s.toSelector inst "fadd" }
    | IRINST_OP_FSUB => { s with toSelector := translate_two_operator s.toSelector inst "fsub" }
    | IRINST_OP_FMUL => { s with toSelector := translate_two_operator s.toSelector inst "fmul" }
    | IRINST_OP_FDIV => { s with toSelector := translate_two_operator s.toSelector inst "fdiv" }
    | IRINST_OP_FMOD => { s with toSelector := translate_two_operator s.toSelector inst "fmod" }
    | IRINST_OP_GEP =>
      { s with toSelector := translate_gep s.toSelector inst (extra inst.self).type }
    | IRINST_OP_STORE => { s with toSelector := translate_store s.toSelector inst }
    | IRINST_OP_LOAD => { s with toSelector := translate_load s.toSelector inst }
    | IRINST_OP_CAST =>
      { s with toSelector := translate_cast s.toSelector inst (extra inst.self).castType }
    | IRINST_OP_XOR =>
      { s with toSelector := translate_xor_int32 s.toSelector inst allocator.allocated }
    | _ => s

/-- The method `InstSelectorArm64::run()`: every instruction that is not flagged
dead is translated, in order. -/
def run (func : Func) (extra : VId → InstExtra) (allocator : SimpleRegisterAllocator)
    (ir : List Inst) (s : InstSelector) : InstSelector :=
  ir.foldl (fun s inst => if inst.dead then s else translate func extra allocator s inst) s

/-- The opcode `getOp()` of a value that is an instruction of `insts`. -/
def instOpOf (insts : List Inst) (v : VId) : Option IRInstOperator :=
  (insts.find? (fun i => decide (i.self = v))).map Inst.op

/-- The method `CodeGeneratorArm64::genCodeSection(func)` up to the output of
the buffer: `registerAllocation`, the label loop, instruction selection on a
fresh buffer and `deleteUsedLabel`.  Returns the assembly buffer and the counter
`labelIndex`.  Modelled from the spec: the initial values of the members
`lstcmp` (`IRINST_OP_MAX`) and `realArgCount` (0) are set in
`InstSelectorArm64.h`, which is not part of the sources. -/
def genCodeSection (func : Func) (extra : VId → InstExtra)
    (allocator : SimpleRegisterAllocator) (labelIndex : Nat) : List ArmInst × Nat :=
  let func1 := registerAllocation func
  let r := renameLabels func1.insts func1.vals labelIndex
  let s0 : InstSelector :=
    { code := [], lstcmp := IRINST_OP_MAX, vals := r.1, instOp := instOpOf func1.insts,
      realArgCount := 0, newCnt := func1.newCnt }
  let s := run func1 extra allocator func1.insts s0
  (deleteUsedLabel s.code, r.2)

/-! ## The save and restore lines named in the statements -/

/-- The `stp` line that saves the pair `xa, xb`. -/
def stpLine (xa xb : Int) : ArmInst :=
  { opcode := "stp", result := "x" ++ toString xa, arg1 := "x" ++ toString xb,
    arg2 := "[sp,#-16]!" }

/-- The `str` line that saves the single register `xa`. -/
def strLine (xa : Int) : ArmInst :=
  { opcode := "str", result := "x" ++ toString xa, arg1 := "[sp,#-16]!" }

/-- The `ldp` line that restores the pair `xa, xb`. -/
def ldpLine (xa xb : Int) : ArmInst :=
  { opcode := "ldp", result := "x" ++ toString xa, arg1 := "x" ++ toString xb,
    arg2 := "[sp],#16" }

/-- The `ldr` line that restores the single register `xa`. -/
def ldrLine (xa : Int) : ArmInst :=
  { opcode := "ldr", result := "x" ++ toString xa, arg1 := "[sp],#16" }

/-- The restore line matching a save line: `ldp` for `stp` with the same two
registers in the same order, `ldr` for `str` with the same register. -/
def mirrorSave (a : ArmInst) : ArmInst :=
  if a.opcode = "stp" then
    { opcode := "ldp", result := a.result, arg1 := a.arg1, arg2 := "[sp],#16" }
  else { opcode := "ldr", result := a.result, arg1 := "[sp],#16" }

/-- The comparison that holds exactly when `c` does not: the logical negation
of an integer comparison opcode (other opcodes are left alone). -/
def negateCmp : IRInstOperator → IRInstOperator
  | IRINST_OP_IEQ => IRINST_OP_INE
  | IRINST_OP_INE => IRINST_OP_IEQ
  | IRINST_OP_IGT => IRINST_OP_ILE
  | IRINST_OP_ILE => IRINST_OP_IGT
  | IRINST_OP_IGE => IRINST_OP_ILT
  | IRINST_OP_ILT => IRINST_OP_IGE
  | c => c

/-- The six integer comparison opcodes. -/
def intCmpOps : List IRInstOperator :=
  [IRINST_OP_IEQ, IRINST_OP_INE, IRINST_OP_IGT, IRINST_OP_IGE, IRINST_OP_ILT, IRINST_OP_ILE]

/-- An `eor rd, rs1, rs2` line on the registers `rd`, `rs1`, `rs2`. -/
def eorLine (rd rs1 rs2 : Int) : ArmInst :=
  { opcode := "eor", result := regName rd, arg1 := regName rs1, arg2 := regName rs2 }

/-- The `cset` line with destination register `rd` and the condition suffix of
the negation of the comparison `c`. -/
def csetNegLine (rd : Int) (c : IRInstOperator) : ArmInst :=
  { opcode := "cset", result := regName rd, arg1 := CSTR (negateCmp c) }

/-- Rotation of the 32-bit pattern `b` right by `r` bit positions, `r <= 32`. -/
def rotateRight32 (b r : Nat) : Nat := ((b >>> r) ||| (b <<< (32 - r))) % 4294967296

/-- Rotation of a 32-bit pattern right by two bit positions, the inverse of
`roundLeftShiftTwoBit`. -/
def rotateRightTwoBit (x : Nat) : Nat := x / 4 + (x % 4) * 1073741824

/-- Modelled from the spec: the values of SP and FP after the lines of
`translate_entry`, from SP = `S` and FP = `F` before them, as the statement
describes the prologue.  Every save line of `entrySaves` (`stp` or `str` with
`[sp,#-16]!`) lowers SP by 16; unless the frame size `off` of `allocStack` is 0,
when `allocStack` emits nothing, `sub sp, sp, off` lowers SP by `off` and
`add x29, sp, #(8 * funcCallArgCnt)` sets FP.  The meaning of the emitted lines
is that of the machine, not of a function of the sources. -/
def entryEffect (func : Func) (S F : Int) : Int × Int :=
  let sp1 := S - 16 * ((entrySaves func.protectedReg).length : Int)
  let off := allocStackOff func
  if 0 = off then (sp1, F)
  else (sp1 - off, sp1 - off + allocStackArgCnt func * 8)

/-- Modelled from the spec: the generator runs `genCodeSection` on the functions
of the module in turn with one counter `labelIndex` (the driver,
`CodeGeneratorAsm`, is not part of the sources).  Of `genCodeSection` the label
loop is kept; returns the functions with their labels renamed and the counter. -/
def renameModuleLabels : List Func → Nat → List Func × Nat
  | [], labelIndex => ([], labelIndex)
  | func :: rest, labelIndex =>
    let r := renameLabels func.insts func.vals labelIndex
    let t := renameModuleLabels rest r.2
    ({ func with vals := r.1 } :: t.1, t.2)

/-! ## Sample inputs -/

/-- Sample store: `user 0` is a local array of 40 bytes, `user 1` and `user 2`
are integer locals. -/
def sampleArrayStore : Store := fun x =>
  match x with
  | VId.user 0 => { kind := ValueKind.localVariable, isArrayType := true, size := 40 }
  | VId.intRegVal k => { kind := ValueKind.regVariable, regId := k }
  | _ => { kind := ValueKind.localVariable }

/-- Sample function over `sampleArrayStore` that performs a call. -/
def sampleArrayFunc : Func :=
  { vals := sampleArrayStore, existFuncCall := true,
    protectedReg := [ARM64_FP_REG_NO, ARM64_LR_REG_NO] }

/-- Sample ranges: an integer local, the array, another integer local. -/
def sampleArrayRanges : List LiveRange :=
  [{ value := VId.user 1, start := 0, end_ := 3 },
   { value := VId.user 0, start := 1, end_ := 5 },
   { value := VId.user 2, start := 2, end_ := 4 }]

/-- Sample function with one spilled value: `user 0` is a local array of 40
bytes read by the `LOAD` at position 1. -/
def sampleSpillFunc : Func :=
  { vals := sampleArrayStore,
    insts := [{ self := VId.user 10, op := IRINST_OP_ENTRY },
              { self := VId.user 11, op := IRINST_OP_STORE, operands := [VId.user 0, VId.user 1] },
              { self := VId.user 12, op := IRINST_OP_EXIT }] }

/-- Store of the sample functions below: `user 0` .. `user 8` are formal
parameters, `user 20` .. `user 28` are the integer constants 1 .. 9, `user 100`
is the local that holds the return value, `intRegVal k` is the register variable
of register `k`, every other value is an instruction. -/
def sampleStore : Store := fun x =>
  match x with
  | VId.user n =>
    if n < 9 then { kind := ValueKind.formalParam }
    else if 20 ≤ n ∧ n < 29 then { kind := ValueKind.constInt, intVal := (n : Int) - 19 }
    else if n = 100 then { kind := ValueKind.localVariable }
    else { kind := ValueKind.instruction }
  | VId.intRegVal k => { kind := ValueKind.regVariable, regId := k }
  | _ => { kind := ValueKind.instruction }

/-- The function `void f(int a) { g(); }`: one formal parameter that the body
never uses, and one call without arguments and without result. -/
def sampleUnusedParamCaller : Func :=
  { vals := sampleStore, existFuncCall := true, params := [VId.user 0],
    insts := [{ self := VId.user 10, op := IRINST_OP_ENTRY },
              { self := VId.user 11, op := IRINST_OP_FUNC_CALL },
              { self := VId.user 12, op := IRINST_OP_EXIT }] }

/-- The function `int f(int a0, ..., int a8) { return a8; }`: nine formal
parameters, no call; the body moves the ninth parameter to the return value. -/
def sampleNineParamLeaf : Func :=
  { vals := sampleStore,
    params := [VId.user 0, VId.user 1, VId.user 2, VId.user 3, VId.user 4, VId.user 5,
               VId.user 6, VId.user 7, VId.user 8],
    insts := [{ self := VId.user 10, op := IRINST_OP_ENTRY },
              { self := VId.user 11, op := IRINST_OP_ASSIGN,
                operands := [VId.user 100, VId.user 8] },
              { self := VId.user 12, op := IRINST_OP_GOTO },
              { self := VId.user 13, op := IRINST_OP_LABEL },
              { self := VId.user 14, op := IRINST_OP_EXIT, operands := [VId.user 100] }] }

/-- The function `void f() { g(1, 2, 3, 4, 5, 6, 7, 8, 9); }`: one call with nine
constant arguments, nothing to spill. -/
def sampleNineArgCaller : Func :=
  { vals := sampleStore, existFuncCall := true, maxFuncCallArgCnt := 9,
    insts := [{ self := VId.user 10, op := IRINST_OP_ENTRY },
              { self := VId.user 11, op := IRINST_OP_FUNC_CALL,
                operands := [VId.user 20, VId.user 21, VId.user 22, VId.user 23, VId.user 24,
                             VId.user 25, VId.user 26, VId.user 27, VId.user 28] },
              { self := VId.user 12, op := IRINST_OP_EXIT }] }

/-- The function `int f(int a0, ..., int a8) { g(); return (a8 + 1) + a8; }`:
nine formal parameters and a call without arguments; `user 12` is
`t1 = a8 + 1`, `user 13` is `t2 = t1 + a8`.  Its four live ranges start at
different positions. -/
def sampleNineParamCaller : Func :=
  { vals := sampleStore, existFuncCall := true,
    params := [VId.user 0, VId.user 1, VId.user 2, VId.user 3, VId.user 4, VId.user 5,
               VId.user 6, VId.user 7, VId.user 8],
    insts := [{ self := VId.user 10, op := IRINST_OP_ENTRY },
              { self := VId.user 11, op := IRINST_OP_FUNC_CALL },
              { self := VId.user 12, op := IRINST_OP_IADD,
                operands := [VId.user 8, VId.user 20], hasResultValue := true },
              { self := VId.user 13, op := IRINST_OP_IADD,
                operands := [VId.user 12, VId.user 8], hasResultValue := true },
              { self := VId.user 14, op := IRINST_OP_ASSIGN,
                operands := [VId.user 100, VId.user 13] },
              { self := VId.user 15, op := IRINST_OP_EXIT, operands := [VId.user 100] }] }

/-- The function `int f() { return g(); }`: one call without arguments whose
result is moved to the return value. -/
def sampleResultCaller : Func :=
  { vals := sampleStore, existFuncCall := true,
    insts := [{ self := VId.user 10, op := IRINST_OP_ENTRY },
              { self := VId.user 11, op := IRINST_OP_FUNC_CALL, hasResultValue := true },
              { self := VId.user 12, op := IRINST_OP_ASSIGN,
                operands := [VId.user 100, VId.user 11] },
              { self := VId.user 13, op := IRINST_OP_EXIT, operands := [VId.user 100] }] }

/-- Sample store for the compare-and-branch sequence: `sampleStore` with the
integer constant 0 as `user 19`. -/
def sampleFusionStore : Store := fun x =>
  if x = VId.user 19 then { kind := ValueKind.constInt, intVal := 0 } else sampleStore x

/-- The function `int f(int a, int b) { if (a + b == 0) ... }` up to its branch:
`user 11` is `t1 = a + b`, `user 12` is `t2 = (t1 == 0)`; the conditional goto
carries `t2` as its condition, not as an operand. -/
def sampleFusionFunc : Func :=
  { vals := sampleFusionStore, params := [VId.user 0, VId.user 1],
    insts := [{ self := VId.user 10, op := IRINST_OP_ENTRY },
              { self := VId.user 11, op := IRINST_OP_IADD,
                operands := [VId.user 0, VId.user 1], hasResultValue := true },
              { self := VId.user 12, op := IRINST_OP_IEQ,
                operands := [VId.user 11, VId.user 19], hasResultValue := true },
              { self := VId.user 13, op := IRINST_OP_GOTO },
              { self := VId.user 14, op := IRINST_OP_LABEL },
              { self := VId.user 15, op := IRINST_OP_EXIT }] }

/-- Sample store for the negation of a comparison: `sampleStore` with the
instruction `user 13`, the XOR, spilled to `(FP, 16)`. -/
def sampleXorStore : Store := fun x =>
  if x = VId.user 13 then { kind := ValueKind.instruction, baseRegNo := 29, offset := 16 }
  else sampleStore x

/-- Selector state for `c = a < b; n = c ^ 1` with `n` memory-resident: `user 12`
is the comparison `c`, `user 13` the XOR `n`, `user 20` the constant 1. -/
def sampleXorSelector : Selector :=
  { vals := sampleXorStore,
    instOp := fun x => if x = VId.user 12 then some IRINST_OP_ILT else none }

/-- Selector state for `c = a < b; x = (int) c` behind the comparison: `user 12`
is the comparison `c` in register 20, `user 13` the cast in register 21. -/
def sampleCastSelector : Selector :=
  { vals := setRegId (setRegId sampleStore (VId.user 12) 20) (VId.user 13) 21,
    lstcmp := IRINST_OP_ILT }

/-- The state `sampleCastSelector` with the comparison `c` spilled to `(FP, 16)`. -/
def sampleCastSpilledSelector : Selector :=
  { vals := setRegId (setMemoryAddr sampleStore (VId.user 12) 29 16) (VId.user 13) 21,
    lstcmp := IRINST_OP_ILT }

/-- The cast `x = (int) c` of the samples. -/
def sampleCast : Inst :=
  { self := VId.user 13, op := IRINST_OP_CAST, operands := [VId.user 12],
    hasResultValue := true }

/-- Selector state for `r = a % 3` with `a` in register 19 and the result `r`
(`user 11`) spilled to `(FP, 8)`; `user 22` is the constant 3. -/
def sampleRemSelector : Selector :=
  { vals := setMemoryAddr (setRegId sampleStore (VId.user 0) 19) (VId.user 11) 29 8 }

/-- Selector state for `r = a % b` with `a`, `b` and `r` spilled to `(FP, 0)`,
`(FP, 4)` and `(FP, 8)`. -/
def sampleRemSpilledSelector : Selector :=
  { vals := setMemoryAddr (setMemoryAddr (setMemoryAddr sampleStore (VId.user 0) 29 0)
      (VId.user 1) 29 4) (VId.user 11) 29 8 }

/-- The remainder `r = a % 3` of `sampleRemSelector`. -/
def sampleRemConst : Inst :=
  { self := VId.user 11, op := IRINST_OP_IMOD, operands := [VId.user 0, VId.user 22],
    hasResultValue := true }

/-- The remainder `r = a % b` of `sampleRemSpilledSelector`. -/
def sampleRem : Inst :=
  { self := VId.user 11, op := IRINST_OP_IMOD, operands := [VId.user 0, VId.user 1],
    hasResultValue := true }

/-- Selector state for `p = gep arr[i]`: the array `user 100` lives at `(FP, 16)`,
the index `user 0` in register 19, `user 22` is the constant 3; `user 11` is the
GEP. -/
def sampleGepSelector : Selector :=
  { vals := setMemoryAddr (setRegId sampleStore (VId.user 0) 19) (VId.user 100) 29 16 }

/-- The GEP `p = gep arr[i]` of `sampleGepSelector`. -/
def sampleGep : Inst :=
  { self := VId.user 11, op := IRINST_OP_GEP, operands := [VId.user 100, VId.user 0],
    hasResultValue := true }

/-- The GEP `p = gep arr[3]` of `sampleGepSelector`. -/
def sampleGepConst : Inst :=
  { self := VId.user 11, op := IRINST_OP_GEP, operands := [VId.user 100, VId.user 22],
    hasResultValue := true }

/-- Sample ranges of two integer locals: the first ends at index 2, where the
second starts. -/
def sampleTouchingRanges : List LiveRange :=
  [{ value := VId.user 1, start := 0, end_ := 2 },
   { value := VId.user 2, start := 2, end_ := 3 }]

/-- Sample store with two local arrays: `user 0` of 40 bytes and `user 1` of 12
bytes; `user 2` is an integer local. -/
def sampleTwoArrayStore : Store := fun x =>
  match x with
  | VId.user 0 => { kind := ValueKind.localVariable, isArrayType := true, size := 40 }
  | VId.user 1 => { kind := ValueKind.localVariable, isArrayType := true, size := 12 }
  | VId.intRegVal k => { kind := ValueKind.regVariable, regId := k }
  | _ => { kind := ValueKind.localVariable }

/-- Sample function with two spilled values: the arrays `user 0` and `user 1`
are written by the `STORE`s at positions 1 and 2. -/
def sampleTwoArrayFunc : Func :=
  { vals := sampleTwoArrayStore,
    insts := [{ self := VId.user 10, op := IRINST_OP_ENTRY },
              { self := VId.user 11, op := IRINST_OP_STORE, operands := [VId.user 0, VId.user 2] },
              { self := VId.user 12, op := IRINST_OP_STORE, operands := [VId.user 1, VId.user 2] },
              { self := VId.user 13, op := IRINST_OP_EXIT }] }

/-- Store of `sampleNineParamArrayCaller`: as `sampleStore`, and `user 50` is a
local array of 40 bytes. -/
def sampleFrameStore : Store := fun x =>
  match x with
  | VId.user 50 => { kind := ValueKind.localVariable, isArrayType := true, size := 40 }
  | v => sampleStore v

/-- The function `int f(int a0, ..., int a8) { int t[10]; t[0] = 1; g(); return a8; }`:
nine formal parameters, a local array and a call without arguments. -/
def sampleNineParamArrayCaller : Func :=
  { vals := sampleFrameStore, existFuncCall := true,
    params := [VId.user 0, VId.user 1, VId.user 2, VId.user 3, VId.user 4, VId.user 5,
               VId.user 6, VId.user 7, VId.user 8],
    insts := [{ self := VId.user 10, op := IRINST_OP_ENTRY },
              { self := VId.user 11, op := IRINST_OP_STORE,
                operands := [VId.user 50, VId.user 20] },
              { self := VId.user 12, op := IRINST_OP_FUNC_CALL },
              { self := VId.user 13, op := IRINST_OP_ASSIGN,
                operands := [VId.user 100, VId.user 8] },
              { self := VId.user 14, op := IRINST_OP_EXIT, operands := [VId.user 100] }] }

/-- Store of `sampleBigFrameFunc`: as `sampleStore`, `user 50` is a local array of
4096 bytes, `user 51` a local array of 40 bytes and `user 52` an integer local. -/
def sampleBigFrameStore : Store := fun x =>
  match x with
  | VId.user 50 => { kind := ValueKind.localVariable, isArrayType := true, size := 4096 }
  | VId.user 51 => { kind := ValueKind.localVariable, isArrayType := true, size := 40 }
  | VId.user 52 => { kind := ValueKind.localVariable }
  | v => sampleStore v

/-- The function `void f() { int a[1024]; int b[10]; a[0] = 5; b[0] = 5; }`:
`user 24` is the constant 5. -/
def sampleBigFrameFunc : Func :=
  { vals := sampleBigFrameStore,
    insts := [{ self := VId.user 10, op := IRINST_OP_ENTRY },
              { self := VId.user 11, op := IRINST_OP_STORE,
                operands := [VId.user 50, VId.user 24] },
              { self := VId.user 12, op := IRINST_OP_STORE,
                operands := [VId.user 51, VId.user 24] },
              { self := VId.user 13, op := IRINST_OP_EXIT }] }

/-- The function `int f(int a, int b) { int t = a + b; if (a == 0) ... }` up to
its branch: `user 11` is `t1 = a + b`, `user 12` is `t2 = (a == 0)`. -/
def sampleFusionSourceFunc : Func :=
  { vals := sampleFusionStore, params := [VId.user 0, VId.user 1],
    insts := [{ self := VId.user 10, op := IRINST_OP_ENTRY },
              { self := VId.user 11, op := IRINST_OP_IADD,
                operands := [VId.user 0, VId.user 1], hasResultValue := true },
              { self := VId.user 12, op := IRINST_OP_IEQ,
                operands := [VId.user 0, VId.user 19], hasResultValue := true },
              { self := VId.user 13, op := IRINST_OP_GOTO },
              { self := VId.user 14, op := IRINST_OP_LABEL },
              { self := VId.user 15, op := IRINST_OP_EXIT }] }

/-- Sample function with two labels: `user 12` and `user 14`. -/
def sampleTwoLabelFunc : Func :=
  { vals := sampleStore,
    insts := [{ self := VId.user 10, op := IRINST_OP_ENTRY },
              { self := VId.user 11, op := IRINST_OP_GOTO },
              { self := VId.user 12, op := IRINST_OP_LABEL },
              { self := VId.user 13, op := IRINST_OP_GOTO },
              { self := VId.user 14, op := IRINST_OP_LABEL },
              { self := VId.user 15, op := IRINST_OP_EXIT }] }

/-- Sample selector input: `user 11` is `a + b`, `user 12` a floating-point
comparison (no handler), `user 13` is `(a + b) - a`; `a` and `b` are in registers
0 and 1, the results in registers 9 and 10. -/
def sampleSkipStore : Store := fun x =>
  match x with
  | VId.user 0 => { kind := ValueKind.formalParam, regId := 0 }
  | VId.user 1 => { kind := ValueKind.formalParam, regId := 1 }
  | VId.user 11 => { kind := ValueKind.instruction, regId := 9 }
  | VId.user 13 => { kind := ValueKind.instruction, regId := 10 }
  | _ => { kind := ValueKind.instruction }

/-- The function of `sampleSkipStore`, without instructions of its own. -/
def sampleSkipFunc : Func := { vals := sampleSkipStore }

/-- The addition `user 11` of the sample. -/
def sampleSkipAdd : Inst :=
  { self := VId.user 11, op := IRINST_OP_IADD, operands := [VId.user 0, VId.user 1],
    hasResultValue := true }

/-- The floating-point comparison `user 12` of the sample. -/
def sampleSkipFeq : Inst :=
  { self := VId.user 12, op := IRINST_OP_FEQ, operands := [VId.user 0, VId.user 1],
    hasResultValue := true }

/-- The subtraction `user 13` of the sample. -/
def sampleSkipSub : Inst :=
  { self := VId.user 13, op := IRINST_OP_ISUB, operands := [VId.user 11, VId.user 0],
    hasResultValue := true }

/-- Store of `sampleConstReturn c`: `user 20` is the integer constant `c`,
`user 100` the local that holds the return value, every other value an
instruction. -/
def sampleConstStore (c : Int) : Store := fun x =>
  match x with
  | VId.user 20 => { kind := ValueKind.constInt, intVal := c }
  | VId.user 100 => { kind := ValueKind.localVariable }
  | VId.intRegVal k => { kind := ValueKind.regVariable, regId := k }
  | _ => { kind := ValueKind.instruction }

/-- The function `int f() { return c; }`, whose IR is
`ENTRY; MOVE retVal, #c; GOTO exit; exit: EXIT retVal`. -/
def sampleConstReturn (c : Int) : Func :=
  { vals := sampleConstStore c,
    insts := [{ self := VId.user 10, op := IRINST_OP_ENTRY },
              { self := VId.user 11, op := IRINST_OP_ASSIGN,
                operands := [VId.user 100, VId.user 20] },
              { self := VId.user 12, op := IRINST_OP_GOTO },
              { self := VId.user 13, op := IRINST_OP_LABEL },
              { self := VId.user 14, op := IRINST_OP_EXIT, operands := [VId.user 100] }] }

/-- The goto `user 12` of `sampleConstReturn` jumps to the label `user 13`. -/
def sampleConstReturnExtra : VId → InstExtra := fun x =>
  match x with
  | VId.user 12 => { iftrue := some (VId.user 13) }
  | _ => {}

/-- The store `st'` agrees with `st` on every value except the locals that the
backend creates from counter `n` on. -/
def StoreStable (n : Nat) (st st' : Store) : Prop :=
  ∀ v, (∀ m, v = VId.newLocal m → m < n) → st' v = st v

/-- The store entry of the stack-argument local at offset `off`. -/
def stackArgLocal (off : Int) : Value :=
  { newLocalVarValue with baseRegNo := ARM64_SP_REG_NO, offset := off }

/-- The lowering of one call `c` of the output, with the instructions `pre` in
front of it, the final store `st'`, the input instructions `insts` and the
creation counter `n` of the input. -/
def CallLowered (insts : List Inst) (n : Nat) (st' : Store) (pre : List Inst) (c : Inst) : Prop :=
  (∃ pre0 args, pre = pre0 ++ args ∧
      List.Forall₂ (fun a v => a.op = IRINST_OP_ARG ∧ a.operands = [v]) args c.operands) ∧
    (∀ (k : Nat) (v : VId), k < 8 → c.operands[k]? = some v → (st' v).regId = (k : Int)) ∧
    (∃ c0 ∈ insts, c0.self = c.self ∧ c0.op = IRINST_OP_FUNC_CALL ∧
      c0.operands.length = c.operands.length ∧
      ∀ (k : Nat) (v : VId), 8 ≤ k → c.operands[k]? = some v →
        ∃ m orig, n ≤ m ∧ v = VId.newLocal m ∧ c0.operands[k]? = some orig ∧
          st' v = stackArgLocal (4 * ((k : Int) - 8)) ∧
          ∃ mv ∈ pre, mv.op = IRINST_OP_ASSIGN ∧ mv.operands = [v, orig])

/-- Membership in the register pool of the allocator: 19..28 always, 9..15 only
when the function performs no call. -/
def inPool (existFuncCall : Bool) (r : Int) : Prop :=
  (19 ≤ r ∧ r ≤ 28) ∨ (existFuncCall = false ∧ 9 ≤ r ∧ r ≤ 15)

/-- Invariant of the scan: the registers of the active ranges and of the free
list all satisfy `P`. -/
def ScanInv (P : Int → Prop) (s : ScanState) : Prop :=
  (∀ a ∈ s.active, P a.reg) ∧ (∀ r ∈ s.freeRegs, P r)

/-- Instruction `j` of `insts` has `val` among its operands. -/
def UsesAt (val : VId) (insts : List Inst) (j : Nat) : Prop :=
  ∃ inst, insts[j]? = some inst ∧ val ∈ inst.operands

/-- An instruction that the backend inserted: a `MOVE` or an `ARG` whose
identity is an object created at counter `n` or later. -/
def IsInserted (n : Nat) (x : Inst) : Prop :=
  (x.op = IRINST_OP_ASSIGN ∨ x.op = IRINST_OP_ARG) ∧ ∃ m, x.self = VId.newInst m ∧ n ≤ m

/-- The instructions that the loop body puts behind a call with identity `self`
whose register id is `regId`: the move of `x0` into the result, or nothing. -/
def returnMove (hasResultValue : Bool) (regId : Int) (self : VId) (k : Nat) : List Inst :=
  if hasResultValue then
    if regId = 0 then [] else [MoveInstruction (VId.newInst k) self (VId.intRegVal 0)]
  else []

/-- The first live range of `v` in `ranges`: the one that `extendRangeIfExists`
finds. -/
def firstRange (v : VId) (ranges : List LiveRange) : Option LiveRange :=
  ranges.find? (fun r => decide (r.value = v))

/-- What a use of `v` at `pos` does to the first range of `v`: its end is widened
to `pos`, or it is created. -/
def touchRange (st : Store) (v : VId) (pos : Int) : Option LiveRange → Option LiveRange
  | some r => some { r with end_ := max r.end_ pos }
  | none => some { value := v,
                   start := if (st v).kind = ValueKind.formalParam then 0 else pos,
                   end_ := pos }

/-- Instruction `q` of `insts` has `v` among its operands and is not `v` itself. -/
def OccursAt (v : VId) (insts : List Inst) (q : Nat) : Prop :=
  ∃ inst, insts[q]? = some inst ∧ v ∈ inst.operands ∧ v ≠ inst.self

/-- Instruction `d` of `insts` is `v` and has a result value. -/
def DefinedAt (v : VId) (insts : List Inst) (d : Nat) : Prop :=
  ∃ inst, insts[d]? = some inst ∧ inst.self = v ∧ inst.hasResultValue = true

/-- The start of the range `r` of `v` is where the statement puts it: at the
first defining instruction when no definition comes after a use, and, for a
value that no instruction defines, at 0 for a formal parameter and at the first
occurrence otherwise. -/
def RangeStartsRight (st : Store) (v : VId) (insts : List Inst) (r : LiveRange) : Prop :=
  ((∀ d q, DefinedAt v insts d → OccursAt v insts q → d ≤ q) →
    ∀ d, DefinedAt v insts d → (∀ d', DefinedAt v insts d' → d ≤ d') → r.start = (d : Int)) ∧
  ((∀ d, ¬ DefinedAt v insts d) →
    ((st v).kind = ValueKind.formalParam → r.start = 0) ∧
    ((st v).kind ≠ ValueKind.formalParam →
      ∀ q, OccursAt v insts q → (∀ q', OccursAt v insts q' → q ≤ q') → r.start = (q : Int)))

/-- The state of the first range `o` of `v` when the loop of `calculateLiveRanges`
has handled the positions below `n`. -/
def LiveInv (st : Store) (v : VId) (insts : List Inst) (n : Nat) (o : Option LiveRange) : Prop :=
  ((∀ q, q < n → ¬ OccursAt v insts q ∧ ¬ DefinedAt v insts q) → o = none) ∧
  (∀ q0, q0 < n → (OccursAt v insts q0 ∨ DefinedAt v insts q0) →
    ∃ r, o = some r ∧ r.value = v ∧ r.start < (n : Int) ∧ 0 ≤ r.start ∧
      (∀ q, q < n → OccursAt v insts q → r.start ≤ (q : Int) ∧ (q : Int) ≤ r.end_) ∧
      RangeStartsRight st v insts r)

/-- The XOR `inst` has the shape of the peephole: its left operand is an integer
comparison instruction with opcode `c`, its right operand the integer constant 1. -/
def IsNegatedCompare (s : Selector) (inst : Inst) (c : IRInstOperator) : Prop :=
  ∃ left right rest, inst.operands = left :: right :: rest ∧ s.instOp left = some c ∧
    c ∈ intCmpOps ∧ (s.vals right).kind = ValueKind.constInt ∧ (s.vals right).intVal = 1

/-- What `deleteUsedLabel` does to one line of the buffer `code`: a label line
that no live branch line of `code` names is marked dead. -/
def markLine (code : List ArmInst) (arm : ArmInst) : ArmInst :=
  if isLabelLine arm && !labelUsed code arm.opcode then { arm with dead := true } else arm

/-- The registers that the scan state holds: those of the active ranges, then
the free list. -/
def heldRegs (s : ScanState) : List Int := s.active.map LiveRange.reg ++ s.freeRegs

/-- Invariant of the scan for register sharing: the held registers are pairwise
distinct and none is -1, and every range of `done` that has a register is still
active or ended at or before `lo`. -/
def ScanDisjoint (s : ScanState) (done : List LiveRange) (lo : Int) : Prop :=
  (heldRegs s).Nodup ∧ (∀ r ∈ heldRegs s, r ≠ -1) ∧
    ∀ d ∈ done, d.reg ≠ -1 → d ∈ s.active ∨ d.end_ ≤ lo

/-- The `LABEL` instructions of `insts`, as values, in instruction order. -/
def labelSelfs (insts : List Inst) : List VId :=
  (insts.filter (fun i => decide (i.op = IRINST_OP_LABEL))).map Inst.self

/-- The names of the `LABEL` instructions of `insts` in the store `st`, in
instruction order. -/
def labelNames (insts : List Inst) (st : Store) : List String :=
  (labelSelfs insts).map (fun v => (st v).name)

/-- The value of a string of decimal digits, continuing from `acc`. -/
def decodeDigits (acc : Nat) (cs : List Char) : Nat :=
  cs.foldl (fun a c => 10 * a + (c.toNat - 48)) acc

/-- The lines of the assembly buffer that are not flagged dead. -/
def liveLines (code : List ArmInst) : List ArmInst := code.filter (fun a => !a.dead)

/-! # Theorems -/

/-! ## Linear scan -/

theorem initialFreeRegs_inPool (c : Bool) : ∀ r ∈ initialFreeRegs c, inPool c r := by
  intro r hr
  cases c <;> simp [initialFreeRegs] at hr <;> simp only [inPool, true_and] <;> omega

theorem expireOldRanges_mem (P : Int → Prop) :
    ∀ (active : List LiveRange) (freeRegs : List Int) (pos : Int),
      (∀ a ∈ active, P a.reg) → (∀ r ∈ freeRegs, P r) →
      (∀ a ∈ (expireOldRanges active freeRegs pos).1, P a.reg) ∧
      (∀ r ∈ (expireOldRanges active freeRegs pos).2, P r)
  | [], freeRegs, pos, _, hf => by simpa [expireOldRanges] using hf
  | it :: rest, freeRegs, pos, ha, hf => by
    unfold expireOldRanges
    split
    · apply expireOldRanges_mem P rest
      · intro a h; exact ha a (List.mem_cons_of_mem _ h)
      · intro r h
        rcases List.mem_append.1 h with h | h
        · exact hf r h
        · simp at h; subst h; exact ha it (List.mem_cons_self _ _)
    · have ih := expireOldRanges_mem P rest freeRegs pos
        (fun a h => ha a (List.mem_cons_of_mem _ h)) hf
      refine ⟨?_, ih.2⟩
      intro a h
      rcases List.mem_cons.1 h with h | h
      · subst h; exact ha _ (List.mem_cons_self _ _)
      · exact ih.1 a h

theorem scanStep_inv (P : Int → Prop) (st : Store) (s : ScanState) (range : LiveRange)
    (h : ScanInv P s) :
    ScanInv P (scanStep st s range).2 ∧
      ((scanStep st s range).1.reg = range.reg ∨ P (scanStep st s range).1.reg) ∧
      (scanStep st s range).1.value = range.value := by
  have he := expireOldRanges_mem P s.active s.freeRegs range.start h.1 h.2
  unfold scanStep
  simp only []
  split
  · rename_i hc
    simp only [Bool.not_eq_true', Bool.or_eq_false_iff] at hc
    have hne : (expireOldRanges s.active s.freeRegs range.start).2 ≠ [] := by
      intro h0; rw [h0] at hc; simp at hc
    have hlast : P ((expireOldRanges s.active s.freeRegs range.start).2.getLastD 0) := by
      rw [List.getLastD_eq_getLast?, List.getLast?_eq_getLast _ hne]
      exact he.2 _ (List.getLast_mem hne)
    refine ⟨⟨?_, ?_⟩, Or.inr hlast, rfl⟩
    · intro a ha
      rcases List.mem_append.1 ha with ha | ha
      · exact he.1 a ha
      · rw [List.mem_singleton.1 ha]; exact hlast
    · intro r hr
      exact he.2 r (List.dropLast_subset _ hr)
  · exact ⟨⟨he.1, he.2⟩, Or.inl rfl, rfl⟩

theorem scanLoop_forall₂ (P : Int → Prop) (st : Store) :
    ∀ (ranges : List LiveRange) (s : ScanState), ScanInv P s →
      List.Forall₂ (fun a b => b.value = a.value ∧ (b.reg = a.reg ∨ P b.reg))
        ranges (scanLoop st ranges s).1
  | [], _, _ => by simp [scanLoop]
  | range :: rest, s, h => by
    have hs := scanStep_inv P st s range h
    simp only [scanLoop]
    exact List.Forall₂.cons ⟨hs.2.2, hs.2.1⟩ (scanLoop_forall₂ P st rest _ hs.1)

theorem extendFirst_reg (value : VId) (pos : Int) :
    ∀ (ranges out : List LiveRange), (∀ r ∈ ranges, r.reg = -1) →
      extendFirst value pos ranges = some out → ∀ r ∈ out, r.reg = -1
  | [], out, _, h => by simp [extendFirst] at h
  | range :: rest, out, hr, h => by
    unfold extendFirst at h
    split at h
    · simp only [Option.some.injEq] at h
      subst h
      intro r hmem
      rcases List.mem_cons.1 hmem with hmem | hmem
      · rw [hmem]; exact hr range (List.mem_cons_self _ _)
      · exact hr r (List.mem_cons_of_mem _ hmem)
    · cases hrec : extendFirst value pos rest with
      | none => rw [hrec] at h; simp at h
      | some t =>
        rw [hrec] at h
        simp only [Option.map_some', Option.some.injEq] at h
        subst h
        intro r hmem
        rcases List.mem_cons.1 hmem with hmem | hmem
        · rw [hmem]; exact hr range (List.mem_cons_self _ _)
        · exact extendFirst_reg value pos rest t
            (fun x hx => hr x (List.mem_cons_of_mem _ hx)) hrec r hmem

theorem extendRangeIfExists_reg (st : Store) (ranges : List LiveRange) (value : VId) (pos : Int)
    (hr : ∀ r ∈ ranges, r.reg = -1) :
    ∀ r ∈ extendRangeIfExists st ranges value pos, r.reg = -1 := by
  unfold extendRangeIfExists
  split
  · rename_i out hout
    exact extendFirst_reg value pos ranges out hr hout
  · split
    · intro r hmem
      rcases List.mem_append.1 hmem with hmem | hmem
      · exact hr r hmem
      · rw [List.mem_singleton.1 hmem]
    · exact hr

theorem useOperands_reg (st : Store) (inst : Inst) (pos : Int) :
    ∀ (ops : List VId) (ranges : List LiveRange), (∀ r ∈ ranges, r.reg = -1) →
      ∀ r ∈ useOperands st inst pos ops ranges, r.reg = -1
  | [], ranges, hr => by simpa [useOperands] using hr
  | operand :: rest, ranges, hr => by
    unfold useOperands
    split
    · exact useOperands_reg st inst pos rest ranges hr
    · split
      · exact useOperands_reg st inst pos rest _ (extendRangeIfExists_reg st ranges operand pos hr)
      · exact useOperands_reg st inst pos rest ranges hr

theorem calcLoop_reg (st : Store) (insts : List Inst) :
    ∀ (todo : List Inst) (pos : Int) (ranges : List LiveRange), (∀ r ∈ ranges, r.reg = -1) →
      ∀ r ∈ calcLoop st insts todo pos ranges, r.reg = -1
  | [], _, ranges, hr => by simpa [calcLoop] using hr
  | inst :: todo, pos, ranges, hr => by
    unfold calcLoop
    apply calcLoop_reg st insts todo
    apply useOperands_reg
    split
    · intro r hmem
      rcases List.mem_append.1 hmem with hmem | hmem
      · exact hr r hmem
      · rw [List.mem_singleton.1 hmem]
    · exact hr

theorem sortRanges_calculateLiveRanges_reg (func : Func) :
    ∀ r ∈ sortRanges (calculateLiveRanges func), r.reg = -1 := by
  intro r hmem
  have hp : r ∈ calculateLiveRanges func :=
    (List.perm_insertionSort _ _).mem_iff.1 hmem
  exact calcLoop_reg func.vals func.insts func.insts 0 [] (by simp) r hp

theorem forall₂_right_mem {α β : Type} {R : α → β → Prop} :
    ∀ {l₁ : List α} {l₂ : List β}, List.Forall₂ R l₁ l₂ → ∀ b ∈ l₂, ∃ a ∈ l₁, R a b
  | _, _, List.Forall₂.nil, b, hb => by simp at hb
  | _, _, List.Forall₂.cons h t, b, hb => by
    rcases List.mem_cons.1 hb with hb | hb
    · exact ⟨_, List.mem_cons_self _ _, hb ▸ h⟩
    · obtain ⟨a, ha, hab⟩ := forall₂_right_mem t b hb
      exact ⟨a, List.mem_cons_of_mem _ ha, hab⟩

/-- C3: every register that `linearScanRegisterAllocation` assigns to a range
(the output range at the same position has a register different from the one it
came with) lies in 19..28, or in 9..15 when the function performs no call; it is
never a scratch register (16, 17), an argument register (0..7), FP, LR or SP.
The ranges keep their values, for every input list.  On the ranges that
`registerAllocation` passes in (those of `calculateLiveRanges`, sorted), every
range comes with `reg = -1`, so each output register is `-1` or such a register. -/
theorem linearScan_assigns_pool_registers (ranges : List LiveRange) (func : Func) :
    List.Forall₂
        (fun a b => b.value = a.value ∧
          (b.reg = a.reg ∨
            (((19 ≤ b.reg ∧ b.reg ≤ 28) ∨
                (func.existFuncCall = false ∧ 9 ≤ b.reg ∧ b.reg ≤ 15)) ∧
              b.reg ≠ ARM64_TMP_REG_NO ∧ b.reg ≠ ARM64_TMP_REG_NO2 ∧ ¬ (0 ≤ b.reg ∧ b.reg ≤ 7) ∧
              b.reg ≠ ARM64_FP_REG_NO ∧ b.reg ≠ ARM64_LR_REG_NO ∧ b.reg ≠ ARM64_SP_REG_NO)))
        ranges (linearScanRegisterAllocation ranges func).1 ∧
      ∀ b ∈ (linearScanRegisterAllocation (sortRanges (calculateLiveRanges func)) func).1,
        b.reg = -1 ∨
          (((19 ≤ b.reg ∧ b.reg ≤ 28) ∨
              (func.existFuncCall = false ∧ 9 ≤ b.reg ∧ b.reg ≤ 15)) ∧
            b.reg ≠ ARM64_TMP_REG_NO ∧ b.reg ≠ ARM64_TMP_REG_NO2 ∧ ¬ (0 ≤ b.reg ∧ b.reg ≤ 7) ∧
            b.reg ≠ ARM64_FP_REG_NO ∧ b.reg ≠ ARM64_LR_REG_NO ∧ b.reg ≠ ARM64_SP_REG_NO) := by
  have key : ∀ rs : List LiveRange,
      List.Forall₂
        (fun a b => b.value = a.value ∧
          (b.reg = a.reg ∨
            (((19 ≤ b.reg ∧ b.reg ≤ 28) ∨
                (func.existFuncCall = false ∧ 9 ≤ b.reg ∧ b.reg ≤ 15)) ∧
              b.reg ≠ ARM64_TMP_REG_NO ∧ b.reg ≠ ARM64_TMP_REG_NO2 ∧ ¬ (0 ≤ b.reg ∧ b.reg ≤ 7) ∧
              b.reg ≠ ARM64_FP_REG_NO ∧ b.reg ≠ ARM64_LR_REG_NO ∧ b.reg ≠ ARM64_SP_REG_NO)))
        rs (linearScanRegisterAllocation rs func).1 := by
    intro rs
    have h := scanLoop_forall₂ (inPool func.existFuncCall) func.vals rs
      { freeRegs := initialFreeRegs func.existFuncCall, active := [], maxDep := func.maxDep }
      ⟨by simp, initialFreeRegs_inPool func.existFuncCall⟩
    refine List.Forall₂.imp ?_ h
    rintro a b ⟨hv, hr⟩
    refine ⟨hv, hr.imp id ?_⟩
    intro hp
    refine ⟨hp, ?_⟩
    simp only [ARM64_TMP_REG_NO, ARM64_TMP_REG_NO2, ARM64_FP_REG_NO, ARM64_LR_REG_NO,
      ARM64_SP_REG_NO]
    unfold inPool at hp
    omega
  refine ⟨key ranges, ?_⟩
  intro b hb
  obtain ⟨a, ha, -, hab⟩ := forall₂_right_mem (key _) b hb
  rcases hab with hab | hab
  · left
    rw [hab]
    exact sortRanges_calculateLiveRanges_reg func a ha
  · exact Or.inr hab

theorem scanLoop_append (st : Store) :
    ∀ (pre rest : List LiveRange) (s : ScanState),
      scanLoop st (pre ++ rest) s =
        ((scanLoop st pre s).1 ++ (scanLoop st rest (scanLoop st pre s).2).1,
         (scanLoop st rest (scanLoop st pre s).2).2)
  | [], rest, s => by simp [scanLoop]
  | a :: pre, rest, s => by
    have ih := scanLoop_append st pre rest (scanStep st s a).2
    show scanLoop st (a :: (pre ++ rest)) s = _
    simp only [scanLoop, ih, List.cons_append]

theorem scanLoop_length (st : Store) :
    ∀ (ranges : List LiveRange) (s : ScanState), (scanLoop st ranges s).1.length = ranges.length
  | [], s => by simp [scanLoop]
  | a :: rest, s => by simp [scanLoop, scanLoop_length st rest]

theorem scanLoop_values (st : Store) :
    ∀ (ranges : List LiveRange) (s : ScanState),
      (scanLoop st ranges s).1.map LiveRange.value = ranges.map LiveRange.value
  | [], s => by simp [scanLoop]
  | a :: rest, s => by
    simp only [scanLoop, List.map_cons, scanLoop_values st rest]
    congr 1
    unfold scanStep
    simp only []
    split <;> rfl

theorem scanStep_array (st : Store) (s : ScanState) (range : LiveRange)
    (harr : (st range.value).isArrayType = true) :
    scanStep st s range =
      ({ range with stackOffset := s.maxDep },
       { freeRegs := (expireOldRanges s.active s.freeRegs range.start).2,
         active := (expireOldRanges s.active s.freeRegs range.start).1,
         maxDep := s.maxDep + (st range.value).size }) := by
  unfold scanStep
  simp [harr, allocateStackSlot]

theorem publishStep_other (acc : Store × List Int) (range : LiveRange) (v : VId)
    (h : range.value ≠ v) : (publishStep acc range).1 v = acc.1 v := by
  unfold publishStep
  split <;> simp [setRegId, setMemoryAddr, Ne.symm h]

theorem publish_other (v : VId) :
    ∀ (ranges : List LiveRange) (acc : Store × List Int),
      (∀ q ∈ ranges, q.value ≠ v) → (publish ranges acc).1 v = acc.1 v
  | [], acc, _ => by simp [publish]
  | a :: rest, acc, h => by
    have ih := publish_other v rest (publishStep acc a)
      (fun q hq => h q (List.mem_cons_of_mem _ hq))
    simp only [publish, List.foldl_cons] at ih ⊢
    rw [ih, publishStep_other acc a v (h a (List.mem_cons_self _ _))]

theorem publish_append (l₁ l₂ : List LiveRange) (acc : Store × List Int) :
    publish (l₁ ++ l₂) acc = publish l₂ (publish l₁ acc) := by
  simp [publish, List.foldl_append]

theorem publishStep_spilled (acc : Store × List Int) (range : LiveRange) (h : range.reg = -1) :
    ((publishStep acc range).1 range.value).baseRegNo = ARM64_FP_REG_NO ∧
      ((publishStep acc range).1 range.value).offset = range.stackOffset ∧
      ((publishStep acc range).1 range.value).regId = (acc.1 range.value).regId := by
  unfold publishStep
  simp [h, setMemoryAddr]

/-- C4: a range whose Value has array type is never given a register.  When the
scan reaches it (in the state `before`, whatever its free list holds) the range
keeps `reg = -1`, its slot is the frame depth `before.maxDep` of that moment,
the frame depth grows by exactly the size of the Value's type and the free list
is only what expiry left.  When the publish loop reaches the range, the Value's
memory address becomes `(FP, before.maxDep)`, and this is its final address
unless a later range of the same Value overwrites it. -/
theorem arrays_always_spill (pre post : List LiveRange) (range : LiveRange) (func : Func)
    (harr : (func.vals range.value).isArrayType = true) (hreg : range.reg = -1) :
    let s0 : ScanState :=
      { freeRegs := initialFreeRegs func.existFuncCall, active := [], maxDep := func.maxDep }
    let before := (scanLoop func.vals pre s0).2
    let step := scanStep func.vals before range
    let res := linearScanRegisterAllocation (pre ++ range :: post) func
    let reached := publish (res.1.take (pre.length + 1)) (func.vals, func.protectedReg)
    step.1.reg = -1 ∧
      step.1 = { range with stackOffset := before.maxDep } ∧
      step.2.maxDep = before.maxDep + (func.vals range.value).size ∧
      step.2.freeRegs = (expireOldRanges before.active before.freeRegs range.start).2 ∧
      res.1[pre.length]? = some step.1 ∧
      ((reached.1 range.value).baseRegNo = ARM64_FP_REG_NO ∧
        (reached.1 range.value).offset = before.maxDep) ∧
      ((∀ q ∈ post, q.value ≠ range.value) →
        (res.2.vals range.value).baseRegNo = ARM64_FP_REG_NO ∧
          (res.2.vals range.value).offset = before.maxDep) := by
  intro s0 before step res reached
  have hstep : step = _ := scanStep_array func.vals before range harr
  have hres1 : res.1 = (scanLoop func.vals pre s0).1 ++ step.1 ::
      (scanLoop func.vals post step.2).1 := by
    show (scanLoop func.vals (pre ++ range :: post) s0).1 = _
    rw [scanLoop_append]
    simp only [scanLoop]
  have hlen := scanLoop_length func.vals pre s0
  have htake : res.1.take (pre.length + 1) = (scanLoop func.vals pre s0).1 ++ [step.1] := by
    rw [hres1, ← hlen, List.take_append_eq_append_take]
    simp
  have hval : step.1.value = range.value := by rw [hstep]
  have hreg1 : step.1.reg = -1 := by rw [hstep]; exact hreg
  have hoff : step.1.stackOffset = before.maxDep := by rw [hstep]
  have hreached : (reached.1 range.value).baseRegNo = ARM64_FP_REG_NO ∧
      (reached.1 range.value).offset = before.maxDep := by
    show ((publish (res.1.take (pre.length + 1)) (func.vals, func.protectedReg)).1
      range.value).baseRegNo = _ ∧
      ((publish (res.1.take (pre.length + 1)) (func.vals, func.protectedReg)).1
      range.value).offset = _
    rw [htake, publish_append]
    have := publishStep_spilled
      (publish (scanLoop func.vals pre s0).1 (func.vals, func.protectedReg)) step.1 hreg1
    rw [hval, hoff] at this
    simpa [publish] using And.intro this.1 this.2.1
  refine ⟨hreg1, by rw [hstep], by rw [hstep], by rw [hstep], ?_, hreached, ?_⟩
  · rw [hres1, ← hlen, List.getElem?_append_right (le_refl _), Nat.sub_self]
    exact List.getElem?_cons_zero
  · intro hpost
    have hfin : res.2.vals range.value = reached.1 range.value := by
      show (publish res.1 (func.vals, func.protectedReg)).1 range.value = _
      have hsplit : res.1 = res.1.take (pre.length + 1) ++ (scanLoop func.vals post step.2).1 := by
        rw [htake, hres1]; simp
      rw [hsplit, publish_append]
      apply publish_other
      intro q hq
      have hv := scanLoop_values func.vals post step.2
      have : q.value ∈ post.map LiveRange.value := by
        rw [← hv]; exact List.mem_map_of_mem _ hq
      obtain ⟨q0, hq0, hq0v⟩ := List.mem_map.1 this
      rw [← hq0v]
      exact hpost q0 hq0
    rw [hfin]
    exact hreached

theorem arrays_always_spill_witness :
    ((sampleArrayFunc.vals (VId.user 0)).isArrayType = true ∧ (-1 : Int) = -1) ∧
      (linearScanRegisterAllocation sampleArrayRanges sampleArrayFunc).1[1]? =
        some { value := VId.user 0, start := 1, end_ := 5, reg := -1, stackOffset := 0 } ∧
      ((linearScanRegisterAllocation sampleArrayRanges sampleArrayFunc).2.vals
        (VId.user 0)).baseRegNo = 29 ∧
      (linearScanRegisterAllocation sampleArrayRanges sampleArrayFunc).2.maxDep = 40 :=
  ⟨⟨by decide, rfl⟩,
   (arrays_always_spill [{ value := VId.user 1, start := 0, end_ := 3 }]
      [{ value := VId.user 2, start := 2, end_ := 4 }]
      { value := VId.user 0, start := 1, end_ := 5 } sampleArrayFunc (by decide) rfl).2.2.2.2.1,
   ((arrays_always_spill [{ value := VId.user 1, start := 0, end_ := 3 }]
      [{ value := VId.user 2, start := 2, end_ := 4 }]
      { value := VId.user 0, start := 1, end_ := 5 } sampleArrayFunc (by decide) rfl).2.2.2.2.2.2
      (by decide)).1,
   by decide⟩

theorem publishStep_count (acc : Store × List Int) (range : LiveRange) (x : Int) :
    (publishStep acc range).2.count x =
      if ARM64_CALLER_SAVE x = true ∧ range.reg = x ∧ x ∉ acc.2 then 1 else acc.2.count x := by
  unfold publishStep
  by_cases h1 : range.reg = -1
  · have hx : ¬ (ARM64_CALLER_SAVE x = true ∧ range.reg = x ∧ x ∉ acc.2) := by
      rintro ⟨hc, hr, -⟩
      rw [← hr, h1] at hc
      simp [ARM64_CALLER_SAVE] at hc
    rw [if_neg hx]
    simp [h1]
  · simp only [h1, ne_eq, not_false_eq_true, if_true]
    by_cases h2 : (ARM64_CALLER_SAVE range.reg && decide (range.reg ∉ acc.2)) = true
    · rw [if_pos h2]
      simp only [Bool.and_eq_true, decide_eq_true_eq] at h2
      by_cases hx : range.reg = x
      · subst hx
        simp [h2.1, h2.2, List.count_eq_zero_of_not_mem h2.2]
      · have : ¬ (ARM64_CALLER_SAVE x = true ∧ range.reg = x ∧ x ∉ acc.2) := fun h => hx h.2.1
        rw [if_neg this, List.count_append]
        simp [List.count_singleton, hx]
    · rw [if_neg h2]
      have : ¬ (ARM64_CALLER_SAVE x = true ∧ range.reg = x ∧ x ∉ acc.2) := by
        rintro ⟨hc, hr, hn⟩
        apply h2
        rw [hr, hc]
        simp [hn]
      rw [if_neg this]

theorem publish_count (x : Int) :
    ∀ (ranges : List LiveRange) (acc : Store × List Int),
      (publish ranges acc).2.count x =
        if ARM64_CALLER_SAVE x = true ∧ (∃ r ∈ ranges, r.reg = x) ∧ x ∉ acc.2 then 1
        else acc.2.count x
  | [], acc => by simp [publish]
  | range :: rest, acc => by
    have ih := publish_count x rest (publishStep acc range)
    have hs := publishStep_count acc range x
    simp only [publish, List.foldl_cons] at ih ⊢
    rw [ih]
    by_cases hc : ARM64_CALLER_SAVE x = true
    · by_cases hm : x ∈ acc.2
      · have hm2 : x ∈ (publishStep acc range).2 := by
          rw [← List.count_pos_iff, hs]
          simp [hm, List.count_pos_iff]
        simp [hm, hm2, hs]
      · by_cases hr : range.reg = x
        · have hm2 : x ∈ (publishStep acc range).2 := by
            rw [← List.count_pos_iff, hs]
            simp [hm, hc, hr]
          simp [hm, hm2, hs, hc, hr]
        · have hm2 : x ∉ (publishStep acc range).2 := by
            rw [← List.count_pos_iff, hs]
            simp [hm, hr, List.count_eq_zero_of_not_mem hm]
          simp [hm, hm2, hs, hc, hr]
    · simp [hc, hs]

/-- C5: starting from the protected list seeded by `registerAllocation` (`[FP]`,
or `[FP, LR]` when the function performs a call), after the publish loop every
register of 19..28 assigned to at least one range occurs exactly once in the
protected list, no unassigned register of 19..28 occurs, FP is present, and LR
is present exactly when the function performs a call. -/
theorem publish_protects_assigned_once (ranges : List LiveRange) (func : Func)
    (hseed : func.protectedReg =
      ARM64_FP_REG_NO :: (if func.existFuncCall then [ARM64_LR_REG_NO] else [])) :
    (∀ x : Int, 19 ≤ x → x ≤ 28 →
        ((∃ r ∈ (linearScanRegisterAllocation ranges func).1, r.reg = x) →
          (linearScanRegisterAllocation ranges func).2.protectedReg.count x = 1) ∧
        ((¬ ∃ r ∈ (linearScanRegisterAllocation ranges func).1, r.reg = x) →
          x ∉ (linearScanRegisterAllocation ranges func).2.protectedReg)) ∧
      ARM64_FP_REG_NO ∈ (linearScanRegisterAllocation ranges func).2.protectedReg ∧
      (ARM64_LR_REG_NO ∈ (linearScanRegisterAllocation ranges func).2.protectedReg ↔
        func.existFuncCall = true) := by
  have hc : ∀ x : Int, (linearScanRegisterAllocation ranges func).2.protectedReg.count x =
      if ARM64_CALLER_SAVE x = true ∧
          (∃ r ∈ (linearScanRegisterAllocation ranges func).1, r.reg = x) ∧
          x ∉ func.protectedReg then 1
      else func.protectedReg.count x := fun x => publish_count x _ _
  have hseedmem : ∀ x : Int, 19 ≤ x → x ≤ 28 → x ∉ func.protectedReg := by
    intro x h1 h2 hm
    rw [hseed] at hm
    cases hcall : func.existFuncCall <;>
      simp [hcall, ARM64_FP_REG_NO, ARM64_LR_REG_NO] at hm <;> omega
  refine ⟨?_, ?_, ?_⟩
  · intro x h1 h2
    have hcs : ARM64_CALLER_SAVE x = true := by simp [ARM64_CALLER_SAVE, h1, h2]
    constructor
    · intro hex
      rw [hc x, if_pos ⟨hcs, hex, hseedmem x h1 h2⟩]
    · intro hex hm
      have := hc x
      rw [if_neg (fun h => hex h.2.1), List.count_eq_zero_of_not_mem (hseedmem x h1 h2)] at this
      exact (List.count_pos_iff.2 hm).ne' this
  · rw [← List.count_pos_iff, hc]
    have : ¬ ARM64_CALLER_SAVE ARM64_FP_REG_NO = true := by decide
    rw [if_neg (fun h => this h.1), List.count_pos_iff, hseed]
    exact List.mem_cons_self _ _
  · rw [← List.count_pos_iff, hc]
    have : ¬ ARM64_CALLER_SAVE ARM64_LR_REG_NO = true := by decide
    rw [if_neg (fun h => this h.1), List.count_pos_iff, hseed]
    cases hcall : func.existFuncCall <;> simp [ARM64_FP_REG_NO, ARM64_LR_REG_NO]

theorem publish_protects_assigned_once_witness :
    sampleArrayFunc.protectedReg =
        ARM64_FP_REG_NO :: (if sampleArrayFunc.existFuncCall then [ARM64_LR_REG_NO] else []) ∧
      (linearScanRegisterAllocation sampleArrayRanges sampleArrayFunc).2.protectedReg.count 28 = 1 ∧
      (26 : Int) ∉ (linearScanRegisterAllocation sampleArrayRanges sampleArrayFunc).2.protectedReg :=
  ⟨by decide,
   ((publish_protects_assigned_once sampleArrayRanges sampleArrayFunc (by decide)).1 28
      (by decide) (by decide)).1 (by decide),
   ((publish_protects_assigned_once sampleArrayRanges sampleArrayFunc (by decide)).1 26
      (by decide) (by decide)).2 (by decide)⟩

/-! ## Prologue and epilogue -/

theorem regAt_natCast (p : List Int) (i : Nat) : regAt p (i : Int) = p.getD i 0 := by
  simp [regAt]

theorem entryLoop_spec (p : List Int) :
    ∀ (d j fuel : Nat), j + d = p.length / 2 → d ≤ fuel →
      entryLoop p ((p.length : Int) - 1) fuel ((2 * j : Nat) : Int) =
        ((List.range' j d).map (fun t => stpLine (p.getD (2 * t) 0) (p.getD (2 * t + 1) 0)),
          ((2 * (p.length / 2) : Nat) : Int))
  | 0, j, fuel, hj, _ => by
    have hcond : ¬ (((2 * j : Nat) : Int) < (p.length : Int) - 1) := by omega
    have hj2 : j = p.length / 2 := by omega
    cases fuel with
    | zero => simp [entryLoop, hj2]
    | succ f =>
      simp only [entryLoop, if_neg hcond, List.range'_zero, List.map_nil]
      rw [← hj2]
  | d + 1, j, fuel, hj, hf => by
    obtain ⟨f, rfl⟩ : ∃ f, fuel = f + 1 := ⟨fuel - 1, by omega⟩
    have hcond : ((2 * j : Nat) : Int) < (p.length : Int) - 1 := by omega
    have ih := entryLoop_spec p d (j + 1) f (by omega) (by omega)
    have e1 : ((2 * j : Nat) : Int) + 2 = ((2 * (j + 1) : Nat) : Int) := by push_cast; ring
    have e2 : ((2 * j : Nat) : Int) + 1 = ((2 * j + 1 : Nat) : Int) := by push_cast; ring
    simp only [entryLoop, if_pos hcond, e1, ih, e2, regAt_natCast, List.range'_succ,
      List.map_cons, stpLine]

theorem exitLoop_spec (p : List Int) :
    ∀ (j fuel : Nat), j ≤ fuel →
      exitLoop p fuel (((2 * j : Nat) : Int) - 1) =
        ((List.range j).reverse.map (fun t => ldpLine (p.getD (2 * t) 0) (p.getD (2 * t + 1) 0)),
          (-1 : Int))
  | 0, fuel, _ => by
    cases fuel with
    | zero => simp [exitLoop]
    | succ f => simp [exitLoop]
  | j + 1, fuel, hf => by
    obtain ⟨f, rfl⟩ : ∃ f, fuel = f + 1 := ⟨fuel - 1, by omega⟩
    have hcond : ((2 * (j + 1) : Nat) : Int) - 1 > 0 := by omega
    have ih := exitLoop_spec p j f (by omega)
    have e1 : ((2 * (j + 1) : Nat) : Int) - 1 - 2 = ((2 * j : Nat) : Int) - 1 := by
      push_cast; ring
    have e2 : ((2 * (j + 1) : Nat) : Int) - 1 - 1 = ((2 * j : Nat) : Int) := by push_cast; ring
    have e3 : ((2 * (j + 1) : Nat) : Int) - 1 = ((2 * j + 1 : Nat) : Int) := by push_cast; ring
    simp only [exitLoop, if_pos hcond, e1, ih, e2, regAt_natCast]
    rw [e3, regAt_natCast]
    simp [List.range_succ, ldpLine]

theorem nat_lor_one (k : Nat) : k ||| 1 = 2 * (k / 2) + 1 := by
  apply Nat.eq_of_testBit_eq
  intro i
  rw [Nat.testBit_lor]
  cases i with
  | zero => simp [Nat.testBit_zero]; omega
  | succ i =>
    rw [Nat.testBit_succ, Nat.testBit_succ, Nat.testBit_succ]
    have : (2 * (k / 2) + 1) / 2 = k / 2 := by omega
    simp [this]

theorem toU32_natCast (n : Nat) (h : n < 4294967296) : toU32 (n : Int) = n := by
  unfold toU32
  have : ((n : Int) % 4294967296) = (n : Int) := Int.emod_eq_of_lt (by omega) (by omega)
  rw [this]; simp

theorem ofU32_small (n : Nat) (h : n < 2147483648) : ofU32 n = (n : Int) := by
  simp [ofU32, h]

theorem orInt_sub_two_one (n : Nat) (h1 : 1 ≤ n) (h2 : n < 2147483648) :
    orInt ((n : Int) - 2) 1 = ((2 * (n / 2) : Nat) : Int) - 1 := by
  by_cases hn : n = 1
  · subst hn; decide
  · obtain ⟨k, rfl⟩ : ∃ k, n = k + 2 := ⟨n - 2, by omega⟩
    have e : ((k + 2 : Nat) : Int) - 2 = (k : Int) := by push_cast; ring
    have e1 : toU32 1 = 1 := by decide
    rw [e]
    unfold orInt
    rw [toU32_natCast k (by omega), e1, nat_lor_one, ofU32_small _ (by omega)]
    push_cast
    omega

theorem andInt_one (n : Nat) : andInt (n : Int) 1 = ((n % 2 : Nat) : Int) := by
  unfold andInt
  have e1 : toU32 1 = 1 := by decide
  have e2 : toU32 (n : Int) = n % 4294967296 := by
    unfold toU32
    omega
  rw [e1, e2, Nat.and_one_is_mod, ofU32_small _ (by omega)]
  congr 1
  omega


theorem entryLoop_run (p : List Int) :
    entryLoop p ((p.length : Int) - 1) p.length 0 =
      ((List.range (p.length / 2)).map
          (fun t => stpLine (p.getD (2 * t) 0) (p.getD (2 * t + 1) 0)),
        ((2 * (p.length / 2) : Nat) : Int)) := by
  have h := entryLoop_spec p (p.length / 2) 0 p.length (by omega) (by omega)
  rw [List.range_eq_range']
  simpa using h

theorem entrySaves_eq (p : List Int) :
    entrySaves p =
      (List.range (p.length / 2)).map
          (fun t => stpLine (p.getD (2 * t) 0) (p.getD (2 * t + 1) 0)) ++
        (if p.length % 2 = 1 then [strLine (p.getD (p.length - 1) 0)] else []) := by
  unfold entrySaves
  simp only [entryLoop_run]
  congr 1
  by_cases hodd : p.length % 2 = 1
  · have hc : ((2 * (p.length / 2) : Nat) : Int) ≤ (p.length : Int) - 1 := by omega
    have hi : 2 * (p.length / 2) = p.length - 1 := by omega
    rw [if_pos hc, if_pos hodd, regAt_natCast, hi]
    rfl
  · have hc : ¬ ((2 * (p.length / 2) : Nat) : Int) ≤ (p.length : Int) - 1 := by omega
    rw [if_neg hc, if_neg hodd]

theorem exitRestores_eq (p : List Int) (hlen : p.length < 2147483648) :
    exitRestores p =
      (if p.length % 2 = 1 then [ldrLine (p.getD (p.length - 1) 0)] else []) ++
        (List.range (p.length / 2)).reverse.map
          (fun t => ldpLine (p.getD (2 * t) 0) (p.getD (2 * t + 1) 0)) := by
  unfold exitRestores
  cases p with
  | nil => simp
  | cons a l =>
    have hpos : 1 ≤ (a :: l).length := by simp
    generalize a :: l = q at hpos hlen ⊢
    have hne : q.isEmpty = false := by
      cases q with
      | nil => simp at hpos
      | cons b r => rfl
    simp only [hne, Bool.not_false, if_true]
    rw [orInt_sub_two_one q.length hpos hlen, exitLoop_spec q (q.length / 2) q.length (by omega),
      andInt_one]
    congr 1
    by_cases hodd : q.length % 2 = 1
    · have e : ((q.length : Int) - 1) = ((q.length - 1 : Nat) : Int) := by omega
      rw [if_pos hodd, hodd, if_pos (by decide), e, regAt_natCast]
      rfl
    · have h0 : q.length % 2 = 0 := by omega
      rw [if_neg hodd, h0, if_neg (by decide)]

theorem mirrorSave_stpLine (xa xb : Int) : mirrorSave (stpLine xa xb) = ldpLine xa xb := by
  simp [mirrorSave, stpLine, ldpLine]

theorem mirrorSave_strLine (xa : Int) : mirrorSave (strLine xa) = ldrLine xa := by
  simp [mirrorSave, strLine, ldrLine]

/-- C6: for every protected-register list `p` (of a length that fits an `int`),
`translate_entry` saves `p[0], p[1]`, `p[2], p[3]`, ... with one `stp` each and
a trailing odd register with `str`; `translate_exit` restores the odd register
first with `ldr` and then issues one `ldp` per `stp` in reverse order with the
same two registers in the same order: the restore lines are the reversed save
lines, each replaced by its mirror.  Both loops leave through their condition. -/
theorem exit_restores_mirror_entry_saves (p : List Int) (hlen : p.length < 2147483648) :
    entrySaves p =
        (List.range (p.length / 2)).map
            (fun t => stpLine (p.getD (2 * t) 0) (p.getD (2 * t + 1) 0)) ++
          (if p.length % 2 = 1 then [strLine (p.getD (p.length - 1) 0)] else []) ∧
      exitRestores p =
        (if p.length % 2 = 1 then [ldrLine (p.getD (p.length - 1) 0)] else []) ++
          (List.range (p.length / 2)).reverse.map
            (fun t => ldpLine (p.getD (2 * t) 0) (p.getD (2 * t + 1) 0)) ∧
      exitRestores p = (entrySaves p).reverse.map mirrorSave ∧
      ¬ ((entryLoop p ((p.length : Int) - 1) p.length 0).2 < (p.length : Int) - 1) ∧
      ¬ ((exitLoop p p.length (orInt ((p.length : Int) - 2) 1)).2 > 0) := by
  refine ⟨entrySaves_eq p, exitRestores_eq p hlen, ?_, ?_, ?_⟩
  · rw [entrySaves_eq, exitRestores_eq p hlen, List.reverse_append, List.map_append]
    congr 1
    · by_cases hodd : p.length % 2 = 1
      · simp [hodd, mirrorSave_strLine]
      · simp [hodd]
    · rw [← List.map_reverse, List.map_map]
      apply List.map_congr_left
      intro t _
      exact (mirrorSave_stpLine _ _).symm
  · rw [entryLoop_run]
    show ¬ (((2 * (p.length / 2) : Nat) : Int) < (p.length : Int) - 1)
    omega
  · by_cases h0 : p.length = 0
    · have : p = [] := List.length_eq_zero.1 h0
      subst this
      decide
    · rw [orInt_sub_two_one p.length (by omega) hlen,
        exitLoop_spec p (p.length / 2) p.length (by omega)]
      show ¬ ((-1 : Int) > 0)
      decide

theorem exit_restores_mirror_entry_saves_witness :
    ([29, 30, 28] : List Int).length < 2147483648 ∧
      entrySaves [29, 30, 28] = [stpLine 29 30, strLine 28] ∧
      exitRestores [29, 30, 28] = [ldrLine 28, ldpLine 29 30] :=
  ⟨by decide, (exit_restores_mirror_entry_saves [29, 30, 28] (by decide)).1,
    (exit_restores_mirror_entry_saves [29, 30, 28] (by decide)).2.1⟩

/-! ## Frame depth -/

theorem nat_land_mask16 (n : Nat) (h : n < 4294967296) :
    n &&& 4294967280 = 16 * (n / 16) := by
  apply Nat.eq_of_testBit_eq
  intro i
  have hmask : (4294967280 : Nat) = 2 ^ 4 * (2 ^ 28 - 1) := by norm_num
  have h16 : (16 : Nat) = 2 ^ 4 := by norm_num
  rw [Nat.testBit_land, hmask, h16, Nat.testBit_mul_pow_two, Nat.testBit_mul_pow_two,
    Nat.testBit_two_pow_sub_one, ← Nat.shiftRight_eq_div_pow, Nat.testBit_shiftRight]
  by_cases h4 : i ≥ 4
  · have e : 4 + (i - 4) = i := by omega
    rw [e]
    by_cases h32 : i - 4 < 28
    · simp [h4, h32]
    · have hi : n < 2 ^ i :=
        lt_of_lt_of_le h (by
          have : (4294967296 : Nat) = 2 ^ 32 := by norm_num
          rw [this]
          exact Nat.pow_le_pow_right (by norm_num) (by omega))
      simp [h4, h32, Nat.testBit_lt_two_pow hi]
  · simp [h4]

theorem alignDep_eq (d : Int) (h0 : 0 ≤ d) (h1 : d + 15 < 2147483648) :
    alignDep d = 16 * ((d + 15) / 16) := by
  obtain ⟨n, hn⟩ : ∃ n : Nat, d + 15 = (n : Int) := ⟨(d + 15).toNat, by omega⟩
  have hmask : toU32 (~~~(15 : Int)) = 4294967280 := by decide
  unfold alignDep
  rw [hmask, hn, toU32_natCast n (by omega), nat_land_mask16 n (by omega),
    ofU32_small _ (by omega)]
  push_cast
  rfl

theorem adjustFuncCallInsts_maxDep (g : Func) : (adjustFuncCallInsts g).maxDep = g.maxDep := rfl

theorem adjustFormalParamInsts_maxDep (g : Func) :
    (adjustFormalParamInsts g).maxDep = g.maxDep := rfl

/-- C8: when `registerAllocation` returns (for a function that is not built in),
`max_frame_depth` is divisible by 16 and is the least multiple of 16 that is at
least the depth `d` accumulated by the spill allocations, for `0 ≤ d` with
`d + 15` inside the `int` range: it is at least `d`, exceeds `d` by less than
16, and no smaller multiple of 16 reaches `d`.  Neither call-site lowering nor
formal-parameter binding changes the depth. -/
theorem registerAllocation_aligns_frame_depth (func : Func) (hb : func.builtin = false)
    (h0 : 0 ≤ (allocateRegisters func).maxDep)
    (h1 : (allocateRegisters func).maxDep + 15 < 2147483648) :
    (16 : Int) ∣ (registerAllocation func).maxDep ∧
      (allocateRegisters func).maxDep ≤ (registerAllocation func).maxDep ∧
      (registerAllocation func).maxDep < (allocateRegisters func).maxDep + 16 ∧
      (∀ M : Int, (16 : Int) ∣ M → (allocateRegisters func).maxDep ≤ M →
        (registerAllocation func).maxDep ≤ M) ∧
      (∀ g : Func, (adjustFuncCallInsts g).maxDep = g.maxDep) ∧
      (∀ g : Func, (adjustFormalParamInsts g).maxDep = g.maxDep) := by
  have hD : (registerAllocation func).maxDep =
      16 * (((allocateRegisters func).maxDep + 15) / 16) := by
    unfold registerAllocation
    rw [if_neg (by simp [hb])]
    show alignDep (allocateRegisters func).maxDep = _
    exact alignDep_eq _ h0 h1
  refine ⟨?_, ?_, ?_, ?_, adjustFuncCallInsts_maxDep, adjustFormalParamInsts_maxDep⟩
  · rw [hD]; exact Dvd.intro _ rfl
  · rw [hD]; omega
  · rw [hD]; omega
  · intro M hM hle
    rw [hD]
    obtain ⟨k, rfl⟩ := hM
    omega

theorem registerAllocation_aligns_frame_depth_witness :
    (sampleSpillFunc.builtin = false ∧ 0 ≤ (allocateRegisters sampleSpillFunc).maxDep ∧
        (allocateRegisters sampleSpillFunc).maxDep + 15 < 2147483648) ∧
      (allocateRegisters sampleSpillFunc).maxDep = 40 ∧
      (registerAllocation sampleSpillFunc).maxDep = 48 ∧
      (16 : Int) ∣ (registerAllocation sampleSpillFunc).maxDep :=
  ⟨⟨by decide, by decide, by decide⟩, by decide, by decide,
    (registerAllocation_aligns_frame_depth sampleSpillFunc (by decide) (by decide)
      (by decide)).1⟩

/-! ## Call-site lowering -/

theorem StoreStable.refl (n : Nat) (st : Store) : StoreStable n st st := fun _ _ => rfl

theorem StoreStable.trans {n n' : Nat} {a b c : Store} (h1 : StoreStable n a b)
    (h2 : StoreStable n' b c) (hn : n ≤ n') : StoreStable n a c := by
  intro v hv
  rw [h2 v (fun m hm => lt_of_lt_of_le (hv m hm) hn), h1 v hv]

theorem lowerStackArgs_self_mem (self : VId) :
    ∀ (ops : List VId) (esp : Int) (st : Store) (n : Nat),
      self ∈ ops → self ∈ (lowerStackArgs self ops esp st n).1
  | [], _, _, _, h => by simp at h
  | arg :: rest, esp, st, n, h => by
    unfold lowerStackArgs
    by_cases ha : arg = self
    · simp [ha]
    · rw [if_neg ha]
      have hr : self ∈ rest := by
        rcases List.mem_cons.1 h with h | h
        · exact absurd h.symm ha
        · exact h
      exact List.mem_cons_of_mem _ (lowerStackArgs_self_mem self rest _ _ _ hr)

theorem lowerStackArgs_spec (self : VId) :
    ∀ (ops : List VId) (esp : Int) (st : Store) (n : Nat),
      (∀ v ∈ ops, v ≠ self) →
      (lowerStackArgs self ops esp st n).1.length = ops.length ∧
      n ≤ (lowerStackArgs self ops esp st n).2.2.2 ∧
      StoreStable n st (lowerStackArgs self ops esp st n).2.2.1 ∧
      (∀ mv ∈ (lowerStackArgs self ops esp st n).2.1, mv.op = IRINST_OP_ASSIGN) ∧
      (∀ (k : Nat) (orig : VId), ops[k]? = some orig →
        ∃ m, n ≤ m ∧ m < (lowerStackArgs self ops esp st n).2.2.2 ∧
          (lowerStackArgs self ops esp st n).1[k]? = some (VId.newLocal m) ∧
          (lowerStackArgs self ops esp st n).2.2.1 (VId.newLocal m) =
            stackArgLocal (esp + 4 * (k : Int)) ∧
          ∃ mv ∈ (lowerStackArgs self ops esp st n).2.1,
            mv.op = IRINST_OP_ASSIGN ∧ mv.operands = [VId.newLocal m, orig])
  | [], esp, st, n, _ => by
    simp [lowerStackArgs, StoreStable.refl]
  | arg :: rest, esp, st, n, h => by
    have ha : arg ≠ self := h arg (List.mem_cons_self _ _)
    have hrest : ∀ v ∈ rest, v ≠ self := fun v hv => h v (List.mem_cons_of_mem _ hv)
    simp only [lowerStackArgs, if_neg ha]
    generalize hst1 : setMemoryAddr (fun x => if x = VId.newLocal n then newLocalVarValue else st x)
      (VId.newLocal n) ARM64_SP_REG_NO esp = st1
    obtain ⟨ih1, ih2, ih3, ih4, ih5⟩ := lowerStackArgs_spec self rest (esp + 4) st1 (n + 2) hrest
    have hstable1 : StoreStable n st st1 := by
      intro v hv
      have hne : v ≠ VId.newLocal n := fun e => absurd (hv n e) (lt_irrefl _)
      rw [← hst1]
      simp [setMemoryAddr, hne]
    have hst1n : st1 (VId.newLocal n) = stackArgLocal esp := by
      rw [← hst1]
      simp [setMemoryAddr, stackArgLocal]
    refine ⟨by simp [ih1], by omega, hstable1.trans ih3 (by omega), ?_, ?_⟩
    · intro mv hmv
      rcases List.mem_cons.1 hmv with hmv | hmv
      · rw [hmv]; rfl
      · exact ih4 mv hmv
    · intro k orig hk
      cases k with
      | zero =>
        simp only [List.getElem?_cons_zero, Option.some.injEq] at hk
        refine ⟨n, le_refl _, by omega, by simp, ?_, ?_⟩
        · rw [ih3 (VId.newLocal n) (fun m hm => by cases hm; omega), hst1n]
          simp
        · exact ⟨_, List.mem_cons_self _ _, rfl, by simp [MoveInstruction, hk]⟩
      | succ k =>
        simp only [List.getElem?_cons_succ] at hk
        obtain ⟨m, hm1, hm2, hm3, hm4, mv, hmv, hmv1, hmv2⟩ := ih5 k orig hk
        refine ⟨m, by omega, hm2, by simpa using hm3, ?_, mv, List.mem_cons_of_mem _ hmv,
          hmv1, hmv2⟩
        rw [hm4]
        congr 1
        push_cast
        ring

theorem lowerRegArgs_self_mem (self : VId) (st : Store) :
    ∀ (ops : List VId) (k n : Nat),
      self ∈ ops → self ∈ (lowerRegArgs self st ops k n).1
  | [], _, _, h => by simp at h
  | arg :: rest, k, n, h => by
    unfold lowerRegArgs
    by_cases ha : arg = self
    · simp [ha]
    · rw [if_neg ha]
      have hr : self ∈ rest := by
        rcases List.mem_cons.1 h with h | h
        · exact absurd h.symm ha
        · exact h
      split
      · exact List.mem_cons_of_mem _ (lowerRegArgs_self_mem self st rest _ _ hr)
      · exact List.mem_cons_of_mem _ (lowerRegArgs_self_mem self st rest _ _ hr)

theorem lowerRegArgs_spec (self : VId) (st : Store) :
    ∀ (ops : List VId) (k n : Nat),
      (∀ v ∈ ops, v ≠ self) →
      (lowerRegArgs self st ops k n).1.length = ops.length ∧
      n ≤ (lowerRegArgs self st ops k n).2.2 ∧
      (∀ mv ∈ (lowerRegArgs self st ops k n).2.1, mv.op = IRINST_OP_ASSIGN) ∧
      (∀ (j : Nat) (v : VId), (lowerRegArgs self st ops k n).1[j]? = some v →
        (ops[j]? = some v ∧ (st v).regId = ((k + j : Nat) : Int)) ∨ v = VId.intRegVal (k + j))
  | [], k, n, _ => by simp [lowerRegArgs]
  | arg :: rest, k, n, h => by
    have ha : arg ≠ self := h arg (List.mem_cons_self _ _)
    have hrest : ∀ v ∈ rest, v ≠ self := fun v hv => h v (List.mem_cons_of_mem _ hv)
    simp only [lowerRegArgs, if_neg ha]
    by_cases hreg : (st arg).regId = (k : Int)
    · obtain ⟨ih1, ih2, ih3, ih4⟩ := lowerRegArgs_spec self st rest (k + 1) n hrest
      simp only [if_pos hreg]
      refine ⟨by simp [ih1], ih2, ih3, ?_⟩
      intro j v hj
      cases j with
      | zero =>
        simp only [List.getElem?_cons_zero, Option.some.injEq] at hj
        subst hj
        exact Or.inl ⟨by simp, by simpa using hreg⟩
      | succ j =>
        simp only [List.getElem?_cons_succ] at hj
        have e : k + 1 + j = k + (j + 1) := by omega
        rcases ih4 j v hj with h1 | h1
        · exact Or.inl ⟨by simpa using h1.1, by rw [← e]; exact h1.2⟩
        · exact Or.inr (by rw [← e]; exact h1)
    · obtain ⟨ih1, ih2, ih3, ih4⟩ := lowerRegArgs_spec self st rest (k + 1) (n + 1) hrest
      simp only [if_neg hreg]
      refine ⟨by simp [ih1], by omega, ?_, ?_⟩
      · intro mv hmv
        rcases List.mem_cons.1 hmv with hmv | hmv
        · rw [hmv]; rfl
        · exact ih3 mv hmv
      · intro j v hj
        cases j with
        | zero =>
          simp only [List.getElem?_cons_zero, Option.some.injEq] at hj
          exact Or.inr (by simpa using hj.symm)
        | succ j =>
          simp only [List.getElem?_cons_succ] at hj
          have e : k + 1 + j = k + (j + 1) := by omega
          rcases ih4 j v hj with h1 | h1
          · exact Or.inl ⟨by simpa using h1.1, by rw [← e]; exact h1.2⟩
          · exact Or.inr (by rw [← e]; exact h1)

theorem makeArgs_spec (self : VId) :
    ∀ (ops : List VId) (n : Nat),
      (∀ v ∈ ops, v ≠ self) →
      n ≤ (makeArgs self ops n).2 ∧
      List.Forall₂ (fun a v => a.op = IRINST_OP_ARG ∧ a.operands = [v])
        (makeArgs self ops n).1 ops ∧
      (∀ a ∈ (makeArgs self ops n).1, a.op = IRINST_OP_ARG)
  | [], n, _ => by simp [makeArgs]
  | arg :: rest, n, h => by
    have ha : arg ≠ self := h arg (List.mem_cons_self _ _)
    have hrest : ∀ v ∈ rest, v ≠ self := fun v hv => h v (List.mem_cons_of_mem _ hv)
    obtain ⟨ih1, ih2, ih3⟩ := makeArgs_spec self rest (n + 1) hrest
    simp only [makeArgs, if_neg ha]
    refine ⟨by omega, List.Forall₂.cons ⟨rfl, rfl⟩ ih2, ?_⟩
    intro a hmem
    rcases List.mem_cons.1 hmem with hmem | hmem
    · rw [hmem]; rfl
    · exact ih3 a hmem

theorem lowerCall_spec (c : Inst) (st : Store) (n : Nat)
    (hself : ∀ v ∈ (lowerCall c st n).call.operands, v ≠ c.self) :
    ((lowerCall c st n).call.self = c.self ∧ (lowerCall c st n).call.op = c.op ∧
      (lowerCall c st n).call.operands.length = c.operands.length) ∧
    (n ≤ (lowerCall c st n).newCnt ∧ StoreStable n st (lowerCall c st n).vals) ∧
    ((∃ pre0 args, (lowerCall c st n).before = pre0 ++ args ∧
        List.Forall₂ (fun a v => a.op = IRINST_OP_ARG ∧ a.operands = [v]) args
          (lowerCall c st n).call.operands) ∧
      (∀ mv ∈ (lowerCall c st n).before, mv.op ≠ IRINST_OP_FUNC_CALL) ∧
      (∀ mv ∈ (lowerCall c st n).after, mv.op ≠ IRINST_OP_FUNC_CALL)) ∧
    (∀ (k : Nat) (v : VId), k < 8 → (lowerCall c st n).call.operands[k]? = some v →
      (c.operands[k]? = some v ∧ ((lowerCall c st n).vals v).regId = (k : Int)) ∨
        v = VId.intRegVal k) ∧
    (∀ (k : Nat) (v : VId), 8 ≤ k → (lowerCall c st n).call.operands[k]? = some v →
      ∃ m orig, n ≤ m ∧ m < (lowerCall c st n).newCnt ∧ v = VId.newLocal m ∧
        c.operands[k]? = some orig ∧
        (lowerCall c st n).vals v = stackArgLocal (4 * ((k : Int) - 8)) ∧
        ∃ mv ∈ (lowerCall c st n).before,
          mv.op = IRINST_OP_ASSIGN ∧ mv.operands = [v, orig]) := by
  -- the two operand loops never stop early
  have hs0 : ∀ v ∈ c.operands.drop 8, v ≠ c.self := by
    intro v hv e
    subst e
    exact hself _ (List.mem_append_right _ (lowerStackArgs_self_mem _ _ _ _ _ hv)) rfl
  have hr0 : ∀ v ∈ c.operands.take 8, v ≠ c.self := by
    intro v hv e
    subst e
    exact hself _ (List.mem_append_left _ (lowerRegArgs_self_mem _ _ _ _ _ hv)) rfl
  obtain ⟨s1, s2, s3, s4, s5⟩ := lowerStackArgs_spec c.self (c.operands.drop 8) 0 st n hs0
  generalize hS : lowerStackArgs c.self (c.operands.drop 8) 0 st n = S at s1 s2 s3 s4 s5 hself
  obtain ⟨r1, r2, r3, r4⟩ := lowerRegArgs_spec c.self S.2.2.1 (c.operands.take 8) 0 S.2.2.2 hr0
  generalize hR : lowerRegArgs c.self S.2.2.1 (c.operands.take 8) 0 S.2.2.2 = R
    at r1 r2 r3 r4 hself
  have hops : (lowerCall c st n).call.operands = R.1 ++ S.1 := by
    simp only [lowerCall, hS, hR]
  have hselfops : ∀ v ∈ R.1 ++ S.1, v ≠ c.self := by
    intro v hv
    exact hself v (by simpa only [lowerCall, hS, hR] using hv)
  obtain ⟨a1, a2, a3⟩ := makeArgs_spec c.self (R.1 ++ S.1) R.2.2 hselfops
  generalize hA : makeArgs c.self (R.1 ++ S.1) R.2.2 = A at a1 a2 a3
  have hbefore : (lowerCall c st n).before = S.2.1 ++ R.2.1 ++ A.1 := by
    simp only [lowerCall, hS, hR, hA]
  have hvals : (lowerCall c st n).vals = S.2.2.1 := by
    simp only [lowerCall, hS]
  have hcnt : A.2 ≤ (lowerCall c st n).newCnt := by
    simp only [lowerCall, hS, hR, hA]
    omega
  have hR1len : R.1.length = min 8 c.operands.length := by
    rw [r1, List.length_take]
  have hS1len : S.1.length = c.operands.length - 8 := by
    rw [s1, List.length_drop]
  refine ⟨⟨rfl, rfl, ?_⟩, ⟨by omega, by rw [hvals]; exact s3⟩, ⟨?_, ?_, ?_⟩, ?_, ?_⟩
  · rw [hops, List.length_append, r1, s1, List.length_take, List.length_drop]
    omega
  · exact ⟨S.2.1 ++ R.2.1, A.1, hbefore, by rw [hops]; exact a2⟩
  · intro mv hmv
    rw [hbefore] at hmv
    rcases List.mem_append.1 hmv with hmv | hmv
    · rcases List.mem_append.1 hmv with hmv | hmv
      · rw [s4 mv hmv]; decide
      · rw [r3 mv hmv]; decide
    · rw [a3 mv hmv]; decide
  · intro mv hmv
    simp only [lowerCall] at hmv
    split at hmv
    · split at hmv
      · simp at hmv
      · rw [List.mem_singleton.1 hmv]
        simp [MoveInstruction]
    · simp at hmv
  · intro k v hk hv
    rw [hops] at hv
    by_cases hkl : k < R.1.length
    · rw [List.getElem?_append_left hkl] at hv
      rcases r4 k v hv with h1 | h1
      · left
        refine ⟨?_, ?_⟩
        · have := h1.1
          rwa [List.getElem?_take_of_lt hk] at this
        · rw [hvals]
          simpa using h1.2
      · right
        simpa using h1
    · exfalso
      have hlen : (R.1 ++ S.1).length ≤ k := by
        rw [List.length_append, hS1len]
        omega
      rw [List.getElem?_eq_none hlen] at hv
      exact Option.noConfusion hv
  · intro k v hk hv
    rw [hops] at hv
    have hklt : k < (R.1 ++ S.1).length := by
      by_contra hcon
      rw [List.getElem?_eq_none (by omega)] at hv
      exact Option.noConfusion hv
    rw [List.length_append, hS1len, hR1len] at hklt
    have hR8 : R.1.length = 8 := by omega
    rw [List.getElem?_append_right (by omega), hR8] at hv
    have hko : k - 8 < (c.operands.drop 8).length := by
      rw [List.length_drop]; omega
    obtain ⟨m, hm1, hm2, hm3, hm4, mv, hmv, hmv1, hmv2⟩ :=
      s5 (k - 8) ((c.operands.drop 8)[k - 8]) (List.getElem?_eq_getElem hko)
    have hvm : v = VId.newLocal m := by
      rw [hm3] at hv
      exact (Option.some.inj hv).symm
    refine ⟨m, (c.operands.drop 8)[k - 8], hm1, by omega, hvm, ?_, ?_, mv, ?_, hmv1, ?_⟩
    · rw [← List.getElem?_eq_getElem hko, List.getElem?_drop]
      congr 1
      omega
    · rw [hvals, hvm, hm4]
      congr 1
      push_cast [Nat.cast_sub hk]
      ring
    · rw [hbefore]
      exact List.mem_append_left _ (List.mem_append_left _ hmv)
    · rw [hvm]; exact hmv2

theorem lowerStackArgs_basic (self : VId) :
    ∀ (ops : List VId) (esp : Int) (st : Store) (n : Nat),
      n ≤ (lowerStackArgs self ops esp st n).2.2.2 ∧
      StoreStable n st (lowerStackArgs self ops esp st n).2.2.1 ∧
      (∀ mv ∈ (lowerStackArgs self ops esp st n).2.1, mv.op = IRINST_OP_ASSIGN)
  | [], esp, st, n => by simp [lowerStackArgs, StoreStable.refl]
  | arg :: rest, esp, st, n => by
    unfold lowerStackArgs
    by_cases ha : arg = self
    · simp [ha, StoreStable.refl]
    · simp only [if_neg ha]
      generalize hst1 : setMemoryAddr
        (fun x => if x = VId.newLocal n then newLocalVarValue else st x)
        (VId.newLocal n) ARM64_SP_REG_NO esp = st1
      obtain ⟨ih1, ih2, ih3⟩ := lowerStackArgs_basic self rest (esp + 4) st1 (n + 2)
      have hstable1 : StoreStable n st st1 := by
        intro v hv
        have hne : v ≠ VId.newLocal n := fun e => absurd (hv n e) (lt_irrefl _)
        rw [← hst1]
        simp [setMemoryAddr, hne]
      refine ⟨by omega, hstable1.trans ih2 (by omega), ?_⟩
      intro mv hmv
      rcases List.mem_cons.1 hmv with hmv | hmv
      · rw [hmv]; rfl
      · exact ih3 mv hmv

theorem lowerRegArgs_basic (self : VId) (st : Store) :
    ∀ (ops : List VId) (k n : Nat),
      n ≤ (lowerRegArgs self st ops k n).2.2 ∧
      (∀ mv ∈ (lowerRegArgs self st ops k n).2.1, mv.op = IRINST_OP_ASSIGN)
  | [], k, n => by simp [lowerRegArgs]
  | arg :: rest, k, n => by
    unfold lowerRegArgs
    by_cases ha : arg = self
    · simp [ha]
    · simp only [if_neg ha]
      by_cases hreg : (st arg).regId = (k : Int)
      · simp only [if_pos hreg]
        exact lowerRegArgs_basic self st rest (k + 1) n
      · simp only [if_neg hreg]
        obtain ⟨ih1, ih2⟩ := lowerRegArgs_basic self st rest (k + 1) (n + 1)
        refine ⟨by omega, ?_⟩
        intro mv hmv
        rcases List.mem_cons.1 hmv with hmv | hmv
        · rw [hmv]; rfl
        · exact ih2 mv hmv

theorem makeArgs_basic (self : VId) :
    ∀ (ops : List VId) (n : Nat),
      n ≤ (makeArgs self ops n).2 ∧ (∀ a ∈ (makeArgs self ops n).1, a.op = IRINST_OP_ARG)
  | [], n => by simp [makeArgs]
  | arg :: rest, n => by
    unfold makeArgs
    by_cases ha : arg = self
    · simp only [if_pos ha]
      exact makeArgs_basic self rest n
    · simp only [if_neg ha]
      obtain ⟨ih1, ih2⟩ := makeArgs_basic self rest (n + 1)
      refine ⟨by omega, ?_⟩
      intro a hmem
      rcases List.mem_cons.1 hmem with hmem | hmem
      · rw [hmem]; rfl
      · exact ih2 a hmem

theorem lowerCall_basic (c : Inst) (st : Store) (n : Nat) :
    n ≤ (lowerCall c st n).newCnt ∧ StoreStable n st (lowerCall c st n).vals ∧
      (∀ mv ∈ (lowerCall c st n).before, mv.op ≠ IRINST_OP_FUNC_CALL) ∧
      (∀ mv ∈ (lowerCall c st n).after, mv.op ≠ IRINST_OP_FUNC_CALL) := by
  obtain ⟨s1, s2, s3⟩ := lowerStackArgs_basic c.self (c.operands.drop 8) 0 st n
  generalize hS : lowerStackArgs c.self (c.operands.drop 8) 0 st n = S at s1 s2 s3
  obtain ⟨r1, r2⟩ := lowerRegArgs_basic c.self S.2.2.1 (c.operands.take 8) 0 S.2.2.2
  generalize hR : lowerRegArgs c.self S.2.2.1 (c.operands.take 8) 0 S.2.2.2 = R at r1 r2
  obtain ⟨a1, a2⟩ := makeArgs_basic c.self (R.1 ++ S.1) R.2.2
  generalize hA : makeArgs c.self (R.1 ++ S.1) R.2.2 = A at a1 a2
  have hbefore : (lowerCall c st n).before = S.2.1 ++ R.2.1 ++ A.1 := by
    simp only [lowerCall, hS, hR, hA]
  have hvals : (lowerCall c st n).vals = S.2.2.1 := by
    simp only [lowerCall, hS]
  have hcnt : A.2 ≤ (lowerCall c st n).newCnt := by
    simp only [lowerCall, hS, hR, hA]
    omega
  refine ⟨by omega, by rw [hvals]; exact s2, ?_, ?_⟩
  · intro mv hmv
    rw [hbefore] at hmv
    rcases List.mem_append.1 hmv with hmv | hmv
    · rcases List.mem_append.1 hmv with hmv | hmv
      · rw [s3 mv hmv]; decide
      · rw [r2 mv hmv]; decide
    · rw [a2 mv hmv]; decide
  · intro mv hmv
    simp only [lowerCall] at hmv
    split at hmv
    · split at hmv
      · simp at hmv
      · rw [List.mem_singleton.1 hmv]
        simp [MoveInstruction]
    · simp at hmv

theorem split_after_front {α : Type} (P : α → Prop) :
    ∀ (A B pre post : List α) (c : α), (∀ a ∈ A, ¬ P a) → P c →
      A ++ B = pre ++ c :: post → ∃ t, pre = A ++ t ∧ B = t ++ c :: post
  | [], B, pre, post, c, _, _, h => ⟨pre, rfl, h⟩
  | a :: A, B, [], post, c, hA, hc, h => by
    simp only [List.cons_append, List.nil_append, List.cons.injEq] at h
    exact absurd (h.1 ▸ hc) (hA a (List.mem_cons_self _ _))
  | a :: A, B, p :: pre, post, c, hA, hc, h => by
    simp only [List.cons_append, List.cons.injEq] at h
    obtain ⟨t, ht1, ht2⟩ := split_after_front P A B pre post c
      (fun x hx => hA x (List.mem_cons_of_mem _ hx)) hc h.2
    exact ⟨t, by rw [h.1, ht1]; rfl, ht2⟩

theorem CallLowered.mono {insts : List Inst} {n : Nat} {st' : Store} {pre : List Inst} {c : Inst}
    (h : CallLowered insts n st' pre c) (inst : Inst) (n0 : Nat) (hn : n0 ≤ n) (front : List Inst) :
    CallLowered (inst :: insts) n0 st' (front ++ pre) c := by
  obtain ⟨⟨pre0, args, hp, hf⟩, hb, c0, hc0, hs, hop, hlen, hst⟩ := h
  refine ⟨⟨front ++ pre0, args, by rw [hp, List.append_assoc], hf⟩, hb, c0,
    List.mem_cons_of_mem _ hc0, hs, hop, hlen, ?_⟩
  intro k v hk hv
  obtain ⟨m, orig, h1, h2, h3, h4, mv, h5, h6, h7⟩ := hst k v hk hv
  exact ⟨m, orig, by omega, h2, h3, h4, mv, List.mem_append_right _ h5, h6, h7⟩

theorem adjustFuncCallLoop_spec :
    ∀ (insts : List Inst) (st : Store) (n : Nat),
      (∀ k : Nat, (st (VId.intRegVal k)).regId = (k : Int)) →
      (∀ inst ∈ insts, ∀ v ∈ inst.operands, ∀ m, v = VId.newLocal m → m < n) →
      n ≤ (adjustFuncCallLoop insts st n).2.2 ∧
      StoreStable n st (adjustFuncCallLoop insts st n).2.1 ∧
      ∀ (pre post : List Inst) (c : Inst),
        (adjustFuncCallLoop insts st n).1 = pre ++ c :: post →
        c.op = IRINST_OP_FUNC_CALL → (∀ v ∈ c.operands, v ≠ c.self) →
        CallLowered insts n (adjustFuncCallLoop insts st n).2.1 pre c
  | [], st, n, _, _ => by
    refine ⟨le_refl _, StoreStable.refl _ _, ?_⟩
    intro pre post c h
    simp [adjustFuncCallLoop] at h
  | inst :: rest, st, n, hreg, hknown => by
    have hknownrest : ∀ n', n ≤ n' →
        ∀ i ∈ rest, ∀ v ∈ i.operands, ∀ m, v = VId.newLocal m → m < n' :=
      fun n' hn' i hi v hv m hm =>
        lt_of_lt_of_le (hknown i (List.mem_cons_of_mem _ hi) v hv m hm) hn'
    by_cases hop : inst.op = IRINST_OP_FUNC_CALL
    · simp only [adjustFuncCallLoop, if_pos hop]
      generalize hL : lowerCall inst st n = L
      -- facts of the call that do not need the operand hypothesis
      have hLcnt : n ≤ L.newCnt ∧ StoreStable n st L.vals ∧
          (∀ mv ∈ L.before, mv.op ≠ IRINST_OP_FUNC_CALL) ∧
          (∀ mv ∈ L.after, mv.op ≠ IRINST_OP_FUNC_CALL) := by
        rw [← hL]
        exact lowerCall_basic inst st n
      obtain ⟨hL1, hL2, hL3, hL4⟩ := hLcnt
      have hregL : ∀ k : Nat, (L.vals (VId.intRegVal k)).regId = (k : Int) := by
        intro k
        rw [hL2 _ (fun m hm => by cases hm)]
        exact hreg k
      obtain ⟨ih1, ih2, ih3⟩ := adjustFuncCallLoop_spec rest L.vals L.newCnt hregL
        (hknownrest _ hL1)
      generalize hT : adjustFuncCallLoop rest L.vals L.newCnt = T at ih1 ih2 ih3
      refine ⟨by omega, hL2.trans ih2 hL1, ?_⟩
      intro pre post c hsplit hcop hcself
      obtain ⟨t, ht1, ht2⟩ := split_after_front (fun i => i.op = IRINST_OP_FUNC_CALL)
        L.before _ pre post c hL3 hcop hsplit
      cases t with
      | nil =>
        simp only [List.nil_append, List.cons.injEq] at ht2
        have hc : c = (lowerCall inst st n).call := by rw [hL]; exact ht2.1.symm
        have hcs : c.self = inst.self := by rw [hc]; rfl
        have hself0 : ∀ v ∈ (lowerCall inst st n).call.operands, v ≠ inst.self := by
          intro v hv
          rw [← hcs]
          exact hcself v (by rw [hc]; exact hv)
        obtain ⟨⟨q1, q2, q3⟩, -, ⟨q4, -, -⟩, q5, q6⟩ := lowerCall_spec inst st n hself0
        rw [hL] at q1 q2 q3 q4 q5 q6
        rw [ht2.1] at q1 q2 q3 q4 q5 q6
        have hpre : pre = L.before := by rw [ht1]; simp
        rw [hpre]
        refine ⟨q4, ?_, inst, List.mem_cons_self _ _, q1.symm, hop, q3.symm, ?_⟩
        · intro k v hk hv
          rcases q5 k v hk hv with h1 | h1
          · have hv0 : ∀ m, v = VId.newLocal m → m < L.newCnt := fun m hm =>
              lt_of_lt_of_le
                (hknown inst (List.mem_cons_self _ _) v (List.getElem?_mem h1.1) m hm) hL1
            rw [ih2 v hv0]
            exact h1.2
          · rw [h1, ih2 _ (fun m hm => by cases hm)]
            exact hregL k
        · intro k v hk hv
          obtain ⟨m, orig, h1, h2, h3, h4, h5, h6⟩ := q6 k v hk hv
          refine ⟨m, orig, h1, h3, h4, ?_, h6⟩
          rw [ih2 v (fun m' hm' => by rw [h3] at hm'; cases hm'; exact h2)]
          exact h5
      | cons x t =>
        simp only [List.cons_append, List.cons.injEq] at ht2
        obtain ⟨t', ht3, ht4⟩ := split_after_front (fun i => i.op = IRINST_OP_FUNC_CALL)
          L.after T.1 t post c hL4 hcop ht2.2
        have := (ih3 t' post c ht4 hcop hcself).mono inst n hL1 (L.before ++ x :: L.after)
        rw [ht1, ht3]
        simpa using this
    · simp only [adjustFuncCallLoop, if_neg hop]
      obtain ⟨ih1, ih2, ih3⟩ := adjustFuncCallLoop_spec rest st n hreg (hknownrest n (le_refl _))
      refine ⟨ih1, ih2, ?_⟩
      intro pre post c hsplit hcop hcself
      cases pre with
      | nil =>
        simp only [List.nil_append, List.cons.injEq] at hsplit
        exact absurd (hsplit.1 ▸ hcop) hop
      | cons p pre =>
        simp only [List.cons_append, List.cons.injEq] at hsplit
        have := (ih3 pre post c hsplit.2 hcop hcself).mono inst n (le_refl _) [p]
        simpa using this

/-- C10: after `adjustFuncCallInsts`, for every `FUNC_CALL` `c` of the result none
of whose operands is the call itself (`pre` are the instructions in front of
it): `pre` ends with one `ARG` per operand of `c`, in operand order; every
operand `k < 8` has register id `k`; every operand `k >= 8` is a local created
by the rewrite (integer type, four bytes, no register) with memory address
`(SP, 4 * (k - 8))`, and `pre` holds a move of the original operand `k` of the
call into it.  Assumed of the input: the register variable `x_k` has register
id `k`, and no operand is a local that the backend has yet to create. -/
theorem adjustFuncCallInsts_lowers_calls (func : Func)
    (hreg : ∀ k : Nat, (func.vals (VId.intRegVal k)).regId = (k : Int))
    (hknown : ∀ inst ∈ func.insts, ∀ v ∈ inst.operands, ∀ m, v = VId.newLocal m →
      m < func.newCnt)
    (pre post : List Inst) (c : Inst)
    (hsplit : (adjustFuncCallInsts func).insts = pre ++ c :: post)
    (hop : c.op = IRINST_OP_FUNC_CALL) (hself : ∀ v ∈ c.operands, v ≠ c.self) :
    (∃ pre0 args, pre = pre0 ++ args ∧
        List.Forall₂ (fun a v => a.op = IRINST_OP_ARG ∧ a.operands = [v]) args c.operands) ∧
      (∀ (k : Nat) (v : VId), k < 8 → c.operands[k]? = some v →
        ((adjustFuncCallInsts func).vals v).regId = (k : Int)) ∧
      (∃ c0 ∈ func.insts, c0.self = c.self ∧ c0.op = IRINST_OP_FUNC_CALL ∧
        c0.operands.length = c.operands.length ∧
        ∀ (k : Nat) (v : VId), 8 ≤ k → c.operands[k]? = some v →
          ∃ m orig, func.newCnt ≤ m ∧ v = VId.newLocal m ∧ c0.operands[k]? = some orig ∧
            (adjustFuncCallInsts func).vals v = stackArgLocal (4 * ((k : Int) - 8)) ∧
            ∃ mv ∈ pre, mv.op = IRINST_OP_ASSIGN ∧ mv.operands = [v, orig]) :=
  (adjustFuncCallLoop_spec func.insts func.vals func.newCnt hreg hknown).2.2
    pre post c hsplit hop hself

theorem adjustFuncCallInsts_lowers_calls_witness :
    ((∀ k : Nat, (sampleNineArgCaller.vals (VId.intRegVal k)).regId = (k : Int)) ∧
      (adjustFuncCallInsts sampleNineArgCaller).insts =
        (adjustFuncCallInsts sampleNineArgCaller).insts.take 19 ++
          { self := VId.user 11, op := IRINST_OP_FUNC_CALL,
            operands := [VId.intRegVal 0, VId.intRegVal 1, VId.intRegVal 2, VId.intRegVal 3,
                         VId.intRegVal 4, VId.intRegVal 5, VId.intRegVal 6, VId.intRegVal 7,
                         VId.newLocal 0] } ::
          [{ self := VId.user 12, op := IRINST_OP_EXIT }]) ∧
      ∃ pre0 args, (adjustFuncCallInsts sampleNineArgCaller).insts.take 19 = pre0 ++ args ∧
        List.Forall₂ (fun a v => a.op = IRINST_OP_ARG ∧ a.operands = [v]) args
          [VId.intRegVal 0, VId.intRegVal 1, VId.intRegVal 2, VId.intRegVal 3,
           VId.intRegVal 4, VId.intRegVal 5, VId.intRegVal 6, VId.intRegVal 7,
           VId.newLocal 0] :=
  ⟨⟨fun _ => rfl, by decide⟩,
    (adjustFuncCallInsts_lowers_calls sampleNineArgCaller (fun _ => rfl)
      (by
        intro inst hi v hv m hm
        subst hm
        simp [sampleNineArgCaller] at hi
        rcases hi with rfl | rfl | rfl <;> simp at hv)
      ((adjustFuncCallInsts sampleNineArgCaller).insts.take 19)
      [{ self := VId.user 12, op := IRINST_OP_EXIT }]
      { self := VId.user 11, op := IRINST_OP_FUNC_CALL,
        operands := [VId.intRegVal 0, VId.intRegVal 1, VId.intRegVal 2, VId.intRegVal 3,
                     VId.intRegVal 4, VId.intRegVal 5, VId.intRegVal 6, VId.intRegVal 7,
                     VId.newLocal 0] }
      (by decide) rfl (by decide)).1⟩

/-! ## Evaluations on the sample functions -/

/-- C1, evaluated on `sampleUnusedParamCaller`: after `registerAllocation` the
instruction at index 1 is the inserted move `a <- x0`, and its operand `a`, a
formal parameter, has register id `-1` and no memory address. -/
theorem unused_param_move_has_no_location :
    (registerAllocation sampleUnusedParamCaller).insts[1]? =
        some (MoveInstruction (VId.newInst 0) (VId.user 0) (VId.intRegVal 0)) ∧
      ((registerAllocation sampleUnusedParamCaller).vals (VId.user 0)).kind =
        ValueKind.formalParam ∧
      ((registerAllocation sampleUnusedParamCaller).vals (VId.user 0)).regId = -1 ∧
      ((registerAllocation sampleUnusedParamCaller).vals (VId.user 0)).hasMemoryAddr = false := by
  decide

/-- C2, evaluated on `sampleNineParamLeaf`: after `registerAllocation` the formal
parameter of index 8 has the register id 15 and also the memory address
`(FP, 4)`. -/
theorem stack_param_keeps_scratch_register :
    sampleNineParamLeaf.params[8]? = some (VId.user 8) ∧
      ((registerAllocation sampleNineParamLeaf).vals (VId.user 8)).kind =
        ValueKind.formalParam ∧
      ((registerAllocation sampleNineParamLeaf).vals (VId.user 8)).regId = 15 ∧
      ((registerAllocation sampleNineParamLeaf).vals (VId.user 8)).hasMemoryAddr = true ∧
      ((registerAllocation sampleNineParamLeaf).vals (VId.user 8)).baseRegNo = ARM64_FP_REG_NO ∧
      ((registerAllocation sampleNineParamLeaf).vals (VId.user 8)).offset = 4 := by
  decide

/-- C7, evaluated on `sampleNineArgCaller`: the prologue subtracts 8 bytes from
SP (`sub sp, sp, #8`), the epilogue emits no `add sp` at all. -/
theorem exit_does_not_release_argument_area :
    translate_entry (registerAllocation sampleNineArgCaller) =
        [stpLine 29 30,
         { opcode := "sub", result := "sp", arg1 := "sp", arg2 := "#8" },
         { opcode := "add", result := "x29", arg1 := "sp", arg2 := "#8" }] ∧
      translate_exit (registerAllocation sampleNineArgCaller)
          { self := VId.user 12, op := IRINST_OP_EXIT } =
        [ldpLine 29 30, { opcode := "ret", result := "" }] := by
  decide

/-- C9, evaluated on `sampleNineArgCaller`: after `registerAllocation` the frame
depth is 0 and the frame size that `allocStack` subtracts from SP is 8, which is
not a multiple of 16. -/
theorem frame_size_not_multiple_of_16 :
    (registerAllocation sampleNineArgCaller).maxDep = 0 ∧
      allocStackOff (registerAllocation sampleNineArgCaller) = 8 ∧
      ¬ (16 : Int) ∣ allocStackOff (registerAllocation sampleNineArgCaller) ∧
      allocStack (registerAllocation sampleNineArgCaller) ARM64_TMP_REG_NO =
        [{ opcode := "sub", result := "sp", arg1 := "sp", arg2 := "#8" },
         { opcode := "add", result := "x29", arg1 := "sp", arg2 := "#8" }] := by
  decide

/-! ## Liveness -/

theorem findLastUseLoop_spec (val : VId) (insts : List Inst) (p : Int) (hp : 0 ≤ p) :
    ∀ (n fuel : Nat) (i : Int), n ≤ fuel → i + 1 - p ≤ (n : Int) → -1 ≤ i →
      i < (insts.length : Int) →
      p ≤ findLastUseLoop val insts p fuel i ∧
      (findLastUseLoop val insts p fuel i = p ∨
        (findLastUseLoop val insts p fuel i ≤ i ∧
          UsesAt val insts (findLastUseLoop val insts p fuel i).toNat)) ∧
      (∀ j : Nat, findLastUseLoop val insts p fuel i < (j : Int) → (j : Int) ≤ i →
        ¬ UsesAt val insts j) ∧
      ((∀ j : Nat, p ≤ (j : Int) → (j : Int) ≤ i → ¬ UsesAt val insts j) →
        findLastUseLoop val insts p fuel i = p)
  | 0, fuel, i, _, hn, _, _ => by
    have hlt : ¬ (i ≥ p) := by omega
    have hR : findLastUseLoop val insts p fuel i = p := by
      cases fuel with
      | zero => rfl
      | succ f => simp only [findLastUseLoop, if_neg hlt]
    rw [hR]
    refine ⟨le_refl _, Or.inl rfl, ?_, fun _ => rfl⟩
    intro j h1 h2
    omega
  | n + 1, fuel, i, hf, hn, hi1, hi2 => by
    obtain ⟨f, rfl⟩ : ∃ f, fuel = f + 1 := ⟨fuel - 1, by omega⟩
    by_cases hge : i ≥ p
    · have hnat : i.toNat < insts.length := by omega
      have hget : insts[i.toNat]? = some insts[i.toNat] := List.getElem?_eq_getElem hnat
      by_cases hmem : val ∈ (insts[i.toNat]).operands
      · have hR : findLastUseLoop val insts p (f + 1) i = i := by
          simp only [findLastUseLoop, if_pos hge, hget, if_pos hmem]
        rw [hR]
        refine ⟨hge, Or.inr ⟨le_refl _, _, hget, hmem⟩, ?_, ?_⟩
        · intro j h1 h2; omega
        · intro hno
          exact absurd ⟨_, hget, hmem⟩ (hno i.toNat (by omega) (by omega))
      · have hR : findLastUseLoop val insts p (f + 1) i =
            findLastUseLoop val insts p f (i - 1) := by
          simp only [findLastUseLoop, if_pos hge, hget, if_neg hmem]
        rw [hR]
        obtain ⟨h1, h2, h3, h4⟩ := findLastUseLoop_spec val insts p hp n f (i - 1)
          (by omega) (by omega) (by omega) (by omega)
        refine ⟨h1, ?_, ?_, ?_⟩
        · rcases h2 with h2 | h2
          · exact Or.inl h2
          · exact Or.inr ⟨by omega, h2.2⟩
        · intro j hj1 hj2
          by_cases hji : (j : Int) = i
          · rintro ⟨inst, hinst, hv⟩
            have : j = i.toNat := by omega
            subst this
            rw [hget] at hinst
            exact hmem (by rw [Option.some.inj hinst]; exact hv)
          · exact h3 j hj1 (by omega)
        · intro hno
          exact h4 (fun j hj1 hj2 => hno j hj1 (by omega))
    · have hR : findLastUseLoop val insts p (f + 1) i = p := by
        simp only [findLastUseLoop, if_neg hge]
      rw [hR]
      refine ⟨le_refl _, Or.inl rfl, ?_, fun _ => rfl⟩
      intro j h1 h2
      omega

theorem findLastUseLoop_fuel (val : VId) (insts : List Inst) (p : Int) :
    ∀ (fuel fuel' : Nat) (i : Int), i + 1 - p ≤ (fuel : Int) → i + 1 - p ≤ (fuel' : Int) →
      findLastUseLoop val insts p fuel i = findLastUseLoop val insts p fuel' i
  | 0, 0, _, _, _ => rfl
  | 0, f' + 1, i, h, _ => by
    have : ¬ (i ≥ p) := by omega
    simp only [findLastUseLoop, if_neg this]
  | f + 1, 0, i, _, h => by
    have : ¬ (i ≥ p) := by omega
    simp only [findLastUseLoop, if_neg this]
  | f + 1, f' + 1, i, h, h' => by
    by_cases hge : i ≥ p
    · have ih := findLastUseLoop_fuel val insts p f f' (i - 1) (by omega) (by omega)
      simp only [findLastUseLoop, if_pos hge, ih]
    · simp only [findLastUseLoop, if_neg hge]

/-- C17: for `0 ≤ p`, `findLastUse(val, insts, p)` is at least `p`; no instruction
after the returned index has `val` among its operands; when some instruction at
an index `j ≥ p` uses `val`, the result is an index inside the vector whose
instruction uses `val` and `j` is at most the result (the result is the largest
such index); when none does, the result is `p`.  The loop never runs out of
fuel: every fuel of at least `|insts|` gives the same result. -/
theorem findLastUse_is_last_use (val : VId) (insts : List Inst) (p : Int) (hp : 0 ≤ p) :
    p ≤ findLastUse val insts p ∧
      (∀ j : Nat, findLastUse val insts p < (j : Int) → ¬ UsesAt val insts j) ∧
      (∀ j : Nat, p ≤ (j : Int) → UsesAt val insts j →
        (j : Int) ≤ findLastUse val insts p ∧
          findLastUse val insts p < (insts.length : Int) ∧
          UsesAt val insts (findLastUse val insts p).toNat) ∧
      ((∀ j : Nat, p ≤ (j : Int) → ¬ UsesAt val insts j) → findLastUse val insts p = p) ∧
      (∀ fuel : Nat, insts.length ≤ fuel →
        findLastUseLoop val insts p fuel ((insts.length : Int) - 1) = findLastUse val insts p) := by
  obtain ⟨h1, h2, h3, h4⟩ := findLastUseLoop_spec val insts p hp insts.length insts.length
    ((insts.length : Int) - 1) (le_refl _) (by omega) (by omega) (by omega)
  have hout : ∀ j : Nat, (insts.length : Int) - 1 < (j : Int) → ¬ UsesAt val insts j := by
    rintro j hj ⟨inst, hinst, -⟩
    rw [List.getElem?_eq_none (by omega)] at hinst
    exact Option.noConfusion hinst
  unfold findLastUse
  refine ⟨h1, ?_, ?_, ?_, ?_⟩
  · intro j hj
    by_cases hjl : (j : Int) ≤ (insts.length : Int) - 1
    · exact h3 j hj hjl
    · exact hout j (by omega)
  · intro j hj huse
    have hjl : (j : Int) ≤ (insts.length : Int) - 1 := by
      by_contra hcon
      exact hout j (by omega) huse
    have hle : (j : Int) ≤ findLastUseLoop val insts p insts.length ((insts.length : Int) - 1) := by
      by_contra hcon
      exact h3 j (by omega) hjl huse
    refine ⟨hle, ?_, ?_⟩
    · rcases h2 with h2 | h2
      · omega
      · omega
    · rcases h2 with h2 | h2
      · have hjp : (j : Int) = p := by omega
        rw [h2, ← hjp]
        simpa using huse
      · exact h2.2
  · intro hno
    exact h4 (fun j hj1 _ => hno j hj1)
  · intro fuel hfuel
    exact findLastUseLoop_fuel val insts p fuel insts.length _ (by omega) (by omega)

/-! ## Condition suffixes -/

/-- C18: for the six integer comparison opcodes, `CSTR(c)` is the condition
suffix of `c` itself (IEQ eq, INE ne, IGT gt, IGE ge, ILT lt, ILE le) and
`CSTRJ(c)`, which XORs the ordinal offset of `c` with 1, is the suffix of the
logical negation of `c` (ne, eq, le, lt, ge, gt); XORing the offset with 1 gives
the offset of the negated opcode, and doing it twice gives back the offset, so
the complement of the complement is the original condition. -/
theorem cstr_and_cstrj_table :
    (CSTR IRINST_OP_IEQ = "eq" ∧ CSTR IRINST_OP_INE = "ne" ∧ CSTR IRINST_OP_IGT = "gt" ∧
        CSTR IRINST_OP_IGE = "ge" ∧ CSTR IRINST_OP_ILT = "lt" ∧ CSTR IRINST_OP_ILE = "le") ∧
      (CSTRJ IRINST_OP_IEQ = "ne" ∧ CSTRJ IRINST_OP_INE = "eq" ∧ CSTRJ IRINST_OP_IGT = "le" ∧
        CSTRJ IRINST_OP_IGE = "lt" ∧ CSTRJ IRINST_OP_ILT = "ge" ∧ CSTRJ IRINST_OP_ILE = "gt") ∧
      (∀ c ∈ intCmpOps,
        CSTRJ c = CSTR (negateCmp c) ∧ CSTRJ (negateCmp c) = CSTR c ∧
          (negateCmp c).toInt - IRINST_OP_IEQ.toInt =
            xorInt (c.toInt - IRINST_OP_IEQ.toInt) 1 ∧
          xorInt (xorInt (c.toInt - IRINST_OP_IEQ.toInt) 1) 1 =
            c.toInt - IRINST_OP_IEQ.toInt) := by
  decide

/-! ## Call-site lowering: insertions and the return value -/

theorem lowerStackArgs_length (self : VId) :
    ∀ (ops : List VId) (esp : Int) (st : Store) (n : Nat),
      (lowerStackArgs self ops esp st n).1.length = ops.length
  | [], _, _, _ => by simp [lowerStackArgs]
  | arg :: rest, esp, st, n => by
    unfold lowerStackArgs
    by_cases ha : arg = self
    · simp [ha]
    · simp only [if_neg ha, List.length_cons]
      rw [lowerStackArgs_length self rest]

theorem lowerRegArgs_length (self : VId) (st : Store) :
    ∀ (ops : List VId) (k n : Nat), (lowerRegArgs self st ops k n).1.length = ops.length
  | [], _, _ => by simp [lowerRegArgs]
  | arg :: rest, k, n => by
    unfold lowerRegArgs
    by_cases ha : arg = self
    · simp [ha]
    · simp only [if_neg ha]
      split <;> simp only [List.length_cons] <;> rw [lowerRegArgs_length self st rest]

theorem IsInserted.weaken {n n' : Nat} {x : Inst} (h : IsInserted n' x) (hn : n ≤ n') :
    IsInserted n x := by
  obtain ⟨h1, m, h2, h3⟩ := h
  exact ⟨h1, m, h2, by omega⟩

theorem lowerStackArgs_inserted (self : VId) :
    ∀ (ops : List VId) (esp : Int) (st : Store) (n : Nat),
      ∀ mv ∈ (lowerStackArgs self ops esp st n).2.1, IsInserted n mv
  | [], _, _, _ => by simp [lowerStackArgs]
  | arg :: rest, esp, st, n => by
    unfold lowerStackArgs
    by_cases ha : arg = self
    · simp [ha]
    · simp only [if_neg ha]
      intro mv hmv
      rcases List.mem_cons.1 hmv with hmv | hmv
      · rw [hmv]
        exact ⟨Or.inl rfl, n + 1, rfl, by omega⟩
      · exact (lowerStackArgs_inserted self rest _ _ _ mv hmv).weaken (by omega)

theorem lowerRegArgs_inserted (self : VId) (st : Store) :
    ∀ (ops : List VId) (k n : Nat), ∀ mv ∈ (lowerRegArgs self st ops k n).2.1, IsInserted n mv
  | [], _, _ => by simp [lowerRegArgs]
  | arg :: rest, k, n => by
    unfold lowerRegArgs
    by_cases ha : arg = self
    · simp [ha]
    · simp only [if_neg ha]
      split
      · exact lowerRegArgs_inserted self st rest (k + 1) n
      · intro mv hmv
        rcases List.mem_cons.1 hmv with hmv | hmv
        · rw [hmv]
          exact ⟨Or.inl rfl, n, rfl, le_refl _⟩
        · exact (lowerRegArgs_inserted self st rest _ _ mv hmv).weaken (by omega)

theorem makeArgs_inserted (self : VId) :
    ∀ (ops : List VId) (n : Nat), ∀ a ∈ (makeArgs self ops n).1, IsInserted n a
  | [], _ => by simp [makeArgs]
  | arg :: rest, n => by
    unfold makeArgs
    by_cases ha : arg = self
    · simp only [if_pos ha]
      exact makeArgs_inserted self rest n
    · simp only [if_neg ha]
      intro a hmem
      rcases List.mem_cons.1 hmem with hmem | hmem
      · rw [hmem]
        exact ⟨Or.inr rfl, n, rfl, le_refl _⟩
      · exact (makeArgs_inserted self rest _ a hmem).weaken (by omega)

theorem lowerCall_shape (c : Inst) (st : Store) (n : Nat) :
    (lowerCall c st n).call = { c with operands := (lowerCall c st n).call.operands } ∧
      (lowerCall c st n).call.operands.length = c.operands.length ∧
      (∀ x ∈ (lowerCall c st n).before, IsInserted n x) ∧
      (∀ x ∈ (lowerCall c st n).after, IsInserted n x) ∧
      ∃ k, (lowerCall c st n).after =
        returnMove c.hasResultValue ((lowerCall c st n).vals c.self).regId c.self k := by
  have s1 := lowerStackArgs_length c.self (c.operands.drop 8) 0 st n
  have s2 := lowerStackArgs_inserted c.self (c.operands.drop 8) 0 st n
  have s3 := (lowerStackArgs_basic c.self (c.operands.drop 8) 0 st n).1
  generalize hS : lowerStackArgs c.self (c.operands.drop 8) 0 st n = S at s1 s2 s3
  have r1 := lowerRegArgs_length c.self S.2.2.1 (c.operands.take 8) 0 S.2.2.2
  have r2 := lowerRegArgs_inserted c.self S.2.2.1 (c.operands.take 8) 0 S.2.2.2
  have r3 := (lowerRegArgs_basic c.self S.2.2.1 (c.operands.take 8) 0 S.2.2.2).1
  generalize hR : lowerRegArgs c.self S.2.2.1 (c.operands.take 8) 0 S.2.2.2 = R at r1 r2 r3
  have a1 := makeArgs_inserted c.self (R.1 ++ S.1) R.2.2
  have a2 := (makeArgs_basic c.self (R.1 ++ S.1) R.2.2).1
  generalize hA : makeArgs c.self (R.1 ++ S.1) R.2.2 = A at a1 a2
  have hops : (lowerCall c st n).call.operands = R.1 ++ S.1 := by
    simp only [lowerCall, hS, hR]
  have hbefore : (lowerCall c st n).before = S.2.1 ++ R.2.1 ++ A.1 := by
    simp only [lowerCall, hS, hR, hA]
  have hafter : (lowerCall c st n).after =
      returnMove c.hasResultValue ((lowerCall c st n).vals c.self).regId c.self A.2 := by
    simp only [lowerCall, hS, hR, hA, returnMove]
  refine ⟨rfl, ?_, ?_, ?_, A.2, hafter⟩
  · rw [hops, List.length_append, r1, s1, List.length_take, List.length_drop]
    omega
  · intro x hx
    rw [hbefore] at hx
    rcases List.mem_append.1 hx with hx | hx
    · rcases List.mem_append.1 hx with hx | hx
      · exact s2 x hx
      · exact (r2 x hx).weaken s3
    · exact (a1 x hx).weaken (by omega)
  · intro x hx
    rw [hafter] at hx
    unfold returnMove at hx
    split at hx
    · split at hx
      · simp at hx
      · rw [List.mem_singleton.1 hx]
        exact ⟨Or.inl rfl, A.2, rfl, by omega⟩
    · simp at hx

theorem adjustFuncCallLoop_after :
    ∀ (insts : List Inst) (st : Store) (n : Nat),
      (∀ inst ∈ insts, ∀ m, inst.self = VId.newLocal m → m < n) →
      ∀ (pre post : List Inst) (c : Inst),
        (adjustFuncCallLoop insts st n).1 = pre ++ c :: post → c.op = IRINST_OP_FUNC_CALL →
        ∃ ipre c0 ipost st' n' k, insts = ipre ++ c0 :: ipost ∧ c0.self = c.self ∧
          c0.op = IRINST_OP_FUNC_CALL ∧ c0.hasResultValue = c.hasResultValue ∧
          post = returnMove c.hasResultValue (st c.self).regId c.self k ++
            (adjustFuncCallLoop ipost st' n').1
  | [], st, n, _, pre, post, c, h, _ => by
    simp [adjustFuncCallLoop] at h
  | inst :: rest, st, n, hself, pre, post, c, hsplit, hcop => by
    have hselfrest : ∀ n', n ≤ n' → ∀ i ∈ rest, ∀ m, i.self = VId.newLocal m → m < n' :=
      fun n' hn' i hi m hm => lt_of_lt_of_le (hself i (List.mem_cons_of_mem _ hi) m hm) hn'
    by_cases hop : inst.op = IRINST_OP_FUNC_CALL
    · simp only [adjustFuncCallLoop, if_pos hop] at hsplit
      obtain ⟨h1, -, -, -, k, h5⟩ := lowerCall_shape inst st n
      obtain ⟨hcnt, hstable, hb, ha⟩ := lowerCall_basic inst st n
      generalize lowerCall inst st n = L at h1 h5 hcnt hstable hb ha hsplit
      obtain ⟨t, ht1, ht2⟩ := split_after_front (fun i => i.op = IRINST_OP_FUNC_CALL)
        L.before _ pre post c hb hcop hsplit
      cases t with
      | nil =>
        simp only [List.nil_append, List.cons.injEq] at ht2
        have hc : c = { inst with operands := L.call.operands } := by rw [← ht2.1]; exact h1
        have hcs : c.self = inst.self := by rw [hc]
        have hcr : c.hasResultValue = inst.hasResultValue := by rw [hc]
        have hreg : (L.vals inst.self).regId = (st inst.self).regId := by
          rw [hstable inst.self (fun m hm => hself inst (List.mem_cons_self _ _) m hm)]
        refine ⟨[], inst, rest, L.vals, L.newCnt, k, rfl, hcs.symm, hop, hcr.symm, ?_⟩
        rw [← ht2.2, h5, hcs, hcr, hreg]
      | cons x t =>
        simp only [List.cons_append, List.cons.injEq] at ht2
        obtain ⟨t', ht3, ht4⟩ := split_after_front (fun i => i.op = IRINST_OP_FUNC_CALL)
          L.after _ t post c ha hcop ht2.2
        obtain ⟨ipre, c0, ipost, st', n', k', q1, q2, q3, q4, q5⟩ :=
          adjustFuncCallLoop_after rest L.vals L.newCnt (hselfrest _ hcnt) t' post c ht4 hcop
        have hc0 : c0 ∈ rest := by rw [q1]; simp
        have hreg : (L.vals c.self).regId = (st c.self).regId := by
          rw [← q2, hstable c0.self (fun m hm => hself c0 (List.mem_cons_of_mem _ hc0) m hm)]
        refine ⟨inst :: ipre, c0, ipost, st', n', k', by rw [q1]; rfl, q2, q3, q4, ?_⟩
        rw [← hreg]
        exact q5
    · simp only [adjustFuncCallLoop, if_neg hop] at hsplit
      cases pre with
      | nil =>
        simp only [List.nil_append, List.cons.injEq] at hsplit
        exact absurd (hsplit.1 ▸ hcop) hop
      | cons p pre =>
        simp only [List.cons_append, List.cons.injEq] at hsplit
        obtain ⟨ipre, c0, ipost, st', n', k', q1, q2, q3, q4, q5⟩ :=
          adjustFuncCallLoop_after rest st n (hselfrest n (le_refl _)) pre post c hsplit.2 hcop
        exact ⟨inst :: ipre, c0, ipost, st', n', k', by rw [q1]; rfl, q2, q3, q4, q5⟩

theorem adjustFuncCallLoop_head (inst : Inst) (rest : List Inst) (st : Store) (n : Nat)
    (hop : inst.op ≠ IRINST_OP_FUNC_CALL) :
    ∃ t, (adjustFuncCallLoop (inst :: rest) st n).1 = inst :: t := by
  simp only [adjustFuncCallLoop, if_neg hop]
  exact ⟨_, rfl⟩

/-- C11: in the output of `adjustFuncCallInsts`, for every FUNC_CALL `c` that has
a result value: when the register id of `c` is not 0, the instruction right
behind `c` is a MOVE with destination `c` and source the register variable `x0`;
when it is 0, nothing is inserted behind `c`: what follows `c` is the lowering
of what followed the original call in the input, so the output ends with `c`
when the input did and continues with the next input instruction when that is
no FUNC_CALL.  The identities of the input instructions are assumed not to be
locals that the backend has yet to create. -/
theorem adjustFuncCallInsts_return_move (func : Func)
    (hself : ∀ inst ∈ func.insts, ∀ m, inst.self = VId.newLocal m → m < func.newCnt)
    (pre post : List Inst) (c : Inst)
    (hsplit : (adjustFuncCallInsts func).insts = pre ++ c :: post)
    (hop : c.op = IRINST_OP_FUNC_CALL) (hres : c.hasResultValue = true) :
    ((func.vals c.self).regId ≠ 0 →
        ∃ mv post', post = mv :: post' ∧ mv.op = IRINST_OP_ASSIGN ∧
          mv.operands = [c.self, VId.intRegVal 0]) ∧
      ((func.vals c.self).regId = 0 →
        ∃ ipre c0 ipost, func.insts = ipre ++ c0 :: ipost ∧ c0.self = c.self ∧
          c0.op = IRINST_OP_FUNC_CALL ∧
          (∃ st' n', post = (adjustFuncCallLoop ipost st' n').1) ∧
          (ipost = [] → post = []) ∧
          (∀ nx rest, ipost = nx :: rest → nx.op ≠ IRINST_OP_FUNC_CALL →
            ∃ post', post = nx :: post')) := by
  obtain ⟨ipre, c0, ipost, st', n', k, q1, q2, q3, -, q5⟩ :=
    adjustFuncCallLoop_after func.insts func.vals func.newCnt hself pre post c hsplit hop
  constructor
  · intro hne
    refine ⟨MoveInstruction (VId.newInst k) c.self (VId.intRegVal 0),
      (adjustFuncCallLoop ipost st' n').1, ?_, rfl, rfl⟩
    rw [q5]
    simp only [returnMove, hres, if_true, if_neg hne, List.singleton_append]
  · intro heq
    have hpost : post = (adjustFuncCallLoop ipost st' n').1 := by
      rw [q5]
      simp only [returnMove, hres, if_true, if_pos heq, List.nil_append]
    refine ⟨ipre, c0, ipost, q1, q2, q3, ⟨st', n', hpost⟩, ?_, ?_⟩
    · intro hnil
      rw [hpost, hnil]
      rfl
    · intro nx rest hcons hnx
      rw [hpost, hcons]
      exact adjustFuncCallLoop_head nx rest st' n' hnx

/-! ## Formal parameters -/

theorem paramMoves_getElem? :
    ∀ (ps : List VId) (k n i : Nat),
      (paramMoves ps k n)[i]? =
        ps[i]?.map (fun p => MoveInstruction (VId.newInst (n + i)) p (VId.intRegVal (k + i)))
  | [], _, _, _ => by simp [paramMoves]
  | p :: ps, k, n, 0 => by simp [paramMoves]
  | p :: ps, k, n, i + 1 => by
    simp only [paramMoves, List.getElem?_cons_succ]
    rw [paramMoves_getElem? ps (k + 1) (n + 1) i]
    have e1 : n + 1 + i = n + (i + 1) := by omega
    have e2 : k + 1 + i = k + (i + 1) := by omega
    rw [e1, e2]

theorem paramMoves_length : ∀ (ps : List VId) (k n : Nat), (paramMoves ps k n).length = ps.length
  | [], _, _ => rfl
  | p :: ps, k, n => by simp [paramMoves, paramMoves_length ps]

theorem stdRemove_length (l : List Int) (x : Int) : (stdRemove l x).length = l.length := by
  unfold stdRemove
  have := List.length_filter_le (fun y => decide (y ≠ x)) l
  simp only [List.length_append, List.length_drop]
  omega

theorem stdRemove_of_not_mem (l : List Int) (x : Int) (h : x ∉ l) : stdRemove l x = l := by
  unfold stdRemove
  have hf : l.filter (fun y => decide (y ≠ x)) = l := by
    rw [List.filter_eq_self]
    intro a ha
    simp only [ne_eq, decide_eq_true_eq]
    rintro rfl
    exact h ha
  rw [hf]
  simp

theorem stdRemove_mem_of_ne (l : List Int) (x y : Int) (hy : y ∈ l) (hne : y ≠ x) :
    y ∈ stdRemove l x := by
  unfold stdRemove
  apply List.mem_append_left
  simp [List.mem_filter, hy, hne]

theorem bindRegParams_spec :
    ∀ (ps : List VId) (k : Nat) (st : Store) (protects : List Int),
      (∀ v, v ∉ ps → (bindRegParams ps k st protects).1 v = st v) ∧
      (ps.Nodup → ∀ (i : Nat) (p : VId), ps[i]? = some p →
        (bindRegParams ps k st protects).1 p = { st p with regId := ((k + i : Nat) : Int) }) ∧
      (bindRegParams ps k st protects).2.length = protects.length
  | [], _, _, _ => by simp [bindRegParams]
  | q :: ps, k, st, protects => by
    simp only [bindRegParams]
    generalize hpr : (if ARM64_CALLER_SAVE (st q).regId = true then stdRemove protects (st q).regId
      else protects) = protects1
    have hlen1 : protects1.length = protects.length := by
      rw [← hpr]; split
      · exact stdRemove_length _ _
      · rfl
    obtain ⟨ih1, ih2, ih3⟩ := bindRegParams_spec ps (k + 1) (setRegId st q k) protects1
    refine ⟨?_, ?_, by rw [ih3, hlen1]⟩
    · intro v hv
      rw [ih1 v (fun h => hv (List.mem_cons_of_mem _ h))]
      have : v ≠ q := fun e => hv (e ▸ List.mem_cons_self _ _)
      simp [setRegId, this]
    · intro hnd i p hp
      have hnd' := List.nodup_cons.1 hnd
      cases i with
      | zero =>
        simp only [List.getElem?_cons_zero, Option.some.injEq] at hp
        subst hp
        rw [ih1 _ hnd'.1]
        simp [setRegId]
      | succ i =>
        simp only [List.getElem?_cons_succ] at hp
        have hpq : p ≠ q := fun e => hnd'.1 (e ▸ List.getElem?_mem hp)
        rw [ih2 hnd'.2 i p hp]
        have e : k + 1 + i = k + (i + 1) := by omega
        simp [setRegId, hpq, e]

theorem bindStackParams_spec :
    ∀ (ps : List VId) (fp_esp : Int) (st : Store) (protects : List Int),
      (∀ v, v ∉ ps → (bindStackParams ps fp_esp st protects).1 v = st v) ∧
      (ps.Nodup → ∀ (i : Nat) (p : VId), ps[i]? = some p →
        ((bindStackParams ps fp_esp st protects).1 p).baseRegNo = ARM64_FP_REG_NO ∧
          ((bindStackParams ps fp_esp st protects).1 p).offset = fp_esp + 4 * (i : Int) ∧
          ((bindStackParams ps fp_esp st protects).1 p).regId =
            (if ARM64_CALLER_SAVE (st p).regId then -1 else (st p).regId)) ∧
      (bindStackParams ps fp_esp st protects).2.length = protects.length
  | [], _, _, _ => by simp [bindStackParams]
  | q :: ps, fp_esp, st, protects => by
    simp only [bindStackParams]
    generalize hpr : (if ARM64_CALLER_SAVE (st q).regId = true then stdRemove protects (st q).regId
      else protects) = protects1
    have hlen1 : protects1.length = protects.length := by
      rw [← hpr]; split
      · exact stdRemove_length _ _
      · rfl
    generalize hst1 : (if ARM64_CALLER_SAVE (st q).regId = true then setRegId st q (-1) else st)
      = st1
    have hst1v : ∀ v, v ≠ q → st1 v = st v := by
      intro v hv
      rw [← hst1]; split
      · simp [setRegId, hv]
      · rfl
    have hst1q : (st1 q).regId = (if ARM64_CALLER_SAVE (st q).regId then -1 else (st q).regId) := by
      rw [← hst1]; split <;> simp [setRegId]
    obtain ⟨ih1, ih2, ih3⟩ := bindStackParams_spec ps (fp_esp + 4)
      (setMemoryAddr st1 q ARM64_FP_REG_NO fp_esp) protects1
    refine ⟨?_, ?_, by rw [ih3, hlen1]⟩
    · intro v hv
      rw [ih1 v (fun h => hv (List.mem_cons_of_mem _ h))]
      have : v ≠ q := fun e => hv (e ▸ List.mem_cons_self _ _)
      simp [setMemoryAddr, this, hst1v v this]
    · intro hnd i p hp
      have hnd' := List.nodup_cons.1 hnd
      cases i with
      | zero =>
        simp only [List.getElem?_cons_zero, Option.some.injEq] at hp
        subst hp
        rw [ih1 _ hnd'.1]
        simp [setMemoryAddr, hst1q]
      | succ i =>
        simp only [List.getElem?_cons_succ] at hp
        have hpq : p ≠ q := fun e => hnd'.1 (e ▸ List.getElem?_mem hp)
        obtain ⟨h1, h2, h3⟩ := ih2 hnd'.2 i p hp
        refine ⟨h1, ?_, ?_⟩
        · rw [h2]; push_cast; ring
        · rw [h3]
          simp [setMemoryAddr, hpq, hst1v p hpq]

theorem drop_min_eight (ps : List VId) : ps.drop (min 8 ps.length) = ps.drop 8 := by
  rcases Nat.le_total 8 ps.length with h | h
  · rw [Nat.min_eq_left h]
  · rw [Nat.min_eq_right h, List.drop_length, List.drop_eq_nil_of_le h]

theorem adjustFormalParamInsts_call (func : Func) (h : func.existFuncCall = true) :
    adjustFormalParamInsts func =
      { func with
        insts := func.insts.take 1 ++ paramMoves (func.params.take 8) 0 func.newCnt
          ++ func.insts.drop 1,
        vals := (bindStackParams (func.params.drop 8)
          (func.maxDep + (func.protectedReg.length : Int) * 4) func.vals func.protectedReg).1,
        protectedReg := (bindStackParams (func.params.drop 8)
          (func.maxDep + (func.protectedReg.length : Int) * 4) func.vals func.protectedReg).2,
        newCnt := func.newCnt + min 8 func.params.length } := by
  have e1 : (func.params.take (min func.params.length 8)).drop (min 8 func.params.length) = [] := by
    apply List.drop_eq_nil_of_le
    simp [List.length_take, Nat.min_comm]
  have e2 : max (min 8 func.params.length) (min func.params.length 8) = min 8 func.params.length := by
    omega
  have e3 : func.params.take (min 8 func.params.length) = func.params.take 8 := by
    rcases Nat.le_total 8 func.params.length with h | h
    · rw [Nat.min_eq_left h]
    · rw [Nat.min_eq_right h, List.take_length, List.take_of_length_le h]
  unfold adjustFormalParamInsts
  simp only [h, if_true, e1, e2, e3, bindRegParams, drop_min_eight]

theorem adjustFormalParamInsts_nocall (func : Func) (h : func.existFuncCall = false) :
    adjustFormalParamInsts func =
      { func with
        insts := func.insts,
        vals := (bindStackParams (func.params.drop 8)
          (func.maxDep + ((bindRegParams (func.params.take 8) 0 func.vals
            func.protectedReg).2.length : Int) * 4)
          (bindRegParams (func.params.take 8) 0 func.vals func.protectedReg).1
          (bindRegParams (func.params.take 8) 0 func.vals func.protectedReg).2).1,
        protectedReg := (bindStackParams (func.params.drop 8)
          (func.maxDep + ((bindRegParams (func.params.take 8) 0 func.vals
            func.protectedReg).2.length : Int) * 4)
          (bindRegParams (func.params.take 8) 0 func.vals func.protectedReg).1
          (bindRegParams (func.params.take 8) 0 func.vals func.protectedReg).2).2,
        newCnt := func.newCnt } := by
  have e3 : func.params.take (min func.params.length 8) = func.params.take 8 := by
    rcases Nat.le_total 8 func.params.length with h | h
    · rw [Nat.min_eq_right h]
    · rw [Nat.min_eq_left h, List.take_length, List.take_of_length_le h]
  have e4 : func.params.drop (min func.params.length 8) = func.params.drop 8 := by
    rw [Nat.min_comm]; exact drop_min_eight _
  have e5 : func.insts.take 1 ++ func.insts.tail = func.insts := by
    cases func.insts <;> simp
  unfold adjustFormalParamInsts
  simp [h, e3, e4, e5, paramMoves]

/-- C13: on a function with `n` distinct formal parameters whose instruction vector
starts with `e`, `adjustFormalParamInsts` behaves as follows.  When the function
performs a call, the new vector is `e`, then exactly `min 8 n` moves, then the old
rest; the move of index `i` is the MOVE `param_i <- x_i`; and the store entry of
every parameter of index below 8 is what it was.  When the function performs no
call, the instruction vector is unchanged and every parameter of index `i < 8`
ends with register id `i` (the rest of its store entry unchanged). -/
theorem adjustFormalParamInsts_register_params (func : Func) (hnd : func.params.Nodup)
    (e : Inst) (rest : List Inst) (hinsts : func.insts = e :: rest) :
    (func.existFuncCall = true →
        (∃ moves : List Inst,
          (adjustFormalParamInsts func).insts = e :: (moves ++ rest) ∧
            moves.length = min 8 func.params.length ∧
            ∀ i : Nat, i < min 8 func.params.length → ∃ p, func.params[i]? = some p ∧
              moves[i]? = some (MoveInstruction (VId.newInst (func.newCnt + i)) p
                (VId.intRegVal i))) ∧
          ∀ (i : Nat) (p : VId), i < 8 → func.params[i]? = some p →
            (adjustFormalParamInsts func).vals p = func.vals p) ∧
      (func.existFuncCall = false →
        (adjustFormalParamInsts func).insts = func.insts ∧
          ∀ (i : Nat) (p : VId), i < 8 → func.params[i]? = some p →
            (adjustFormalParamInsts func).vals p = { func.vals p with regId := (i : Int) }) := by
  have hsplit : func.params = func.params.take 8 ++ func.params.drop 8 :=
    (List.take_append_drop 8 _).symm
  have hnd2 : (func.params.take 8 ++ func.params.drop 8).Nodup := by rw [← hsplit]; exact hnd
  have hdisj := List.nodup_append.1 hnd2
  have htake : ∀ (i : Nat) (p : VId), i < 8 → func.params[i]? = some p →
      (func.params.take 8)[i]? = some p := by
    intro i p hi hp
    rw [List.getElem?_take_of_lt hi]; exact hp
  constructor
  · intro hc
    rw [adjustFormalParamInsts_call func hc]
    refine ⟨⟨paramMoves (func.params.take 8) 0 func.newCnt, ?_, ?_, ?_⟩, ?_⟩
    · simp [hinsts]
    · rw [paramMoves_length, List.length_take]
    · intro i hi
      have hi8 : i < 8 := by omega
      have hin : i < func.params.length := by omega
      refine ⟨func.params[i], List.getElem?_eq_getElem hin, ?_⟩
      rw [paramMoves_getElem?, htake i _ hi8 (List.getElem?_eq_getElem hin)]
      simp
    · intro i p hi hp
      have hmem : p ∈ func.params.take 8 := List.getElem?_mem (htake i p hi hp)
      exact (bindStackParams_spec _ _ _ _).1 p (fun h => hdisj.2.2 hmem h)
  · intro hc
    rw [adjustFormalParamInsts_nocall func hc]
    refine ⟨rfl, ?_⟩
    intro i p hi hp
    have hmem : p ∈ func.params.take 8 := List.getElem?_mem (htake i p hi hp)
    show (bindStackParams _ _ _ _).1 p = _
    rw [(bindStackParams_spec _ _ _ _).1 p (fun h => hdisj.2.2 hmem h)]
    rw [(bindRegParams_spec _ _ _ _).2.1 hdisj.1 i p (htake i p hi hp)]
    simp

/-- C14: for a function with distinct formal parameters, `adjustFormalParamInsts`
binds the parameter of index `k >= 8` to the memory address
`(FP, D + 4 * P + 4 * (k - 8))`, where `D` is the function's `maxDep` and `P` the
number of entries of its protected-register list; that number is the same before
the call, when the offset is computed, and after the call. -/
theorem adjustFormalParamInsts_stack_params (func : Func) (hnd : func.params.Nodup)
    (k : Nat) (p : VId) (hk : 8 ≤ k) (hp : func.params[k]? = some p) :
    ((adjustFormalParamInsts func).vals p).baseRegNo = ARM64_FP_REG_NO ∧
      ((adjustFormalParamInsts func).vals p).offset =
        func.maxDep + 4 * (func.protectedReg.length : Int) + 4 * ((k : Int) - 8) ∧
      (bindRegParams
          (if func.existFuncCall then [] else func.params.take 8) 0 func.vals
          func.protectedReg).2.length = func.protectedReg.length ∧
      (adjustFormalParamInsts func).protectedReg.length = func.protectedReg.length := by
  have hsplit : func.params = func.params.take 8 ++ func.params.drop 8 :=
    (List.take_append_drop 8 _).symm
  have hnd2 : (func.params.take 8 ++ func.params.drop 8).Nodup := by rw [← hsplit]; exact hnd
  have hdisj := List.nodup_append.1 hnd2
  have hdrop : (func.params.drop 8)[k - 8]? = some p := by
    rw [List.getElem?_drop]
    have : 8 + (k - 8) = k := by omega
    rw [this]; exact hp
  have hlenb := (bindRegParams_spec (func.params.take 8) 0 func.vals func.protectedReg).2.2
  cases hc : func.existFuncCall
  · rw [adjustFormalParamInsts_nocall func hc]
    obtain ⟨h1, h2, _⟩ := (bindStackParams_spec (func.params.drop 8)
      (func.maxDep + ((bindRegParams (func.params.take 8) 0 func.vals
            func.protectedReg).2.length : Int) * 4)
      (bindRegParams (func.params.take 8) 0 func.vals func.protectedReg).1
      (bindRegParams (func.params.take 8) 0 func.vals func.protectedReg).2).2.1
      hdisj.2.1 (k - 8) p hdrop
    refine ⟨h1, ?_, by simpa using hlenb, ?_⟩
    · show ((bindStackParams _ _ _ _).1 p).offset = _
      rw [h2, hlenb]
      have : ((k - 8 : Nat) : Int) = (k : Int) - 8 := by omega
      rw [this]; ring
    · show (bindStackParams _ _ _ _).2.length = _
      rw [(bindStackParams_spec _ _ _ _).2.2, hlenb]
  · rw [adjustFormalParamInsts_call func hc]
    obtain ⟨h1, h2, _⟩ := (bindStackParams_spec (func.params.drop 8)
      (func.maxDep + (func.protectedReg.length : Int) * 4) func.vals func.protectedReg).2.1
      hdisj.2.1 (k - 8) p hdrop
    refine ⟨h1, ?_, by simp [bindRegParams], ?_⟩
    · show ((bindStackParams _ _ _ _).1 p).offset = _
      rw [h2]
      have : ((k - 8 : Nat) : Int) = (k : Int) - 8 := by omega
      rw [this]; ring
    · show (bindStackParams _ _ _ _).2.length = _
      rw [(bindStackParams_spec _ _ _ _).2.2]

/-! ## Formal parameters: the protected-register list -/

theorem stdRemove_subset (l : List Int) (x r : Int) (h : r ∈ stdRemove l x) : r ∈ l := by
  unfold stdRemove at h
  rcases List.mem_append.1 h with h | h
  · exact (List.mem_filter.1 h).1
  · exact List.mem_of_mem_drop h

theorem callerSave_natCast (k : Nat) (hk : k < 19) : ARM64_CALLER_SAVE (k : Int) = false := by
  simp [ARM64_CALLER_SAVE]; omega

theorem bindRegParams_protects :
    ∀ (ps : List VId) (k : Nat) (st : Store) (protects : List Int),
      (∀ r ∈ (bindRegParams ps k st protects).2, r ∈ protects) ∧
      (∀ r ∈ protects, ARM64_CALLER_SAVE r = false → r ∈ (bindRegParams ps k st protects).2) ∧
      (k + ps.length ≤ 8 →
        (∀ p ∈ ps, ARM64_CALLER_SAVE (st p).regId = true → (st p).regId ∉ protects) →
        (bindRegParams ps k st protects).2 = protects ∧
          ∀ v, ((bindRegParams ps k st protects).1 v).regId = (st v).regId ∨
            ARM64_CALLER_SAVE ((bindRegParams ps k st protects).1 v).regId = false)
  | [], _, _, _ =>
    ⟨fun _ h => h, fun _ h _ => h, fun _ _ => ⟨rfl, fun _ => Or.inl rfl⟩⟩
  | q :: ps, k, st, protects => by
    simp only [bindRegParams]
    obtain ⟨ih1, ih2, ih3⟩ := bindRegParams_protects ps (k + 1) (setRegId st q k)
      (if ARM64_CALLER_SAVE (st q).regId = true then stdRemove protects (st q).regId
       else protects)
    refine ⟨?_, ?_, ?_⟩
    · intro r hr
      have := ih1 r hr
      split at this
      · exact stdRemove_subset _ _ _ this
      · exact this
    · intro r hr hcs
      apply ih2 r _ hcs
      split
      · rename_i hq
        apply stdRemove_mem_of_ne _ _ _ hr
        rintro rfl
        rw [hcs] at hq; cases hq
      · exact hr
    · intro hk hps
      have hk8 : k < 19 := by simp only [List.length_cons] at hk; omega
      have hpr : (if ARM64_CALLER_SAVE (st q).regId = true then stdRemove protects (st q).regId
          else protects) = protects := by
        split
        · rename_i hq
          exact stdRemove_of_not_mem _ _ (hps q (List.mem_cons_self _ _) hq)
        · rfl
      rw [hpr] at ih3 ⊢
      have hreg : ∀ v, (setRegId st q k v).regId = (st v).regId ∨
          ARM64_CALLER_SAVE (setRegId st q k v).regId = false := by
        intro v
        by_cases hv : v = q
        · right; simp [setRegId, hv, callerSave_natCast k hk8]
        · left; simp [setRegId, hv]
      obtain ⟨e, hv⟩ := ih3 (by simp only [List.length_cons] at hk; omega) (by
        intro p hp hcs
        rcases hreg p with h | h
        · rw [h] at hcs ⊢
          exact hps p (List.mem_cons_of_mem _ hp) hcs
        · rw [h] at hcs; cases hcs)
      refine ⟨e, fun v => ?_⟩
      rcases hv v with h | h
      · rcases hreg v with h2 | h2
        · left; rw [h, h2]
        · right; rw [h, h2]
      · right; exact h

theorem bindStackParams_protects :
    ∀ (ps : List VId) (fp_esp : Int) (st : Store) (protects : List Int),
      (∀ r ∈ (bindStackParams ps fp_esp st protects).2, r ∈ protects) ∧
      (∀ r ∈ protects, ARM64_CALLER_SAVE r = false →
        r ∈ (bindStackParams ps fp_esp st protects).2) ∧
      ((∀ p ∈ ps, ARM64_CALLER_SAVE (st p).regId = true → (st p).regId ∉ protects) →
        (bindStackParams ps fp_esp st protects).2 = protects)
  | [], _, _, _ => ⟨fun _ h => h, fun _ h _ => h, fun _ => rfl⟩
  | q :: ps, fp_esp, st, protects => by
    simp only [bindStackParams]
    obtain ⟨ih1, ih2, ih3⟩ := bindStackParams_protects ps (fp_esp + 4)
      (setMemoryAddr (if ARM64_CALLER_SAVE (st q).regId = true then setRegId st q (-1) else st)
        q ARM64_FP_REG_NO fp_esp)
      (if ARM64_CALLER_SAVE (st q).regId = true then stdRemove protects (st q).regId
       else protects)
    refine ⟨?_, ?_, ?_⟩
    · intro r hr
      have := ih1 r hr
      split at this
      · exact stdRemove_subset _ _ _ this
      · exact this
    · intro r hr hcs
      apply ih2 r _ hcs
      split
      · rename_i hq
        apply stdRemove_mem_of_ne _ _ _ hr
        rintro rfl
        rw [hcs] at hq; cases hq
      · exact hr
    · intro hps
      have hpr : (if ARM64_CALLER_SAVE (st q).regId = true then stdRemove protects (st q).regId
          else protects) = protects := by
        split
        · rename_i hq
          exact stdRemove_of_not_mem _ _ (hps q (List.mem_cons_self _ _) hq)
        · rfl
      rw [hpr] at ih3 ⊢
      apply ih3
      intro p hp hcs
      have hreg : (setMemoryAddr (if ARM64_CALLER_SAVE (st q).regId = true
          then setRegId st q (-1) else st) q ARM64_FP_REG_NO fp_esp p).regId = (st p).regId ∨
          (setMemoryAddr (if ARM64_CALLER_SAVE (st q).regId = true
          then setRegId st q (-1) else st) q ARM64_FP_REG_NO fp_esp p).regId = -1 := by
        by_cases hv : p = q
        · by_cases hq : ARM64_CALLER_SAVE (st q).regId = true
          · right; simp [setMemoryAddr, setRegId, hv, hq]
          · left; simp [setMemoryAddr, hv, hq]
        · left
          by_cases hq : ARM64_CALLER_SAVE (st q).regId = true <;>
            simp [setMemoryAddr, setRegId, hv, hq]
      rcases hreg with h | h
      · rw [h] at hcs ⊢
        exact hps p (List.mem_cons_of_mem _ hp) hcs
      · rw [h] at hcs; exact absurd hcs (by decide)

/-- C15, evaluated on `int f(int a0, ..., int a8) { g(); return (a8 + 1) + a8; }`:
the live ranges of `a8`, `t1`, `t2` and the return value start at the positions
0, 2, 3 and 4, and linear scan gives `a8` the register 28 and the other three
the register 27.  The protected-register list is `[29, 30, 28, 27]` when
`registerAllocation` reaches `adjustFormalParamInsts` and `[29, 30, 27, 27]`
after it: `std::remove` without erase has moved the entry 27 down over the
removed 28 and left the old last entry in place.  The prologue then saves
`x27` twice. -/
theorem adjustFormalParamInsts_changes_protected_list :
    (sortRanges (calculateLiveRanges (seedProtectedReg sampleNineParamCaller))).map
        (fun r => (r.value, r.start)) =
      [(VId.user 8, 0), (VId.user 12, 2), (VId.user 13, 3), (VId.user 100, 4)] ∧
      ((beforeParamBinding sampleNineParamCaller).vals (VId.user 8)).regId = 28 ∧
      ((beforeParamBinding sampleNineParamCaller).vals (VId.user 12)).regId = 27 ∧
      (beforeParamBinding sampleNineParamCaller).protectedReg = [29, 30, 28, 27] ∧
      (adjustFormalParamInsts (beforeParamBinding sampleNineParamCaller)).protectedReg
        = [29, 30, 27, 27] ∧
      (registerAllocation sampleNineParamCaller).protectedReg = [29, 30, 27, 27] ∧
      (adjustFormalParamInsts (beforeParamBinding sampleNineParamCaller)).protectedReg
        ≠ (beforeParamBinding sampleNineParamCaller).protectedReg ∧
      translate_entry (registerAllocation sampleNineParamCaller) =
        [stpLine 29 30, stpLine 27 27] := by
  decide

/-- What `adjustFormalParamInsts` keeps of the protected-register list whatever
the input: it keeps the number of entries of the list, adds no register id to it, and keeps every id outside
19..28 (FP and LR); the list is unchanged whenever no parameter that the method
rebinds (every parameter when the function performs no call, the parameters of
index 8 and more otherwise) holds a register id of 19..28 that is on the list. -/
theorem adjustFormalParamInsts_protected_list (func : Func) :
    (adjustFormalParamInsts func).protectedReg.length = func.protectedReg.length ∧
      (∀ r ∈ (adjustFormalParamInsts func).protectedReg, r ∈ func.protectedReg) ∧
      (∀ r ∈ func.protectedReg, ARM64_CALLER_SAVE r = false →
        r ∈ (adjustFormalParamInsts func).protectedReg) ∧
      ((∀ p ∈ func.params.drop (if func.existFuncCall then 8 else 0),
          ARM64_CALLER_SAVE (func.vals p).regId = true →
            (func.vals p).regId ∉ func.protectedReg) →
        (adjustFormalParamInsts func).protectedReg = func.protectedReg) := by
  cases hc : func.existFuncCall
  · rw [adjustFormalParamInsts_nocall func hc]
    obtain ⟨r1, r2, r3⟩ := bindRegParams_protects (func.params.take 8) 0 func.vals
      func.protectedReg
    obtain ⟨s1, s2, s3⟩ := bindStackParams_protects (func.params.drop 8)
      (func.maxDep + ((bindRegParams (func.params.take 8) 0 func.vals
            func.protectedReg).2.length : Int) * 4)
      (bindRegParams (func.params.take 8) 0 func.vals func.protectedReg).1
      (bindRegParams (func.params.take 8) 0 func.vals func.protectedReg).2
    refine ⟨?_, fun r hr => r1 r (s1 r hr), fun r hr hcs => s2 r (r2 r hr hcs) hcs, ?_⟩
    · show (bindStackParams _ _ _ _).2.length = _
      rw [(bindStackParams_spec _ _ _ _).2.2, (bindRegParams_spec _ _ _ _).2.2]
    · intro hps
      simp only [Bool.false_eq_true, if_false, List.drop_zero] at hps
      obtain ⟨e, hv⟩ := r3 (by simp [List.length_take]) (fun p hp =>
        hps p (List.mem_of_mem_take hp))
      show (bindStackParams _ _ _ _).2 = _
      rw [s3, e]
      intro p hp hcs
      rw [e]
      rcases hv p with h | h
      · rw [h] at hcs ⊢
        exact hps p (List.mem_of_mem_drop hp) hcs
      · rw [h] at hcs; cases hcs
  · rw [adjustFormalParamInsts_call func hc]
    obtain ⟨s1, s2, s3⟩ := bindStackParams_protects (func.params.drop 8)
      (func.maxDep + (func.protectedReg.length : Int) * 4) func.vals func.protectedReg
    refine ⟨?_, s1, s2, ?_⟩
    · show (bindStackParams _ _ _ _).2.length = _
      rw [(bindStackParams_spec _ _ _ _).2.2]
    · intro hps
      simp only [if_true] at hps
      exact s3 hps

/-! ## Instances of the call-site, parameter and liveness statements -/

theorem sampleResultCaller_selfs :
    ∀ inst ∈ sampleResultCaller.insts, ∀ m, inst.self = VId.newLocal m →
      m < sampleResultCaller.newCnt := by
  intro inst hi m hm
  simp only [sampleResultCaller, List.mem_cons, List.mem_singleton, List.not_mem_nil,
    or_false] at hi
  rcases hi with rfl | rfl | rfl | rfl <;> cases hm

theorem adjustFuncCallInsts_return_move_witness :
    (∀ inst ∈ sampleResultCaller.insts, ∀ m, inst.self = VId.newLocal m →
        m < sampleResultCaller.newCnt) ∧
      (sampleResultCaller.vals (VId.user 11)).regId ≠ 0 ∧
      (adjustFuncCallInsts sampleResultCaller).insts =
        [{ self := VId.user 10, op := IRINST_OP_ENTRY }] ++
          { self := VId.user 11, op := IRINST_OP_FUNC_CALL, hasResultValue := true } ::
          [MoveInstruction (VId.newInst 0) (VId.user 11) (VId.intRegVal 0),
           { self := VId.user 12, op := IRINST_OP_ASSIGN,
             operands := [VId.user 100, VId.user 11] },
           { self := VId.user 13, op := IRINST_OP_EXIT, operands := [VId.user 100] }] ∧
      ∃ mv post',
        [MoveInstruction (VId.newInst 0) (VId.user 11) (VId.intRegVal 0),
         { self := VId.user 12, op := IRINST_OP_ASSIGN,
           operands := [VId.user 100, VId.user 11] },
         { self := VId.user 13, op := IRINST_OP_EXIT, operands := [VId.user 100] }]
          = mv :: post' ∧ mv.op = IRINST_OP_ASSIGN ∧
          mv.operands = [VId.user 11, VId.intRegVal 0] :=
  ⟨sampleResultCaller_selfs, by decide, by decide,
   (adjustFuncCallInsts_return_move sampleResultCaller sampleResultCaller_selfs
      [{ self := VId.user 10, op := IRINST_OP_ENTRY }]
      [MoveInstruction (VId.newInst 0) (VId.user 11) (VId.intRegVal 0),
       { self := VId.user 12, op := IRINST_OP_ASSIGN, operands := [VId.user 100, VId.user 11] },
       { self := VId.user 13, op := IRINST_OP_EXIT, operands := [VId.user 100] }]
      { self := VId.user 11, op := IRINST_OP_FUNC_CALL, hasResultValue := true }
      (by decide) rfl rfl).1 (by decide)⟩

theorem adjustFormalParamInsts_register_params_witness :
    (sampleNineParamLeaf.params.Nodup ∧ sampleUnusedParamCaller.params.Nodup) ∧
      ((adjustFormalParamInsts sampleNineParamLeaf).insts = sampleNineParamLeaf.insts ∧
        (adjustFormalParamInsts sampleNineParamLeaf).vals (VId.user 3) =
          { sampleNineParamLeaf.vals (VId.user 3) with regId := ((3 : Nat) : Int) }) ∧
      (∃ moves : List Inst,
        (adjustFormalParamInsts sampleUnusedParamCaller).insts =
            { self := VId.user 10, op := IRINST_OP_ENTRY } ::
              (moves ++ [{ self := VId.user 11, op := IRINST_OP_FUNC_CALL },
                         { self := VId.user 12, op := IRINST_OP_EXIT }]) ∧
          moves.length = min 8 sampleUnusedParamCaller.params.length ∧
          ∀ i : Nat, i < min 8 sampleUnusedParamCaller.params.length →
            ∃ p, sampleUnusedParamCaller.params[i]? = some p ∧
              moves[i]? = some (MoveInstruction
                (VId.newInst (sampleUnusedParamCaller.newCnt + i)) p (VId.intRegVal i))) :=
  ⟨⟨by decide, by decide⟩,
   ⟨((adjustFormalParamInsts_register_params sampleNineParamLeaf (by decide) _ _ rfl).2 rfl).1,
    ((adjustFormalParamInsts_register_params sampleNineParamLeaf (by decide) _ _ rfl).2 rfl).2
      3 (VId.user 3) (by decide) rfl⟩,
   ((adjustFormalParamInsts_register_params sampleUnusedParamCaller (by decide) _ _ rfl).1
      rfl).1⟩

theorem adjustFormalParamInsts_stack_params_witness :
    (sampleNineParamLeaf.params.Nodup ∧ 8 ≤ 8 ∧
        sampleNineParamLeaf.params[8]? = some (VId.user 8)) ∧
      ((adjustFormalParamInsts sampleNineParamLeaf).vals (VId.user 8)).baseRegNo
        = ARM64_FP_REG_NO ∧
      ((adjustFormalParamInsts sampleNineParamLeaf).vals (VId.user 8)).offset =
        sampleNineParamLeaf.maxDep + 4 * (sampleNineParamLeaf.protectedReg.length : Int)
          + 4 * (((8 : Nat) : Int) - 8) :=
  ⟨⟨by decide, by decide, rfl⟩,
   (adjustFormalParamInsts_stack_params sampleNineParamLeaf (by decide) 8 (VId.user 8)
      (by decide) rfl).1,
   (adjustFormalParamInsts_stack_params sampleNineParamLeaf (by decide) 8 (VId.user 8)
      (by decide) rfl).2.1⟩

theorem adjustFormalParamInsts_protected_list_witness :
    (∀ p ∈ (beforeParamBinding sampleNineParamLeaf).params.drop
          (if (beforeParamBinding sampleNineParamLeaf).existFuncCall then 8 else 0),
        ARM64_CALLER_SAVE (((beforeParamBinding sampleNineParamLeaf).vals p).regId) = true →
          ((beforeParamBinding sampleNineParamLeaf).vals p).regId ∉
            (beforeParamBinding sampleNineParamLeaf).protectedReg) ∧
      (adjustFormalParamInsts (beforeParamBinding sampleNineParamLeaf)).protectedReg =
        (beforeParamBinding sampleNineParamLeaf).protectedReg :=
  ⟨by decide,
   (adjustFormalParamInsts_protected_list (beforeParamBinding sampleNineParamLeaf)).2.2.2
     (by decide)⟩

theorem findLastUse_is_last_use_witness :
    (0 : Int) ≤ 1 ∧ findLastUse (VId.user 11) sampleResultCaller.insts 1 = 2 ∧
      (1 : Int) ≤ findLastUse (VId.user 11) sampleResultCaller.insts 1 ∧
      ∀ j : Nat, findLastUse (VId.user 11) sampleResultCaller.insts 1 < (j : Int) →
        ¬ UsesAt (VId.user 11) sampleResultCaller.insts j :=
  ⟨by decide, by decide,
   (findLastUse_is_last_use (VId.user 11) sampleResultCaller.insts 1 (by decide)).1,
   (findLastUse_is_last_use (VId.user 11) sampleResultCaller.insts 1 (by decide)).2.1⟩

/-! ## Liveness: the first range of a value covers its uses -/

theorem firstRange_append (v : VId) (ranges : List LiveRange) (r : LiveRange) :
    firstRange v (ranges ++ [r]) =
      (firstRange v ranges).or (if r.value = v then some r else none) := by
  unfold firstRange
  rw [List.find?_append]
  congr 1
  by_cases h : r.value = v <;> simp [List.find?, h]

theorem firstRange_extendFirst (v value : VId) (pos : Int) :
    ∀ ranges : List LiveRange,
      (extendFirst value pos ranges = none ∧ firstRange value ranges = none) ∨
      (∃ rs, extendFirst value pos ranges = some rs ∧
        (∃ r, firstRange value ranges = some r ∧
          firstRange value rs = some { r with end_ := max r.end_ pos }) ∧
        (v ≠ value → firstRange v rs = firstRange v ranges))
  | [] => Or.inl ⟨rfl, rfl⟩
  | range :: rest => by
    by_cases h : range.value = value
    · right
      refine ⟨{ range with end_ := max range.end_ pos } :: rest, by simp [extendFirst, h],
        ⟨range, by simp [firstRange, h], by simp [firstRange, h]⟩, ?_⟩
      intro hv
      have hv' : ¬ range.value = v := fun e => hv (e.symm.trans h)
      simp [firstRange, hv']
    · rcases firstRange_extendFirst v value pos rest with ⟨h1, h2⟩ | ⟨rs, h1, ⟨r, h2, h3⟩, h4⟩
      · left
        refine ⟨by simp [extendFirst, h, h1], ?_⟩
        unfold firstRange at h2 ⊢
        simp [List.find?, h, h2]
      · right
        refine ⟨range :: rs, by simp [extendFirst, h, h1], ⟨r, ?_, ?_⟩, ?_⟩
        · unfold firstRange at h2 ⊢
          simp [List.find?, h, h2]
        · unfold firstRange at h3 ⊢
          simp [List.find?, h, h3]
        · intro hv
          have := h4 hv
          unfold firstRange at this ⊢
          by_cases hr : range.value = v
          · simp [List.find?, hr]
          · simp [List.find?, hr, this]

theorem firstRange_extendRangeIfExists (st : Store) (v value : VId) (pos : Int)
    (ranges : List LiveRange) :
    (v ≠ value → firstRange v (extendRangeIfExists st ranges value pos) = firstRange v ranges) ∧
      ((st value).kind ≠ ValueKind.constInt →
        firstRange value (extendRangeIfExists st ranges value pos) =
          touchRange st value pos (firstRange value ranges)) := by
  unfold extendRangeIfExists
  rcases firstRange_extendFirst v value pos ranges with ⟨h1, h2⟩ | ⟨rs, h1, ⟨r, h2, h3⟩, h4⟩
  · rw [h1]
    constructor
    · intro hv
      by_cases hk : (st value).kind = ValueKind.constInt
      · simp only [hk, ne_eq, not_true_eq_false, if_false]
      · have : ¬ value = v := fun e => hv e.symm
        simp only [ne_eq, hk, not_false_eq_true, if_true, firstRange_append]
        simp [this]
    · intro hk
      simp only [ne_eq, hk, not_false_eq_true, if_true, firstRange_append, h2]
      simp [touchRange]
  · rw [h1]
    exact ⟨h4, fun _ => by simp only [h3, h2, touchRange]⟩

theorem touchRange_idem (st : Store) (v : VId) (pos : Int) (o : Option LiveRange) :
    touchRange st v pos (touchRange st v pos o) = touchRange st v pos o := by
  cases o <;> simp [touchRange]

theorem isAllocatable_not_const (x : Value) (h : isAllocatable x = true) :
    x.kind ≠ ValueKind.constInt := by
  intro e
  simp [isAllocatable, e] at h

theorem firstRange_useOperands (st : Store) (inst : Inst) (pos : Int) (v : VId)
    (hall : isAllocatable (st v) = true) :
    ∀ (ops : List VId) (ranges : List LiveRange),
      (v ∈ ops → v ≠ inst.self →
        firstRange v (useOperands st inst pos ops ranges) =
          touchRange st v pos (firstRange v ranges)) ∧
      ((v ∉ ops ∨ v = inst.self) →
        firstRange v (useOperands st inst pos ops ranges) = firstRange v ranges) ∧
      (firstRange v ranges = touchRange st v pos (firstRange v ranges) →
        firstRange v (useOperands st inst pos ops ranges) = firstRange v ranges)
  | [], ranges => by simp [useOperands]
  | operand :: rest, ranges => by
    have key : ∀ ranges1 : List LiveRange,
        (v ≠ operand → firstRange v ranges1 = firstRange v ranges) →
        (v = operand → v ≠ inst.self →
          firstRange v ranges1 = touchRange st v pos (firstRange v ranges)) →
        (v = operand → v = inst.self → firstRange v ranges1 = firstRange v ranges) →
        (v ∈ operand :: rest → v ≠ inst.self →
          firstRange v (useOperands st inst pos rest ranges1) =
            touchRange st v pos (firstRange v ranges)) ∧
        ((v ∉ operand :: rest ∨ v = inst.self) →
          firstRange v (useOperands st inst pos rest ranges1) = firstRange v ranges) ∧
        (firstRange v ranges = touchRange st v pos (firstRange v ranges) →
          firstRange v (useOperands st inst pos rest ranges1) = firstRange v ranges) := by
      intro ranges1 hne heq hself
      obtain ⟨ih1, ih2, ih3⟩ := firstRange_useOperands st inst pos v hall rest ranges1
      refine ⟨?_, ?_, ?_⟩
      · intro hmem hvs
        by_cases hvo : v = operand
        · rw [ih3 (by rw [heq hvo hvs, touchRange_idem]), heq hvo hvs]
        · have hin : v ∈ rest := by
            rcases List.mem_cons.1 hmem with h | h
            · exact absurd h hvo
            · exact h
          rw [ih1 hin hvs, hne hvo]
      · intro h
        rcases h with h | h
        · have hvo : v ≠ operand := fun e => h (e ▸ List.mem_cons_self _ _)
          have hin : v ∉ rest := fun e => h (List.mem_cons_of_mem _ e)
          rw [ih2 (Or.inl hin), hne hvo]
        · rw [ih2 (Or.inr h)]
          by_cases hvo : v = operand
          · exact hself hvo h
          · exact hne hvo
      · intro hfix
        by_cases hvo : v = operand
        · by_cases hvs : v = inst.self
          · rw [ih2 (Or.inr hvs)]; exact hself hvo hvs
          · rw [ih3 (by rw [heq hvo hvs, touchRange_idem]), heq hvo hvs, ← hfix]
        · rw [ih3 (by rw [hne hvo]; exact hfix), hne hvo]
    simp only [useOperands]
    by_cases hos : operand = inst.self
    · rw [if_pos hos]
      apply key ranges (fun _ => rfl)
      · intro hvo hvs; exact absurd (hvo.trans hos) hvs
      · intro _ _; rfl
    · rw [if_neg hos]
      by_cases ha : isAllocatable (st operand) = true
      · rw [if_pos ha]
        have hx := firstRange_extendRangeIfExists st v operand pos ranges
        apply key _ hx.1
        · intro hvo hvs
          subst hvo
          exact hx.2 (isAllocatable_not_const _ ha)
        · intro hvo hvs; exact absurd (hvo ▸ hvs : operand = inst.self) hos
      · rw [if_neg ha]
        apply key ranges (fun _ => rfl)
        · intro hvo; subst hvo; exact absurd hall ha
        · intro _ _; rfl

theorem liveInv_step (st : Store) (v : VId) (insts : List Inst)
    (hall : isAllocatable (st v) = true) (n : Nat) (inst : Inst)
    (hn : insts[n]? = some inst) (ranges : List LiveRange)
    (h : LiveInv st v insts n (firstRange v ranges)) :
    LiveInv st v insts (n + 1)
      (firstRange v (useOperands st inst (n : Int) inst.operands
        (if inst.hasResultValue then
          ranges ++ [{ value := inst.self, start := (n : Int),
                       end_ := findLastUse inst.self insts (n : Int) }]
         else ranges))) := by
  have hocc : OccursAt v insts n ↔ (v ∈ inst.operands ∧ v ≠ inst.self) := by
    constructor
    · rintro ⟨i, hi, h1, h2⟩
      rw [hn] at hi; cases hi; exact ⟨h1, h2⟩
    · rintro ⟨h1, h2⟩; exact ⟨inst, hn, h1, h2⟩
  have hdef : DefinedAt v insts n ↔ (inst.self = v ∧ inst.hasResultValue = true) := by
    constructor
    · rintro ⟨i, hi, h1, h2⟩
      rw [hn] at hi; cases hi; exact ⟨h1, h2⟩
    · rintro ⟨h1, h2⟩; exact ⟨inst, hn, h1, h2⟩
  obtain ⟨hu1, hu2, _⟩ := firstRange_useOperands st inst (n : Int) v hall inst.operands
    (if inst.hasResultValue then
          ranges ++ [{ value := inst.self, start := (n : Int),
                       end_ := findLastUse inst.self insts (n : Int) }]
         else ranges)
  -- the first range after the definition step
  have ho1 : firstRange v (if inst.hasResultValue then
          ranges ++ [{ value := inst.self, start := (n : Int),
                       end_ := findLastUse inst.self insts (n : Int) }]
         else ranges) =
      if inst.self = v ∧ inst.hasResultValue = true then
        (firstRange v ranges).or
          (some { value := v, start := (n : Int), end_ := findLastUse v insts (n : Int) })
      else firstRange v ranges := by
    by_cases hr : inst.hasResultValue = true
    · by_cases hs : inst.self = v
      · simp only [hr, if_true, firstRange_append, hs, and_self]
      · simp only [hr, if_true, firstRange_append, hs, false_and, if_false, Option.or_none]
    · simp only [hr, and_false, if_false]
      simp
  have hnone : firstRange v ranges = none →
      ∀ q, q < n → ¬ OccursAt v insts q ∧ ¬ DefinedAt v insts q := by
    intro ho q hq
    by_contra hc
    have hev : OccursAt v insts q ∨ DefinedAt v insts q := by
      by_cases h1 : OccursAt v insts q
      · exact Or.inl h1
      · by_cases h2 : DefinedAt v insts q
        · exact Or.inr h2
        · exact absurd ⟨h1, h2⟩ hc
    obtain ⟨r, hr, _⟩ := h.2 q hq hev
    rw [ho] at hr; cases hr
  have hsome : ∀ r, firstRange v ranges = some r →
      r.value = v ∧ r.start < (n : Int) ∧ 0 ≤ r.start ∧
      (∀ q, q < n → OccursAt v insts q → r.start ≤ (q : Int) ∧ (q : Int) ≤ r.end_) ∧
      RangeStartsRight st v insts r := by
    intro r hr
    by_cases hex : ∃ q0, q0 < n ∧ (OccursAt v insts q0 ∨ DefinedAt v insts q0)
    · obtain ⟨q0, hq0, hev⟩ := hex
      obtain ⟨r', hr', hp⟩ := h.2 q0 hq0 hev
      rw [hr] at hr'; cases hr'; exact hp
    · have := h.1 (fun q hq => ⟨fun hc => hex ⟨q, hq, Or.inl hc⟩, fun hc => hex ⟨q, hq, Or.inr hc⟩⟩)
      rw [hr] at this; cases this
  -- the first range after the whole step
  by_cases hd : inst.self = v ∧ inst.hasResultValue = true
  · -- position n defines v
    have hnocc : ¬ OccursAt v insts n := fun hc => (hocc.1 hc).2 hd.1.symm
    rw [hu2 (Or.inr hd.1.symm), ho1, if_pos hd]
    constructor
    · intro hq
      exact absurd (hdef.2 hd) (hq n (Nat.lt_succ_self n)).2
    · intro q0 _ _
      cases ho : firstRange v ranges with
      | some r =>
        obtain ⟨p1, p2, p3, p4, p5⟩ := hsome r ho
        refine ⟨r, rfl, p1, by push_cast; omega, p3, ?_, p5⟩
        intro q hq hoq
        have hqn : q < n := by
          rcases Nat.lt_succ_iff_lt_or_eq.1 hq with h1 | h1
          · exact h1
          · exact absurd (h1 ▸ hoq) hnocc
        exact p4 q hqn hoq
      | none =>
        have hno := hnone ho
        refine ⟨_, rfl, rfl, by push_cast; simp, by simp, ?_, ?_, ?_⟩
        · intro q hq hoq
          rcases Nat.lt_succ_iff_lt_or_eq.1 hq with h1 | h1
          · exact absurd hoq (hno q h1).1
          · exact absurd (h1 ▸ hoq) hnocc
        · intro _ d hdd hleast
          have h1 : d ≤ n := hleast n (hdef.2 hd)
          have h2 : ¬ d < n := fun hlt => (hno d hlt).2 hdd
          have : d = n := by omega
          simp [this]
        · intro hnd
          exact absurd (hdef.2 hd) (hnd n)
  · -- position n does not define v
    have hndef : ¬ DefinedAt v insts n := fun hc => hd (hdef.1 hc)
    by_cases hu : v ∈ inst.operands ∧ v ≠ inst.self
    · -- position n uses v
      rw [hu1 hu.1 hu.2, ho1, if_neg hd]
      constructor
      · intro hq
        exact absurd (hocc.2 hu) (hq n (Nat.lt_succ_self n)).1
      · intro q0 _ _
        cases ho : firstRange v ranges with
        | some r =>
          obtain ⟨p1, p2, p3, p4, p5⟩ := hsome r ho
          refine ⟨{ r with end_ := max r.end_ (n : Int) }, rfl, p1,
            by show r.start < ((n + 1 : Nat) : Int); push_cast; omega, p3, ?_, ?_⟩
          · intro q hq _
            rcases Nat.lt_succ_iff_lt_or_eq.1 hq with h1 | h1
            · have := p4 q h1 (by assumption)
              exact ⟨this.1, le_trans this.2 (le_max_left _ _)⟩
            · subst h1
              exact ⟨le_of_lt p2, le_max_right _ _⟩
          · exact p5
        | none =>
          have hno := hnone ho
          refine ⟨_, rfl, rfl, ?_, ?_, ?_, ?_, ?_⟩
          · show (if (st v).kind = ValueKind.formalParam then (0 : Int) else (n : Int)) < _
            split <;> push_cast <;> omega
          · show 0 ≤ (if (st v).kind = ValueKind.formalParam then (0 : Int) else (n : Int))
            split <;> omega
          · intro q hq hoq
            rcases Nat.lt_succ_iff_lt_or_eq.1 hq with h1 | h1
            · exact absurd hoq (hno q h1).1
            · subst h1
              refine ⟨?_, le_refl _⟩
              show (if (st v).kind = ValueKind.formalParam then (0 : Int) else (q : Int)) ≤ _
              split <;> omega
          · intro horder d hdd _
            have h1 : d ≤ n := horder d n hdd (hocc.2 hu)
            rcases Nat.lt_or_ge d n with h2 | h2
            · exact absurd hdd (hno d h2).2
            · have : d = n := by omega
              exact absurd (this ▸ hdd) hndef
          · intro _
            refine ⟨fun hk => by simp [hk], fun hk q hoq hleast => ?_⟩
            have h1 : q ≤ n := hleast n (hocc.2 hu)
            have h2 : ¬ q < n := fun hlt => (hno q hlt).1 hoq
            have : q = n := by omega
            simp [hk, this]
    · -- position n neither defines nor uses v
      have hnocc : ¬ OccursAt v insts n := fun hc => hu (hocc.1 hc)
      have hu' : v ∉ inst.operands ∨ v = inst.self := by
        by_cases h1 : v ∈ inst.operands
        · by_cases h2 : v = inst.self
          · exact Or.inr h2
          · exact absurd ⟨h1, h2⟩ hu
        · exact Or.inl h1
      rw [hu2 hu', ho1, if_neg hd]
      constructor
      · intro hq
        exact h.1 (fun q hlt => hq q (Nat.lt_succ_of_lt hlt))
      · intro q0 hq0 hev
        have hq0n : q0 < n := by
          rcases Nat.lt_succ_iff_lt_or_eq.1 hq0 with h1 | h1
          · exact h1
          · subst h1
            rcases hev with hev | hev
            · exact absurd hev hnocc
            · exact absurd hev hndef
        obtain ⟨r, hr, p1, p2, p3, p4, p5⟩ := h.2 q0 hq0n hev
        refine ⟨r, hr, p1, by push_cast; omega, p3, ?_, p5⟩
        intro q hq hoq
        have hqn : q < n := by
          rcases Nat.lt_succ_iff_lt_or_eq.1 hq with h1 | h1
          · exact h1
          · exact absurd (h1 ▸ hoq) hnocc
        exact p4 q hqn hoq

theorem calcLoop_liveInv (st : Store) (v : VId) (insts : List Inst)
    (hall : isAllocatable (st v) = true) :
    ∀ (todo done : List Inst) (ranges : List LiveRange), insts = done ++ todo →
      LiveInv st v insts done.length (firstRange v ranges) →
      LiveInv st v insts insts.length
        (firstRange v (calcLoop st insts todo (done.length : Int) ranges))
  | [], done, ranges, hsplit, h => by
    simp only [calcLoop]
    have hl : insts.length = done.length := by rw [hsplit, List.append_nil]
    rw [hl]
    exact h
  | inst :: todo, done, ranges, hsplit, h => by
    simp only [calcLoop]
    have hn : insts[done.length]? = some inst := by
      rw [hsplit, List.getElem?_append_right (le_refl _)]; simp
    have hstep := liveInv_step st v insts hall done.length inst hn ranges h
    have hlen : ((done ++ [inst]).length : Int) = (done.length : Int) + 1 := by simp
    have := calcLoop_liveInv st v insts hall todo (done ++ [inst]) _ (by simp [hsplit])
      (by simpa using hstep)
    rw [hlen] at this
    exact this

/-- C16: let `v` be an instruction, local variable or formal parameter that occurs
as an operand of some instruction other than itself.  Then `v` has a live range
`r` in the result of `calculateLiveRanges` (the first range of `v`, the one that
every later use widens) with `r.start <= p <= r.end_` for every position `p` at
which `v` occurs as an operand of another instruction.  When no instruction that
defines `v` comes after a use of `v`, `r` starts at the position of the first
instruction that defines `v`; when no instruction defines `v`, `r` starts at 0
for a formal parameter and at the first occurrence of `v` otherwise. -/
theorem calculateLiveRanges_covers_uses (func : Func) (v : VId)
    (hall : isAllocatable (func.vals v) = true) (q0 : Nat)
    (hocc : OccursAt v func.insts q0) :
    ∃ r, firstRange v (calculateLiveRanges func) = some r ∧
      r ∈ calculateLiveRanges func ∧ r.value = v ∧
      (∀ q, OccursAt v func.insts q → r.start ≤ (q : Int) ∧ (q : Int) ≤ r.end_) ∧
      ((∀ d q, DefinedAt v func.insts d → OccursAt v func.insts q → d ≤ q) →
        ∀ d, DefinedAt v func.insts d → (∀ d', DefinedAt v func.insts d' → d ≤ d') →
          r.start = (d : Int)) ∧
      ((∀ d, ¬ DefinedAt v func.insts d) →
        ((func.vals v).kind = ValueKind.formalParam → r.start = 0) ∧
        ((func.vals v).kind ≠ ValueKind.formalParam →
          ∀ q, OccursAt v func.insts q → (∀ q', OccursAt v func.insts q' → q ≤ q') →
            r.start = (q : Int))) := by
  have hinit : LiveInv func.vals v func.insts ([] : List Inst).length (firstRange v []) := by
    constructor
    · intro _; rfl
    · intro q hq; exact absurd hq (Nat.not_lt_zero _)
  have hfin := calcLoop_liveInv func.vals v func.insts hall func.insts [] [] rfl hinit
  have hlt : ∀ q, OccursAt v func.insts q → q < func.insts.length := by
    rintro q ⟨i, hi, _⟩
    exact (List.getElem?_eq_some.1 hi).1
  obtain ⟨r, hr, p1, _, _, p4, p5⟩ := hfin.2 q0 (hlt q0 hocc) (Or.inl hocc)
  have hr' : firstRange v (calculateLiveRanges func) = some r := hr
  refine ⟨r, hr', List.mem_of_find?_eq_some hr', p1, fun q hq => p4 q (hlt q hq) hq, p5.1, p5.2⟩

theorem calculateLiveRanges_covers_uses_witness :
    (isAllocatable (sampleResultCaller.vals (VId.user 11)) = true ∧
        OccursAt (VId.user 11) sampleResultCaller.insts 2) ∧
      firstRange (VId.user 11) (calculateLiveRanges sampleResultCaller) =
        some { value := VId.user 11, start := 1, end_ := 2 } ∧
      ∃ r, r ∈ calculateLiveRanges sampleResultCaller ∧ r.value = VId.user 11 ∧
        ∀ q, OccursAt (VId.user 11) sampleResultCaller.insts q →
          r.start ≤ (q : Int) ∧ (q : Int) ≤ r.end_ :=
  ⟨⟨by decide, ⟨_, rfl, by decide, by decide⟩⟩, by decide,
   (calculateLiveRanges_covers_uses sampleResultCaller (VId.user 11) (by decide) 2
      ⟨_, rfl, by decide, by decide⟩).elim
     (fun r h => ⟨r, h.2.1, h.2.2.1, h.2.2.2.1⟩)⟩

/-! ## Instruction selection: comparison, branch and XOR -/

/-- C19, evaluated on `int f(int a, int b) { if (a + b == 0) ... }` after
`registerAllocation`: `a`, `b` and `t1` are in registers 0, 1 and 14; the
addition is emitted as `add w14, w0, w1` and stays an `add`, the comparison
`t1 == 0` emits `mov w17, wzr` and `subs wzr, w14, w17`, then come `beq .L1` and
`b .L2`.  The test of `translate_bi_op` reads the first source of the previous
line, not its destination: the comparison `a == 0` behind the same addition is
what it fuses, into `adds w14, w0, w1`. -/
theorem fusion_tests_first_source_not_destination :
    (((registerAllocation sampleFusionFunc).vals (VId.user 0)).regId = 0 ∧
      ((registerAllocation sampleFusionFunc).vals (VId.user 1)).regId = 1 ∧
      ((registerAllocation sampleFusionFunc).vals (VId.user 11)).regId = 14) ∧
    (translate_goto (translate_bi_op (translate_add_int32
          { vals := (registerAllocation sampleFusionFunc).vals }
          { self := VId.user 11, op := IRINST_OP_IADD,
            operands := [VId.user 0, VId.user 1], hasResultValue := true })
        { self := VId.user 12, op := IRINST_OP_IEQ,
          operands := [VId.user 11, VId.user 19], hasResultValue := true })
      { cond := some (VId.user 12), iftrue := ".L1", iffalse := ".L2" }).code =
      [{ opcode := "add", result := "w14", arg1 := "w0", arg2 := "w1" },
       { opcode := "mov", result := "w17", arg1 := "wzr" },
       { opcode := "subs", result := "wzr", arg1 := "w14", arg2 := "w17" },
       { opcode := "beq", result := ".L1" },
       { opcode := "b", result := ".L2" }] ∧
    (translate_goto (translate_bi_op (translate_add_int32
          { vals := (registerAllocation sampleFusionFunc).vals }
          { self := VId.user 11, op := IRINST_OP_IADD,
            operands := [VId.user 0, VId.user 1], hasResultValue := true })
        { self := VId.user 12, op := IRINST_OP_IEQ,
          operands := [VId.user 0, VId.user 19], hasResultValue := true })
      { cond := some (VId.user 12), iftrue := ".L1", iffalse := ".L2" }).code =
      [{ opcode := "adds", result := "w14", arg1 := "w0", arg2 := "w1" },
       { opcode := "beq", result := ".L1" },
       { opcode := "b", result := ".L2" }] := by
  decide

theorem intCmp_range (c : IRInstOperator) :
    (IRINST_OP_IEQ.toInt ≤ c.toInt ∧ c.toInt ≤ IRINST_OP_ILT.toInt) ↔ c ∈ intCmpOps := by
  cases c <;> decide

theorem cstrj_eq_cstr_negate (c : IRInstOperator) (h : c ∈ intCmpOps) :
    CSTRJ c = CSTR (negateCmp c) := by
  revert h
  cases c <;> decide

theorem xorPeephole_iff (s : Selector) (inst : Inst) (c : IRInstOperator) :
    xorPeephole s inst = some c ↔ IsNegatedCompare s inst c := by
  unfold xorPeephole IsNegatedCompare
  constructor
  · intro h
    split at h
    · rename_i left right rest hops
      split at h
      · rename_i ir hir
        split at h
        · rename_i hc
          cases h
          exact ⟨left, right, rest, hops, hir, (intCmp_range _).1 hc.2.2, hc.1, hc.2.1⟩
        · cases h
      · cases h
    · cases h
  · rintro ⟨left, right, rest, hops, hir, hc, hk, hv⟩
    rw [hops]
    simp only [hir]
    rw [if_pos ⟨hk, hv, (intCmp_range c).2 hc⟩]

theorem xorPeephole_none_iff (s : Selector) (inst : Inst) :
    xorPeephole s inst = none ↔ ∀ c, ¬ IsNegatedCompare s inst c := by
  constructor
  · intro h c hc
    rw [(xorPeephole_iff s inst c).2 hc] at h
    cases h
  · intro h
    cases hx : xorPeephole s inst with
    | none => rfl
    | some c => exact absurd ((xorPeephole_iff s inst c).1 hx) (h c)

theorem load_imm_no_eor (r c : Int) : ∀ l ∈ load_imm r c, l.opcode ≠ "eor" := by
  intro l hl
  unfold load_imm at hl
  split at hl
  · rw [List.mem_singleton.1 hl]; simp
  · simp only at hl
    split at hl
    · simp only [List.mem_cons, List.mem_singleton, List.not_mem_nil, or_false] at hl
      rcases hl with rfl | rfl <;> simp
    · rw [List.mem_singleton.1 hl]; simp

theorem store_base_no_eor (a b d t : Int) : ∀ l ∈ store_base a b d t, l.opcode ≠ "eor" := by
  intro l hl
  unfold store_base at hl
  simp only at hl
  split at hl
  · rw [List.mem_singleton.1 hl]; simp
  · rcases List.mem_append.1 hl with h | h
    · exact load_imm_no_eor _ _ l h
    · rw [List.mem_singleton.1 h]; simp

theorem store_var_no_eor (st : Store) (a : Int) (v : VId) (t : Int) :
    ∀ l ∈ store_var st a v t, l.opcode ≠ "eor" := by
  intro l hl
  unfold store_var at hl
  simp only at hl
  split at hl
  · split at hl
    · rw [List.mem_singleton.1 hl]; simp
    · cases hl
  · split at hl
    · simp only [List.mem_cons, List.mem_singleton, List.not_mem_nil, or_false] at hl
      rcases hl with rfl | rfl <;> simp
    · split at hl
      · exact store_base_no_eor _ _ _ _ l hl
      · exact store_base_no_eor _ _ _ _ l hl

/-- C20 fails as stated: for `c = a < b; n = c ^ 1` with `n` spilled to `(FP, 16)`
the XOR has the shape of the peephole but no register-resident result; with the
allocated register 9 `translate_xor_int32` emits `cset w9, ge` and
`str w9, [x29,#16]`, and no `eor` line. -/
theorem xor_with_spilled_result_emits_no_eor :
    IsNegatedCompare sampleXorSelector
        { self := VId.user 13, op := IRINST_OP_XOR, operands := [VId.user 12, VId.user 20],
          hasResultValue := true } IRINST_OP_ILT ∧
      (sampleXorSelector.vals (VId.user 13)).regId = -1 ∧
      (translate_xor_int32 sampleXorSelector
          { self := VId.user 13, op := IRINST_OP_XOR, operands := [VId.user 12, VId.user 20],
            hasResultValue := true } 9).code =
        [{ opcode := "cset", result := "w9", arg1 := "ge" },
         { opcode := "str", result := "w9", arg1 := "[x29,#16]" }] ∧
      ∀ l ∈ (translate_xor_int32 sampleXorSelector
          { self := VId.user 13, op := IRINST_OP_XOR, operands := [VId.user 12, VId.user 20],
            hasResultValue := true } 9).code, l.opcode ≠ "eor" :=
  ⟨⟨VId.user 12, VId.user 20, [], rfl, by decide, by decide, by decide, by decide⟩,
    by decide, by decide, by decide⟩

/-- C20 (amended): let the XOR `inst` have the shape of the peephole, left operand
an integer comparison instruction with opcode `c` and right operand the integer
constant 1.  With a register-resident result `r`, `translate_xor_int32` emits
exactly one line, `cset w<r>, <negation of c>`.  With a memory-resident result
it emits `cset w<a>, <negation of c>` on the allocated register `a` and then the
lines of `store_var(a, inst, FP)`, none of which is an `eor`.  For an XOR of two
operands without that shape it emits the lines of the two-operand helper, among
them one `eor rd, rs1, rs2` line.  Nothing but the assembly buffer changes. -/
theorem translate_xor_int32_lines (s : Selector) (inst : Inst) (allocated : Int) :
    (∀ c, IsNegatedCompare s inst c → (s.vals inst.self).regId ≠ -1 →
        (translate_xor_int32 s inst allocated).code =
          s.code ++ [csetNegLine (s.vals inst.self).regId c]) ∧
      (∀ c, IsNegatedCompare s inst c → (s.vals inst.self).regId = -1 →
        (translate_xor_int32 s inst allocated).code =
            s.code ++ csetNegLine allocated c ::
              store_var s.vals allocated inst.self ARM64_FP_REG_NO ∧
          ∀ l ∈ csetNegLine allocated c ::
              store_var s.vals allocated inst.self ARM64_FP_REG_NO, l.opcode ≠ "eor") ∧
      ((∀ c, ¬ IsNegatedCompare s inst c) →
        ∀ left right rest, inst.operands = left :: right :: rest →
          ∃ pre post rd rs1 rs2,
            (translate_xor_int32 s inst allocated).code =
              s.code ++ pre ++ eorLine rd rs1 rs2 :: post) ∧
      (translate_xor_int32 s inst allocated).vals = s.vals ∧
      (translate_xor_int32 s inst allocated).lstcmp = s.lstcmp := by
  refine ⟨?_, ?_, ?_, ?_, ?_⟩
  · intro c hc hreg
    have hx := (xorPeephole_iff s inst c).2 hc
    obtain ⟨_, _, _, _, _, hmem, _, _⟩ := hc
    simp only [translate_xor_int32, hx, if_neg hreg, csetNegLine, cstrj_eq_cstr_negate c hmem,
      List.append_nil]
  · intro c hc hreg
    have hx := (xorPeephole_iff s inst c).2 hc
    obtain ⟨_, _, _, _, _, hmem, _, _⟩ := hc
    constructor
    · simp only [translate_xor_int32, hx, hreg, if_true, csetNegLine,
        cstrj_eq_cstr_negate c hmem, List.append_assoc, List.singleton_append]
    · intro l hl
      rcases List.mem_cons.1 hl with h | h
      · rw [h]; simp [csetNegLine]
      · exact store_var_no_eor _ _ _ _ l h
  · intro hno left right rest hops
    have hx := (xorPeephole_none_iff s inst).2 hno
    simp only [translate_xor_int32, hx, translate_two_operator, hops]
    refine ⟨(if (s.vals left).regId = -1 then load_var s.vals ARM64_TMP_REG_NO left else []) ++
        (if (s.vals right).regId = -1 then load_var s.vals ARM64_TMP_REG_NO2 right else []),
      (if (s.vals inst.self).regId = -1 then
        store_var s.vals
          (if (s.vals inst.self).regId = -1 then ARM64_TMP_REG_NO2 else (s.vals inst.self).regId)
          inst.self ARM64_TMP_REG_NO
       else []),
      (if (s.vals inst.self).regId = -1 then ARM64_TMP_REG_NO2 else (s.vals inst.self).regId),
      (if (s.vals left).regId = -1 then ARM64_TMP_REG_NO else (s.vals left).regId),
      (if (s.vals right).regId = -1 then ARM64_TMP_REG_NO2 else (s.vals right).regId), ?_⟩
    simp only [eorLine, List.append_assoc, List.singleton_append]
  · unfold translate_xor_int32
    split
    · rfl
    · unfold translate_two_operator
      split <;> rfl
  · unfold translate_xor_int32
    split
    · rfl
    · unfold translate_two_operator
      split <;> rfl

theorem translate_xor_int32_lines_witness :
    (IsNegatedCompare { sampleXorSelector with vals := sampleStore }
        { self := VId.user 13, op := IRINST_OP_XOR, operands := [VId.user 12, VId.user 20],
          hasResultValue := true } IRINST_OP_ILT ∧
      (setRegId sampleStore (VId.user 13) 21 (VId.user 13)).regId ≠ -1) ∧
      (translate_xor_int32
          { sampleXorSelector with vals := setRegId sampleStore (VId.user 13) 21 }
          { self := VId.user 13, op := IRINST_OP_XOR, operands := [VId.user 12, VId.user 20],
            hasResultValue := true } 9).code =
        [] ++ [csetNegLine (setRegId sampleStore (VId.user 13) 21 (VId.user 13)).regId
          IRINST_OP_ILT] ∧
      csetNegLine 21 IRINST_OP_ILT = { opcode := "cset", result := "w21", arg1 := "ge" } :=
  ⟨⟨⟨VId.user 12, VId.user 20, [], rfl, by decide, by decide, by decide, by decide⟩,
    by decide⟩,
   (translate_xor_int32_lines
      { sampleXorSelector with vals := setRegId sampleStore (VId.user 13) 21 }
      { self := VId.user 13, op := IRINST_OP_XOR, operands := [VId.user 12, VId.user 20],
        hasResultValue := true } 9).1 IRINST_OP_ILT
      ⟨VId.user 12, VId.user 20, [], rfl, by decide, by decide, by decide, by decide⟩
      (by decide),
   by decide⟩

/-! ## Instruction selection: cast, goto and remainder -/

/-- C21, evaluated on `x = (int) c` behind the comparison `c = a < b`.  With the
cast result in register 21 and its operand `c` in register 20, `translate_cast`
emits `cset w20, lt`: the destination is the register of the operand, not of the
cast.  With `c` spilled to `(FP, 16)` it emits three lines, `ldr w16, [x29,#16]`,
`cset w17, lt` and `str w17, [x29,#16]`, and never writes to register 21.  A cast
of any other kind emits no line. -/
theorem translate_cast_writes_operand_register :
    ((sampleCastSelector.vals (VId.user 13)).regId = 21 ∧
      (sampleCastSelector.vals (VId.user 12)).regId = 20 ∧
      (sampleCastSpilledSelector.vals (VId.user 13)).regId = 21) ∧
    (translate_cast sampleCastSelector sampleCast CastType.BOOL_TO_INT).code =
      [{ opcode := "cset", result := "w20", arg1 := "lt" }] ∧
    (translate_cast sampleCastSpilledSelector sampleCast CastType.BOOL_TO_INT).code =
      [{ opcode := "ldr", result := "w16", arg1 := "[x29,#16]" },
       { opcode := "cset", result := "w17", arg1 := "lt" },
       { opcode := "str", result := "w17", arg1 := "[x29,#16]" }] ∧
    (translate_cast sampleCastSelector sampleCast CastType.INT_TO_FLOAT).code = [] ∧
    (translate_cast sampleCastSelector sampleCast CastType.FLOAT_TO_INT).code = [] ∧
    (translate_cast sampleCastSelector sampleCast CastType.INT_TO_BOOL).code = [] := by
  decide

/-- C22: `translate_goto` on a conditional goto with `lstcmp` set (any opcode but
`IRINST_OP_MAX`, in particular each of the six comparison opcodes) appends
exactly `b<CSTR(lstcmp)> ifTrue` and `b ifFalse` and resets `lstcmp` to
`IRINST_OP_MAX`; on a conditional goto with `lstcmp` unset it appends `bne ifTrue`
and `b ifFalse` and leaves `lstcmp` unset; on an unconditional goto it appends the
single line `b ifTrue` and leaves `lstcmp` as it is.  The values are untouched. -/
theorem translate_goto_lines (s : Selector) (g : GotoInstruction) :
    (∀ v, g.cond = some v → s.lstcmp ≠ IRINST_OP_MAX →
        (translate_goto s g).code =
            s.code ++ [{ opcode := "b" ++ CSTR s.lstcmp, result := g.iftrue },
                       { opcode := "b", result := g.iffalse }] ∧
          (translate_goto s g).lstcmp = IRINST_OP_MAX) ∧
      (∀ v, g.cond = some v → s.lstcmp = IRINST_OP_MAX →
        (translate_goto s g).code =
            s.code ++ [{ opcode := "bne", result := g.iftrue },
                       { opcode := "b", result := g.iffalse }] ∧
          (translate_goto s g).lstcmp = IRINST_OP_MAX) ∧
      (g.cond = none →
        (translate_goto s g).code = s.code ++ [{ opcode := "b", result := g.iftrue }] ∧
          (translate_goto s g).lstcmp = s.lstcmp) ∧
      (translate_goto s g).vals = s.vals ∧
      (∀ c ∈ intCmpOps, c ≠ IRINST_OP_MAX ∧
        "b" ++ CSTR c ∈ ["beq", "bne", "bgt", "ble", "bge", "blt"]) := by
  refine ⟨?_, ?_, ?_, ?_, by decide⟩
  · intro v hv hl
    simp only [translate_goto, hv, if_pos hl, and_self]
  · intro v hv hl
    have e : ("b" ++ "ne" : String) = "bne" := by decide
    simp only [translate_goto, hv, hl, ne_eq, not_true_eq_false, if_false, e, and_self]
  · intro hv
    simp only [translate_goto, hv, and_self]
  · unfold translate_goto
    split
    · split <;> rfl
    · rfl

theorem translate_goto_lines_witness :
    ((some (VId.user 12) : Option VId) = some (VId.user 12) ∧
        IRINST_OP_IEQ ≠ IRINST_OP_MAX) ∧
      (translate_goto { vals := sampleStore, lstcmp := IRINST_OP_IEQ }
          { cond := some (VId.user 12), iftrue := ".L1", iffalse := ".L2" }).code =
        [] ++ [{ opcode := "b" ++ CSTR IRINST_OP_IEQ, result := ".L1" },
               { opcode := "b", result := ".L2" }] ∧
      ("b" ++ CSTR IRINST_OP_IEQ : String) = "beq" :=
  ⟨⟨rfl, by decide⟩,
   ((translate_goto_lines { vals := sampleStore, lstcmp := IRINST_OP_IEQ }
      { cond := some (VId.user 12), iftrue := ".L1", iffalse := ".L2" }).1
      (VId.user 12) rfl (by decide)).1,
   by decide⟩

/-- C23, evaluated on `r = a % 3` with `a` in register 19 and `r` spilled to
`(FP, 8)`: `translate_rem_int32` emits `mov w17, #3`, `rem w17, w19, w17` and
`str w17, [x29,#8]`; the destination of the `rem` line is its second source, and
the macro expands to `sdiv w17, w19, w17` and `msub w17, w17, w17, w19`.  With
`a`, `b` and `r` all spilled the line is `rem w17, w16, w17`. -/
theorem rem_destination_is_second_source :
    ((sampleRemSelector.vals (VId.user 11)).regId = -1 ∧
      (sampleRemSelector.vals (VId.user 22)).regId = -1 ∧
      (sampleRemSelector.vals (VId.user 0)).regId = 19) ∧
    (translate_rem_int32 sampleRemSelector sampleRemConst).code =
      [{ opcode := "mov", result := "w17", arg1 := "#3" },
       { opcode := "rem", result := "w17", arg1 := "w19", arg2 := "w17" },
       { opcode := "str", result := "w17", arg1 := "[x29,#8]" }] ∧
    remMacro "w17" "w19" "w17" = ["sdiv w17, w19, w17", "msub w17, w17, w17, w19"] ∧
    (translate_rem_int32 sampleRemSpilledSelector sampleRem).code =
      [{ opcode := "ldr", result := "w16", arg1 := "[x29]" },
       { opcode := "ldr", result := "w17", arg1 := "[x29,#4]" },
       { opcode := "rem", result := "w17", arg1 := "w16", arg2 := "w17" },
       { opcode := "str", result := "w17", arg1 := "[x29,#8]" }] := by
  decide

/-! ## Immediates: load_imm -/

theorem toU32_lt (x : Int) : toU32 x < 4294967296 := by
  unfold toU32
  have h1 := Int.emod_nonneg x (by norm_num : (4294967296 : Int) ≠ 0)
  have h2 := Int.emod_lt_of_pos x (by norm_num : (0 : Int) < 4294967296)
  omega

theorem toU32_cast (x : Int) : ((toU32 x : Nat) : Int) = x % 4294967296 := by
  unfold toU32
  have h1 := Int.emod_nonneg x (by norm_num : (4294967296 : Int) ≠ 0)
  omega

theorem int_not_eq (x : Int) : ~~~x = -x - 1 := by
  cases x with
  | ofNat n => show Int.negSucc n = -(n : Int) - 1; rw [Int.negSucc_eq]; omega
  | negSucc n => show (n : Int) = -(Int.negSucc n) - 1; rw [Int.negSucc_eq]; omega

theorem toU32_not (x : Int) : toU32 (~~~x) = 4294967295 - toU32 x := by
  have h1 := toU32_cast x
  have h2 := toU32_cast (~~~x)
  have h3 := toU32_lt x
  have h4 := toU32_lt (~~~x)
  rw [int_not_eq] at h2 h4 ⊢
  omega

theorem toU32_eq_zero (x : Int) (h1 : -2147483648 ≤ x) (h2 : x < 2147483648) :
    toU32 x = 0 ↔ x = 0 := by
  have h := toU32_cast x
  constructor
  · intro h0
    rw [h0] at h
    omega
  · rintro rfl; rfl

/-- The lines of `load_imm` in terms of the halves `lo`, `hi` of the 32-bit
pattern of `n`. -/
theorem load_imm_eq (rs n : Int) :
    load_imm rs n =
      if n = 0 then [{ opcode := "mov", result := regName rs, arg1 := "wzr" }]
      else if toU32 n % 65536 ≠ 0 ∧ toU32 n % 65536 ≠ 65535 ∧
          toU32 n / 65536 ≠ 0 ∧ toU32 n / 65536 ≠ 65535 then
        [{ opcode := "mov", result := regName rs, arg1 := "#" ++ toString (toU32 n % 65536) },
         { opcode := "movk", result := regName rs,
           arg1 := "#" ++ toString (toU32 n / 65536), arg2 := "lsl #16" }]
      else [{ opcode := "mov", result := regName rs, arg1 := "#" ++ toString n }] := by
  unfold load_imm
  by_cases h0 : n = 0
  · simp only [h0, if_true]
  · simp only [h0, if_false]
    have hlt := toU32_lt n
    have hc : (toU32 n / 65536 ≠ 0 ∧ toU32 n % 65536 ≠ 0 ∧ toU32 (~~~n) / 65536 ≠ 0 ∧
        toU32 (~~~n) % 65536 ≠ 0) ↔
        (toU32 n % 65536 ≠ 0 ∧ toU32 n % 65536 ≠ 65535 ∧
          toU32 n / 65536 ≠ 0 ∧ toU32 n / 65536 ≠ 65535) := by
      rw [toU32_not]
      omega
    by_cases hp : toU32 n % 65536 ≠ 0 ∧ toU32 n % 65536 ≠ 65535 ∧
          toU32 n / 65536 ≠ 0 ∧ toU32 n / 65536 ≠ 65535
    · rw [if_pos (hc.2 hp), if_pos hp]
    · rw [if_neg (fun h => hp (hc.1 h)), if_neg hp]

/-- C26: `load_imm(reg, n)` emits exactly `mov reg, wzr` when `n = 0`; exactly
`mov reg, #lo` and `movk reg, #hi, lsl #16`, with `lo` and `hi` the low and high
16 bits of the 32-bit pattern of `n`, when `n != 0` and neither half is 0x0000
or 0xFFFF, which is the test of the source that both halves of `n` and both
halves of `~n` are non-zero; and exactly `mov reg, #n` in every other case, in
particular for every `0 < n < 65536`. -/
theorem load_imm_cases (rs n : Int) :
    (n = 0 → load_imm rs n = [{ opcode := "mov", result := regName rs, arg1 := "wzr" }]) ∧
      (n ≠ 0 →
        toU32 n % 65536 ≠ 0 ∧ toU32 n % 65536 ≠ 65535 ∧
          toU32 n / 65536 ≠ 0 ∧ toU32 n / 65536 ≠ 65535 →
        load_imm rs n =
          [{ opcode := "mov", result := regName rs,
             arg1 := "#" ++ toString (toU32 n % 65536) },
           { opcode := "movk", result := regName rs,
             arg1 := "#" ++ toString (toU32 n / 65536), arg2 := "lsl #16" }]) ∧
      (n ≠ 0 →
        ¬ (toU32 n % 65536 ≠ 0 ∧ toU32 n % 65536 ≠ 65535 ∧
          toU32 n / 65536 ≠ 0 ∧ toU32 n / 65536 ≠ 65535) →
        load_imm rs n =
          [{ opcode := "mov", result := regName rs, arg1 := "#" ++ toString n }]) ∧
      ((toU32 n % 65536 ≠ 0 ∧ toU32 n % 65536 ≠ 65535 ∧
          toU32 n / 65536 ≠ 0 ∧ toU32 n / 65536 ≠ 65535) ↔
        (toU32 n / 65536 ≠ 0 ∧ toU32 n % 65536 ≠ 0 ∧
          toU32 (~~~n) / 65536 ≠ 0 ∧ toU32 (~~~n) % 65536 ≠ 0)) ∧
      (0 < n → n < 65536 →
        load_imm rs n =
          [{ opcode := "mov", result := regName rs, arg1 := "#" ++ toString n }]) := by
  refine ⟨?_, ?_, ?_, ?_, ?_⟩
  · intro h
    rw [load_imm_eq, if_pos h]
  · intro h hp
    rw [load_imm_eq, if_neg h, if_pos hp]
  · intro h hp
    rw [load_imm_eq, if_neg h, if_neg hp]
  · have hlt := toU32_lt n
    rw [toU32_not]
    omega
  · intro h1 h2
    have hn : n ≠ 0 := by omega
    have hu : toU32 n / 65536 = 0 := by
      have := toU32_cast n
      have hlt := toU32_lt n
      omega
    rw [load_imm_eq, if_neg hn, if_neg (fun hp => hp.2.2.1 hu)]

theorem load_imm_cases_witness :
    ((0 : Int) < 42 ∧ (42 : Int) < 65536) ∧
      load_imm 9 42 = [{ opcode := "mov", result := regName 9, arg1 := "#" ++ toString (42 : Int) }] ∧
      load_imm 9 42 = [{ opcode := "mov", result := "w9", arg1 := "#42" }] ∧
      load_imm 9 305419896 =
        [{ opcode := "mov", result := "w9", arg1 := "#22136" },
         { opcode := "movk", result := "w9", arg1 := "#4660", arg2 := "lsl #16" }] :=
  ⟨⟨by decide, by decide⟩, (load_imm_cases 9 42).2.2.2.2 (by decide) (by decide), by decide,
    by decide⟩

/-- C27: when `load_imm(reg, n)` emits two lines, they are `mov reg, #lo` and
`movk reg, #hi, lsl #16` with `lo <= 65535`, `hi <= 65535` and `lo + 65536 * hi`
equal to the 32-bit pattern of `n`, that is to `n` modulo 2^32.  When it emits
one line for `n != 0`, the line is `mov reg, #n` and the 32-bit pattern of `n`
or of its bitwise complement is `v * 2^s` with `v <= 65535` and `s` 0 or 16. -/
theorem load_imm_materialises (rs n : Int) :
    ((load_imm rs n).length = 2 →
        load_imm rs n =
          [{ opcode := "mov", result := regName rs,
             arg1 := "#" ++ toString (toU32 n % 65536) },
           { opcode := "movk", result := regName rs,
             arg1 := "#" ++ toString (toU32 n / 65536), arg2 := "lsl #16" }] ∧
        toU32 n % 65536 ≤ 65535 ∧ toU32 n / 65536 ≤ 65535 ∧
        toU32 n % 65536 + 65536 * (toU32 n / 65536) = toU32 n ∧
        ((toU32 n % 65536 + 65536 * (toU32 n / 65536) : Nat) : Int) = n % 4294967296) ∧
      (n ≠ 0 → (load_imm rs n).length = 1 →
        load_imm rs n =
          [{ opcode := "mov", result := regName rs, arg1 := "#" ++ toString n }] ∧
        ∃ v s : Nat, v ≤ 65535 ∧ (s = 0 ∨ s = 16) ∧
          (toU32 n = v * 2 ^ s ∨ toU32 (~~~n) = v * 2 ^ s)) := by
  have hlt := toU32_lt n
  constructor
  · intro hlen
    rw [load_imm_eq] at hlen ⊢
    by_cases h0 : n = 0
    · rw [if_pos h0] at hlen; cases hlen
    · rw [if_neg h0] at hlen ⊢
      by_cases hp : toU32 n % 65536 ≠ 0 ∧ toU32 n % 65536 ≠ 65535 ∧
          toU32 n / 65536 ≠ 0 ∧ toU32 n / 65536 ≠ 65535
      · rw [if_pos hp]
        refine ⟨rfl, by omega, by omega, by omega, ?_⟩
        rw [← toU32_cast n]
        congr 1
        omega
      · rw [if_neg hp] at hlen; cases hlen
  · intro h0 hlen
    rw [load_imm_eq, if_neg h0] at hlen ⊢
    by_cases hp : toU32 n % 65536 ≠ 0 ∧ toU32 n % 65536 ≠ 65535 ∧
          toU32 n / 65536 ≠ 0 ∧ toU32 n / 65536 ≠ 65535
    · rw [if_pos hp] at hlen; cases hlen
    · rw [if_neg hp]
      refine ⟨rfl, ?_⟩
      have hnot := toU32_not n
      by_cases hl0 : toU32 n % 65536 = 0
      · exact ⟨toU32 n / 65536, 16, by omega, Or.inr rfl, Or.inl (by norm_num; omega)⟩
      · by_cases hh0 : toU32 n / 65536 = 0
        · exact ⟨toU32 n % 65536, 0, by omega, Or.inl rfl, Or.inl (by norm_num; omega)⟩
        · by_cases hl1 : toU32 n % 65536 = 65535
          · exact ⟨toU32 (~~~n) / 65536, 16, by omega, Or.inr rfl,
              Or.inr (by norm_num; omega)⟩
          · have hh1 : toU32 n / 65536 = 65535 := by
              by_contra hc
              exact hp ⟨hl0, hl1, hh0, hc⟩
            exact ⟨toU32 (~~~n) % 65536, 0, by omega, Or.inl rfl,
              Or.inr (by norm_num; omega)⟩

theorem load_imm_materialises_witness :
    (load_imm 9 305419896).length = 2 ∧
      toU32 305419896 % 65536 + 65536 * (toU32 305419896 / 65536) = toU32 305419896 ∧
      toU32 305419896 % 65536 = 22136 ∧ toU32 305419896 / 65536 = 4660 :=
  ⟨by decide, ((load_imm_materialises 9 305419896).1 (by decide)).2.2.2.1, by decide,
    by decide⟩

/-! ## Dead-label elimination -/

theorem isLabelLine_not_branch (arm : ArmInst) (h : isLabelLine arm = true) :
    opcodeStartsWith arm 'b' = false := by
  unfold isLabelLine opcodeStartsWith at *
  simp only [Bool.and_eq_true, decide_eq_true_eq] at h
  simp only [decide_eq_false_iff_not]
  intro hb
  rw [h.1.2] at hb
  exact absurd hb (by decide)

theorem labelUsed_set (code : List ArmInst) (i : Nat) (arm : ArmInst) (name : String)
    (hi : code[i]? = some arm) (hb : opcodeStartsWith arm 'b' = false) :
    labelUsed (code.set i { arm with dead := true }) name = labelUsed code name := by
  unfold labelUsed
  rw [Bool.eq_iff_iff, List.any_eq_true, List.any_eq_true]
  have hb' : opcodeStartsWith { arm with dead := true } 'b' = false := hb
  constructor
  · rintro ⟨x, hx, hp⟩
    rcases List.mem_or_eq_of_mem_set hx with h | h
    · exact ⟨x, h, hp⟩
    · rw [h] at hp
      simp [hb'] at hp
  · rintro ⟨x, hx, hp⟩
    obtain ⟨j, hj, hjx⟩ := List.getElem_of_mem hx
    by_cases hji : j = i
    · subst hji
      rw [List.getElem?_eq_getElem hj] at hi
      cases hi
      rw [hjx] at hb
      simp [hb] at hp
    · refine ⟨x, ?_, hp⟩
      have : (code.set i { arm with dead := true })[j]? = some x := by
        rw [List.getElem?_set_ne (fun e => hji e.symm), List.getElem?_eq_getElem hj, hjx]
      exact List.getElem?_mem this

theorem markUnusedLabels_getElem? (code0 : List ArmInst) :
    ∀ (idxs : List Nat) (code : List ArmInst), idxs.Nodup →
      (∀ name, labelUsed code name = labelUsed code0 name) →
      (∀ i ∈ idxs, ∃ arm, code[i]? = some arm ∧ isLabelLine arm = true) →
      ∀ j, (markUnusedLabels idxs code)[j]? =
        if j ∈ idxs then (code[j]?).map (markLine code0) else code[j]?
  | [], code, _, _, _, j => by simp [markUnusedLabels]
  | i :: rest, code, hnd, hused, hlab, j => by
    obtain ⟨hin, hnd'⟩ := List.nodup_cons.1 hnd
    obtain ⟨arm, harm, hl⟩ := hlab i (List.mem_cons_self _ _)
    have hrest : ∀ i' ∈ rest, ∃ arm, code[i']? = some arm ∧ isLabelLine arm = true :=
      fun i' hi' => hlab i' (List.mem_cons_of_mem _ hi')
    simp only [markUnusedLabels, harm]
    by_cases hu : labelUsed code arm.opcode = true
    · rw [if_pos hu]
      rw [markUnusedLabels_getElem? code0 rest code hnd' hused hrest j]
      by_cases hji : j = i
      · subst hji
        have hm : markLine code0 arm = arm := by
          unfold markLine
          rw [← hused, hu]
          simp
        simp [hin, harm, hm]
      · simp [hji]
    · rw [if_neg hu]
      have hused' : ∀ name, labelUsed (code.set i { arm with dead := true }) name =
          labelUsed code0 name := fun name => by
        rw [labelUsed_set code i arm name harm (isLabelLine_not_branch arm hl)]
        exact hused name
      have hrest' : ∀ i' ∈ rest, ∃ a, (code.set i { arm with dead := true })[i']? = some a ∧
          isLabelLine a = true := by
        intro i' hi'
        have hne : i ≠ i' := fun e => hin (e ▸ hi')
        rw [List.getElem?_set_ne hne]
        exact hrest i' hi'
      rw [markUnusedLabels_getElem? code0 rest _ hnd' hused' hrest' j]
      have hilt : i < code.length := (List.getElem?_eq_some.1 harm).1
      by_cases hji : j = i
      · subst hji
        have hm : markLine code0 arm = { arm with dead := true } := by
          unfold markLine
          rw [← hused, hl]
          simp [hu]
        simp [hin, harm, hm, hilt]
      · have hne : i ≠ j := fun e => hji e.symm
        rw [List.getElem?_set_ne hne]
        simp [hji]

theorem labelInsts_spec (code : List ArmInst) :
    (labelInsts code).Nodup ∧
      ∀ i, i ∈ labelInsts code ↔ ∃ arm, code[i]? = some arm ∧ isLabelLine arm = true := by
  constructor
  · exact List.Nodup.filter _ (List.nodup_range _)
  · intro i
    unfold labelInsts
    rw [List.mem_filter, List.mem_range]
    constructor
    · rintro ⟨hi, h⟩
      rw [List.getElem?_eq_getElem hi] at h
      exact ⟨code[i], List.getElem?_eq_getElem hi, h⟩
    · rintro ⟨arm, h1, h2⟩
      refine ⟨(List.getElem?_eq_some.1 h1).1, ?_⟩
      rw [h1]; exact h2

theorem deleteUsedLabel_eq_map (code : List ArmInst) :
    deleteUsedLabel code = code.map (markLine code) := by
  obtain ⟨hnd, hmem⟩ := labelInsts_spec code
  apply List.ext_getElem?
  intro j
  unfold deleteUsedLabel
  rw [markUnusedLabels_getElem? code (labelInsts code) code hnd (fun _ => rfl)
    (fun i hi => (hmem i).1 hi) j, List.getElem?_map]
  by_cases hj : j ∈ labelInsts code
  · rw [if_pos hj]
  · rw [if_neg hj]
    cases h : code[j]? with
    | none => rfl
    | some arm =>
      have hl : isLabelLine arm = false := by
        cases hb : isLabelLine arm with
        | false => rfl
        | true => exact absurd ((hmem j).2 ⟨arm, h, hb⟩) hj
      simp [markLine, hl]

theorem labelUsed_deleteUsedLabel (code : List ArmInst) (name : String) :
    labelUsed (deleteUsedLabel code) name = labelUsed code name := by
  rw [deleteUsedLabel_eq_map]
  unfold labelUsed
  rw [List.any_map]
  congr 1
  funext arm
  show (!(markLine code arm).dead && opcodeStartsWith (markLine code arm) 'b' &&
      decide ((markLine code arm).result = name)) = _
  unfold markLine
  by_cases h : (isLabelLine arm && !labelUsed code arm.opcode) = true
  · rw [if_pos h]
    have hl : isLabelLine arm = true := by
      simp only [Bool.and_eq_true] at h; exact h.1
    have hb := isLabelLine_not_branch arm hl
    have hb' : opcodeStartsWith { arm with dead := true } 'b' = false := hb
    simp [hb, hb']
  · rw [if_neg h]

theorem labelUsed_iff (code : List ArmInst) (name : String) :
    labelUsed code name = true ↔
      ∃ b ∈ code, b.dead = false ∧ b.opcode.data.head? = some 'b' ∧ b.result = name := by
  unfold labelUsed opcodeStartsWith
  rw [List.any_eq_true]
  constructor
  · rintro ⟨b, hb, hp⟩
    simp only [Bool.and_eq_true, Bool.not_eq_true', decide_eq_true_eq] at hp
    exact ⟨b, hb, hp.1.1, hp.1.2, hp.2⟩
  · rintro ⟨b, hb, h1, h2, h3⟩
    refine ⟨b, hb, ?_⟩
    simp only [Bool.and_eq_true, Bool.not_eq_true', decide_eq_true_eq]
    exact ⟨⟨h1, h2⟩, h3⟩

theorem isLabelLine_iff (arm : ArmInst) :
    isLabelLine arm = true ↔
      arm.dead = false ∧ arm.opcode.data.head? = some '.' ∧ arm.result = ":" := by
  unfold isLabelLine opcodeStartsWith
  simp only [Bool.and_eq_true, Bool.not_eq_true', decide_eq_true_eq]
  constructor
  · rintro ⟨⟨h1, h2⟩, h3⟩; exact ⟨h1, h2, h3⟩
  · rintro ⟨h1, h2, h3⟩; exact ⟨⟨h1, h2⟩, h3⟩

/-- C29: `deleteUsedLabel` keeps the number and the order of the lines and
changes nothing of a line but its dead flag; after it a line is dead if and only
if it was dead before, or it is a label line (opcode starting with `.`, first
operand `:`) whose name is the first operand of no live line with an opcode
starting with `b`.  The live branch lines are the same before and after, so no
line that is not a label changes its flag. -/
theorem deleteUsedLabel_marks_unreferenced_labels (code : List ArmInst) :
    (deleteUsedLabel code).length = code.length ∧
      (∀ (j : Nat) (arm : ArmInst), code[j]? = some arm →
        ∃ arm' : ArmInst, (deleteUsedLabel code)[j]? = some arm' ∧
          arm'.opcode = arm.opcode ∧ arm'.result = arm.result ∧
          arm'.arg1 = arm.arg1 ∧ arm'.arg2 = arm.arg2 ∧
          (arm'.dead = true ↔
            arm.dead = true ∨
              (arm.opcode.data.head? = some '.' ∧ arm.result = ":" ∧
                ¬ ∃ b ∈ code, b.dead = false ∧ b.opcode.data.head? = some 'b' ∧
                  b.result = arm.opcode))) ∧
      (∀ name, labelUsed (deleteUsedLabel code) name = labelUsed code name) := by
  refine ⟨by rw [deleteUsedLabel_eq_map, List.length_map], ?_, labelUsed_deleteUsedLabel code⟩
  intro j arm hj
  refine ⟨markLine code arm, by rw [deleteUsedLabel_eq_map, List.getElem?_map, hj]; rfl, ?_⟩
  unfold markLine
  by_cases h : (isLabelLine arm && !labelUsed code arm.opcode) = true
  · rw [if_pos h]
    simp only [Bool.and_eq_true, Bool.not_eq_true'] at h
    obtain ⟨h1, h2, h3⟩ := (isLabelLine_iff arm).1 h.1
    refine ⟨rfl, rfl, rfl, rfl, fun _ => Or.inr ⟨h2, h3, ?_⟩, fun _ => rfl⟩
    intro hex
    rw [(labelUsed_iff code arm.opcode).2 hex] at h
    exact absurd h.2 (by decide)
  · rw [if_neg h]
    refine ⟨rfl, rfl, rfl, rfl, fun hd => Or.inl hd, ?_⟩
    rintro (hd | ⟨h2, h3, hno⟩)
    · exact hd
    · cases hdead : arm.dead with
      | true => rfl
      | false =>
        exfalso
        apply h
        have hl := (isLabelLine_iff arm).2 ⟨hdead, h2, h3⟩
        have hu : labelUsed code arm.opcode = false := by
          cases hb : labelUsed code arm.opcode with
          | false => rfl
          | true => exact absurd ((labelUsed_iff code arm.opcode).1 hb) hno
        simp [hl, hu]

/-- C30: running `deleteUsedLabel` twice gives the same buffer, lines and dead
flags, as running it once. -/
theorem deleteUsedLabel_idempotent (code : List ArmInst) :
    deleteUsedLabel (deleteUsedLabel code) = deleteUsedLabel code := by
  rw [deleteUsedLabel_eq_map (deleteUsedLabel code)]
  conv_rhs => rw [← List.map_id (deleteUsedLabel code)]
  apply List.map_congr_left
  intro arm' harm'
  rw [deleteUsedLabel_eq_map] at harm'
  obtain ⟨arm, _, rfl⟩ := List.mem_map.1 harm'
  show markLine (deleteUsedLabel code) (markLine code arm) = markLine code arm
  have hused : labelUsed (deleteUsedLabel code) (markLine code arm).opcode =
      labelUsed code arm.opcode := by
    rw [labelUsed_deleteUsedLabel]
    unfold markLine
    split <;> rfl
  by_cases h : (isLabelLine arm && !labelUsed code arm.opcode) = true
  · have hm : markLine code arm = { arm with dead := true } := by
      unfold markLine; rw [if_pos h]
    have hl : isLabelLine { arm with dead := true } = false := by
      simp [isLabelLine]
    rw [hm]
    unfold markLine
    simp [hl]
  · have hm : markLine code arm = arm := by
      unfold markLine; rw [if_neg h]
    rw [hm] at hused ⊢
    unfold markLine
    rw [hused, if_neg h]

theorem deleteUsedLabel_sample :
    deleteUsedLabel
        [{ opcode := ".L1", result := ":" }, { opcode := "beq", result := ".L2" },
         { opcode := "b", result := ".L3", dead := true }, { opcode := ".L2", result := ":" },
         { opcode := ".L3", result := ":" }, { opcode := "ret" }] =
      [{ opcode := ".L1", result := ":", dead := true }, { opcode := "beq", result := ".L2" },
       { opcode := "b", result := ".L3", dead := true }, { opcode := ".L2", result := ":" },
       { opcode := ".L3", result := ":", dead := true }, { opcode := "ret" }] := by
  decide

/-! ## Encodable immediates: constExpr -/

theorem roundLeftShiftTwoBit_eq (x : Nat) (hx : x < 4294967296) :
    roundLeftShiftTwoBit x = 4 * (x % 1073741824) + x / 1073741824 := by
  unfold roundLeftShiftTwoBit
  have h1 : (x &&& 0xc0000000) >>> 30 = x / 1073741824 := by
    have e30 : (1073741824 : Nat) = 2 ^ 30 := by norm_num
    rw [e30, ← Nat.shiftRight_eq_div_pow]
    apply Nat.eq_of_testBit_eq
    intro j
    have hmask : (0xc0000000 : Nat) = 2 ^ 30 * (2 ^ 2 - 1) := by norm_num
    rw [Nat.testBit_shiftRight, Nat.testBit_shiftRight, Nat.testBit_and, hmask,
      Nat.testBit_mul_pow_two, Nat.testBit_two_pow_sub_one]
    by_cases hj : j < 2
    · simp [hj]
    · have hlt : x < 2 ^ (30 + j) :=
        lt_of_lt_of_le hx (by
          have : (4294967296 : Nat) = 2 ^ 32 := by norm_num
          rw [this]
          exact Nat.pow_le_pow_right (by norm_num) (by omega))
      simp [hj, Nat.testBit_lt_two_pow hlt]
  have h2 : (x <<< 2) % 4294967296 = 2 ^ 2 * (x % 1073741824) := by
    rw [Nat.shiftLeft_eq]
    omega
  simp only [h1, h2]
  rw [← Nat.mul_add_lt_is_or (by omega : x / 1073741824 < 2 ^ 2)]

set_option maxRecDepth 100000 in
theorem rotateRightTwoBit_iterate :
    ∀ b < 256, ∀ k < 16, rotateRightTwoBit^[k] b = rotateRight32 b (2 * k) := by
  decide

theorem roundLeftShiftTwoBit_lt (x : Nat) (hx : x < 4294967296) :
    roundLeftShiftTwoBit x < 4294967296 := by
  rw [roundLeftShiftTwoBit_eq x hx]; omega

theorem rotateRightTwoBit_lt (x : Nat) (hx : x < 4294967296) :
    rotateRightTwoBit x < 4294967296 := by
  unfold rotateRightTwoBit; omega

theorem rotateRight_roundLeft (x : Nat) (hx : x < 4294967296) :
    rotateRightTwoBit (roundLeftShiftTwoBit x) = x := by
  rw [roundLeftShiftTwoBit_eq x hx]; unfold rotateRightTwoBit; omega

theorem roundLeft_rotateRight (x : Nat) (hx : x < 4294967296) :
    roundLeftShiftTwoBit (rotateRightTwoBit x) = x := by
  rw [roundLeftShiftTwoBit_eq _ (rotateRightTwoBit_lt x hx)]; unfold rotateRightTwoBit; omega

theorem roundLeft_iterate_lt :
    ∀ (i x : Nat), x < 4294967296 → roundLeftShiftTwoBit^[i] x < 4294967296
  | 0, _, hx => hx
  | i + 1, x, hx => by
    rw [Function.iterate_succ_apply']
    exact roundLeftShiftTwoBit_lt _ (roundLeft_iterate_lt i x hx)

theorem rotateRight_iterate_roundLeft :
    ∀ (i x : Nat), x < 4294967296 → rotateRightTwoBit^[i] (roundLeftShiftTwoBit^[i] x) = x
  | 0, _, _ => rfl
  | i + 1, x, hx => by
    rw [Function.iterate_succ_apply, Function.iterate_succ_apply',
      rotateRight_roundLeft _ (roundLeft_iterate_lt i x hx),
      rotateRight_iterate_roundLeft i x hx]

theorem rotateRight_iterate_lt :
    ∀ (i x : Nat), x < 4294967296 → rotateRightTwoBit^[i] x < 4294967296
  | 0, _, hx => hx
  | i + 1, x, hx => by
    rw [Function.iterate_succ_apply']
    exact rotateRightTwoBit_lt _ (rotateRight_iterate_lt i x hx)

theorem roundLeft_iterate_rotateRight :
    ∀ (i x : Nat), x < 4294967296 → roundLeftShiftTwoBit^[i] (rotateRightTwoBit^[i] x) = x
  | 0, _, _ => rfl
  | i + 1, x, hx => by
    rw [Function.iterate_succ_apply, Function.iterate_succ_apply',
      roundLeft_rotateRight _ (rotateRight_iterate_lt i x hx),
      roundLeft_iterate_rotateRight i x hx]

theorem constExprLoop_iff :
    ∀ (count x : Nat),
      constExprLoop count x = true ↔ ∃ i, i < count ∧ roundLeftShiftTwoBit^[i] x ≤ 255
  | 0, x => by simp [constExprLoop]
  | count + 1, x => by
    simp only [constExprLoop]
    by_cases h : x ≤ 255
    · simp only [h, if_true, true_iff]
      exact ⟨0, Nat.succ_pos _, h⟩
    · rw [if_neg h, constExprLoop_iff count (roundLeftShiftTwoBit x)]
      constructor
      · rintro ⟨i, hi, hle⟩
        exact ⟨i + 1, Nat.succ_lt_succ hi, by rw [Function.iterate_succ_apply]; exact hle⟩
      · rintro ⟨i, hi, hle⟩
        cases i with
        | zero => exact absurd hle h
        | succ i =>
          rw [Function.iterate_succ_apply] at hle
          exact ⟨i, Nat.lt_of_succ_lt_succ hi, hle⟩

/-- The 32-bit patterns that `__constExpr` accepts are the rotations of a byte
right by an even number of positions. -/
theorem constExprLoop_iff_rotated (x : Nat) (hx : x < 4294967296) :
    constExprLoop 16 x = true ↔
      ∃ b k : Nat, b ≤ 255 ∧ k ≤ 15 ∧ rotateRight32 b (2 * k) = x := by
  rw [constExprLoop_iff]
  constructor
  · rintro ⟨i, hi, hle⟩
    refine ⟨roundLeftShiftTwoBit^[i] x, i, hle, by omega, ?_⟩
    rw [← rotateRightTwoBit_iterate _ (by omega) i hi]
    exact rotateRight_iterate_roundLeft i x hx
  · rintro ⟨b, k, hb, hk, rfl⟩
    refine ⟨k, by omega, ?_⟩
    rw [← rotateRightTwoBit_iterate b (by omega) k (by omega),
      roundLeft_iterate_rotateRight k b (by omega)]
    exact hb

/-- C28: `constExpr(n)` is true if and only if some byte `b` in 0..255, rotated
right by `2 * k` bit positions within 32 bits for some `k` in 0..15, gives the
32-bit two's-complement pattern of `n` or of `-n`.  Hence `constExpr(n)` and
`constExpr(-n)` agree, every `n` with `|n| <= 255` is accepted, and 257 is
rejected. -/
theorem constExpr_iff_rotated_byte (n : Int) :
    (constExpr n = true ↔
        ∃ b k : Nat, b ≤ 255 ∧ k ≤ 15 ∧
          (rotateRight32 b (2 * k) = toU32 n ∨ rotateRight32 b (2 * k) = toU32 (-n))) ∧
      constExpr n = constExpr (-n) ∧
      (-255 ≤ n → n ≤ 255 → constExpr n = true) ∧
      constExpr 257 = false := by
  have hiff : constExpr n = true ↔
      ∃ b k : Nat, b ≤ 255 ∧ k ≤ 15 ∧
        (rotateRight32 b (2 * k) = toU32 n ∨ rotateRight32 b (2 * k) = toU32 (-n)) := by
    unfold constExpr __constExpr
    rw [Bool.or_eq_true, constExprLoop_iff_rotated _ (toU32_lt n),
      constExprLoop_iff_rotated _ (toU32_lt (-n))]
    constructor
    · rintro (⟨b, k, hb, hk, h⟩ | ⟨b, k, hb, hk, h⟩)
      · exact ⟨b, k, hb, hk, Or.inl h⟩
      · exact ⟨b, k, hb, hk, Or.inr h⟩
    · rintro ⟨b, k, hb, hk, h | h⟩
      · exact Or.inl ⟨b, k, hb, hk, h⟩
      · exact Or.inr ⟨b, k, hb, hk, h⟩
  refine ⟨hiff, ?_, ?_, by decide⟩
  · unfold constExpr
    rw [neg_neg, Bool.or_comm]
  · intro h1 h2
    unfold constExpr __constExpr
    rw [Bool.or_eq_true]
    rcases le_or_lt 0 n with h0 | h0
    · left
      have hc := toU32_cast n
      have : toU32 n ≤ 255 := by omega
      simp [constExprLoop, this]
    · right
      have hc := toU32_cast (-n)
      have : toU32 (-n) ≤ 255 := by omega
      simp [constExprLoop, this]

theorem constExpr_iff_rotated_byte_witness :
    ((-255 : Int) ≤ -200 ∧ (-200 : Int) ≤ 255) ∧ constExpr (-200) = true ∧
      rotateRight32 200 0 = toU32 (-(-200)) ∧ constExpr 1020 = true ∧
      rotateRight32 255 30 = toU32 1020 :=
  ⟨⟨by decide, by decide⟩, (constExpr_iff_rotated_byte (-200)).2.2.1 (by decide) (by decide),
    by decide, by decide, by decide⟩

/-! ## Instruction selection: GEP -/

theorem popcountLoop_zero :
    ∀ (fuel l : Nat), l < 2 ^ fuel → popcountLoop fuel l = 0 → l = 0
  | 0, l, hl, _ => by simpa using hl
  | fuel + 1, l, hl, h => by
    simp only [popcountLoop] at h
    have h1 : l % 2 = 0 := by omega
    have h2 : popcountLoop fuel (l / 2) = 0 := by omega
    have hlt : l / 2 < 2 ^ fuel := by
      rw [Nat.pow_succ] at hl; omega
    have := popcountLoop_zero fuel (l / 2) hlt h2
    omega

theorem popcountLoop_one :
    ∀ (fuel l : Nat), l < 2 ^ fuel → popcountLoop fuel l = 1 → 2 ^ ctzLoop fuel l = l
  | 0, l, _, h => by simp [popcountLoop] at h
  | fuel + 1, l, hl, h => by
    simp only [popcountLoop] at h
    have hlt : l / 2 < 2 ^ fuel := by
      rw [Nat.pow_succ] at hl; omega
    simp only [ctzLoop]
    by_cases h1 : l % 2 = 1
    · rw [if_pos h1]
      have h2 : popcountLoop fuel (l / 2) = 0 := by omega
      have := popcountLoop_zero fuel (l / 2) hlt h2
      simp
      omega
    · rw [if_neg h1]
      have h2 : popcountLoop fuel (l / 2) = 1 := by omega
      have ih := popcountLoop_one fuel (l / 2) hlt h2
      rw [Nat.add_comm, Nat.pow_succ, ih]
      omega

theorem popcount_one_pow (l : Nat) (hl : l < 4294967296) :
    __builtin_popcount l = 1 → 2 ^ __builtin_ctz l = l :=
  popcountLoop_one 32 l (by norm_num; exact hl)

theorem popcount_two_pow : ∀ k < 32, __builtin_popcount (2 ^ k) = 1 ∧ __builtin_ctz (2 ^ k) = k := by
  decide

theorem gepElementSize_lt (ty : IRType) : gepElementSize ty < 4294967296 := by
  cases ty with
  | scalar _ => show (0 : Nat) < 4294967296; decide
  | array e n => exact toU32_lt _

theorem toI64_small (x : Int) (h1 : -9223372036854775808 ≤ x) (h2 : x < 9223372036854775808) :
    toI64 x = x := by
  unfold toI64; omega

/-- C24: a GEP of array type with element size `sz`, whose subscript is the
integer constant `c >= 0` and whose base operand has the memory address `(r, o)`,
makes `translate_gep` emit no line and record `(r, o + c * sz)` as the memory
address of the result, whenever `o` and `o + c * sz` fit in 32 bits.  Nothing
else of the values changes. -/
theorem translate_gep_constant_subscript (s : Selector) (inst : Inst)
    (elementType : IRType) (numElements : Nat) (arg1 arg2 : VId) (rest : List VId)
    (hops : inst.operands = arg1 :: arg2 :: rest)
    (hconst : (s.vals arg2).kind = ValueKind.constInt)
    (hc0 : 0 ≤ (s.vals arg2).intVal) (hc1 : (s.vals arg2).intVal < 2147483648)
    (hs0 : 0 ≤ elementType.getSize) (hs1 : elementType.getSize < 2147483648)
    (hmem : (s.vals arg1).hasMemoryAddr = true)
    (ho : -2147483648 ≤ (s.vals arg1).offset)
    (hsum : (s.vals arg1).offset + (s.vals arg2).intVal * elementType.getSize < 2147483648) :
    (translate_gep s inst (IRType.array elementType numElements)).code = s.code ∧
      ((translate_gep s inst (IRType.array elementType numElements)).vals inst.self).baseRegNo
        = (s.vals arg1).baseRegNo ∧
      ((translate_gep s inst (IRType.array elementType numElements)).vals inst.self).offset
        = (s.vals arg1).offset + (s.vals arg2).intVal * elementType.getSize ∧
      (∀ v, v ≠ inst.self →
        (translate_gep s inst (IRType.array elementType numElements)).vals v = s.vals v) := by
  have hcU : ((toU32 (s.vals arg2).intVal : Nat) : Int) = (s.vals arg2).intVal := by
    rw [toU32_cast]; omega
  have hsU : ((toU32 elementType.getSize : Nat) : Int) = elementType.getSize := by
    rw [toU32_cast]; omega
  have hprod : ((toU32 (s.vals arg2).intVal * toU32 elementType.getSize : Nat) : Int) =
      (s.vals arg2).intVal * elementType.getSize := by
    push_cast; rw [hcU, hsU]
  have hp0 : 0 ≤ (s.vals arg2).intVal * elementType.getSize := Int.mul_nonneg hc0 hs0
  have hplt : toU32 (s.vals arg2).intVal * toU32 elementType.getSize < 4294967296 := by
    have : ((toU32 (s.vals arg2).intVal * toU32 elementType.getSize : Nat) : Int)
        < 4294967296 := by rw [hprod]; omega
    exact_mod_cast this
  simp only [translate_gep, hops, hconst, if_true, hmem, gepElementSize,
    Nat.mod_eq_of_lt hplt, hprod]
  refine ⟨trivial, ?_, ?_, ?_⟩
  · simp [setMemoryAddr]
  · simp only [setMemoryAddr, if_true]
    rw [toI64_small _ (by omega) (by omega)]
  · intro v hv
    simp [setMemoryAddr, hv]

theorem translate_gep_constant_subscript_witness :
    ((sampleGepSelector.vals (VId.user 22)).kind = ValueKind.constInt ∧
        (sampleGepSelector.vals (VId.user 22)).intVal = 3 ∧
        (sampleGepSelector.vals (VId.user 100)).hasMemoryAddr = true) ∧
      ((translate_gep sampleGepSelector sampleGepConst
          (IRType.array (IRType.scalar 4) 10)).vals sampleGepConst.self).offset =
        (sampleGepSelector.vals (VId.user 100)).offset +
          (sampleGepSelector.vals (VId.user 22)).intVal * (IRType.scalar 4).getSize ∧
      ((translate_gep sampleGepSelector sampleGepConst
          (IRType.array (IRType.scalar 4) 10)).vals (VId.user 11)).offset = 28 :=
  ⟨⟨by decide, by decide, by decide⟩,
   (translate_gep_constant_subscript sampleGepSelector sampleGepConst (IRType.scalar 4) 10
      (VId.user 100) (VId.user 22) [] rfl (by decide) (by decide) (by decide) (by decide)
      (by decide) (by decide) (by decide) (by decide)).2.2.1,
   by decide⟩

/-- The lines of `translate_gep` for a variable subscript, as text: let a GEP
have a subscript that is no constant and a base operand with the memory address
`(r, o)`, and let `l` be the element size of its type.  Then
`translate_gep` first loads the index into `w17` when it has no register, and
after that: when `l` has exactly one bit set, it emits the single line
`add x17, x<r>, x<i>,lsl k` with `2^k = l`; otherwise it emits `mov x16, #l` and
`madd x17, x<i>, x16,x<r>`.  In both cases the memory address of the result
becomes `(17, o)`.  An element size is a power of two exactly when it has one
bit set: 4 gives the shift 2, 6 takes the `madd` form. -/
theorem translate_gep_variable_subscript (s : Selector) (inst : Inst) (ty : IRType)
    (arg1 arg2 : VId) (rest : List VId)
    (hops : inst.operands = arg1 :: arg2 :: rest)
    (hvar : (s.vals arg2).kind ≠ ValueKind.constInt)
    (hmem : (s.vals arg1).hasMemoryAddr = true) :
    (__builtin_popcount (gepElementSize ty) = 1 →
        (translate_gep s inst ty).code =
            s.code ++
              (if (s.vals arg2).regId = -1 then load_var s.vals ARM64_TMP_REG_NO2 arg2
               else []) ++
              [{ opcode := "add", result := "x17",
                 arg1 := "x" ++ toString (s.vals arg1).baseRegNo,
                 arg2 := "x" ++ toString
                     (if (s.vals arg2).regId = -1 then 17 else (s.vals arg2).regId) ++
                   ",lsl " ++ toString (__builtin_ctz (gepElementSize ty)) }] ∧
          2 ^ __builtin_ctz (gepElementSize ty) = gepElementSize ty) ∧
      (__builtin_popcount (gepElementSize ty) ≠ 1 →
        (translate_gep s inst ty).code =
          s.code ++
            (if (s.vals arg2).regId = -1 then load_var s.vals ARM64_TMP_REG_NO2 arg2
             else []) ++
            [{ opcode := "mov", result := "x16",
               arg1 := "#" ++ toString (gepElementSize ty) },
             { opcode := "madd", result := "x17",
               arg1 := "x" ++ toString
                   (if (s.vals arg2).regId = -1 then 17 else (s.vals arg2).regId),
               arg2 := "x16" ++ ",x" ++ toString (s.vals arg1).baseRegNo }]) ∧
      ((translate_gep s inst ty).vals inst.self).baseRegNo = 17 ∧
      ((translate_gep s inst ty).vals inst.self).offset = (s.vals arg1).offset ∧
      (∀ k, k < 32 → __builtin_popcount (2 ^ k) = 1 ∧ __builtin_ctz (2 ^ k) = k) ∧
      __builtin_ctz 4 = 2 ∧ __builtin_popcount 6 ≠ 1 := by
  have hb : (s.vals arg1).baseRegNo ≠ -1 := by
    simpa [Value.hasMemoryAddr] using hmem
  have e16 : ("x" ++ toString ARM64_TMP_REG_NO : String) = "x16" := by decide
  have e17 : ("x" ++ toString (17 : Int) : String) = "x17" := by decide
  have e17' : ARM64_TMP_REG_NO2 = 17 := rfl
  refine ⟨?_, ?_, ?_, ?_, popcount_two_pow, by decide, by decide⟩
  · intro hp
    refine ⟨?_, popcount_one_pow _ (gepElementSize_lt ty) hp⟩
    simp only [translate_gep, hops, hvar, if_false, hmem, if_true, hb, hp, e17, e17', xregs,
      List.append_nil]
  · intro hp
    simp only [translate_gep, hops, hvar, if_false, hmem, if_true, hb, hp, e16, e17, e17',
      xregs, List.append_nil]
  · simp [translate_gep, hops, hvar, setMemoryAddr, ARM64_TMP_REG_NO2]
  · simp [translate_gep, hops, hvar, hmem, setMemoryAddr]

theorem translate_gep_variable_subscript_witness :
    ((sampleGepSelector.vals (VId.user 0)).kind ≠ ValueKind.constInt ∧
        (sampleGepSelector.vals (VId.user 100)).hasMemoryAddr = true ∧
        __builtin_popcount (gepElementSize (IRType.array (IRType.scalar 4) 10)) = 1) ∧
      2 ^ __builtin_ctz (gepElementSize (IRType.array (IRType.scalar 4) 10)) =
        gepElementSize (IRType.array (IRType.scalar 4) 10) ∧
      (translate_gep sampleGepSelector sampleGep (IRType.array (IRType.scalar 4) 10)).code =
        [{ opcode := "add", result := "x17", arg1 := "x29", arg2 := "x19,lsl 2" }] ∧
      (translate_gep sampleGepSelector sampleGep
          (IRType.array (IRType.array (IRType.scalar 2) 3) 10)).code =
        [{ opcode := "mov", result := "x16", arg1 := "#6" },
         { opcode := "madd", result := "x17", arg1 := "x19", arg2 := "x16,x29" }] :=
  ⟨⟨by decide, by decide, by decide⟩,
   ((translate_gep_variable_subscript sampleGepSelector sampleGep
      (IRType.array (IRType.scalar 4) 10) (VId.user 100) (VId.user 0) [] rfl (by decide)
      (by decide)).1 (by decide)).2,
   by decide, by decide⟩

/-! ## Register sharing and live ranges -/

theorem expireOldRanges_perm :
    ∀ (active : List LiveRange) (freeRegs : List Int) (pos : Int),
      List.Perm ((expireOldRanges active freeRegs pos).1.map LiveRange.reg ++
          (expireOldRanges active freeRegs pos).2)
        (active.map LiveRange.reg ++ freeRegs)
  | [], freeRegs, pos => by simp [expireOldRanges]
  | it :: rest, freeRegs, pos => by
    unfold expireOldRanges
    split
    · refine (expireOldRanges_perm rest (freeRegs ++ [it.reg]) pos).trans ?_
      simp only [List.map_cons, List.cons_append]
      rw [← List.append_assoc]
      exact List.perm_append_singleton _ _
    · simp only [List.map_cons, List.cons_append]
      exact List.Perm.cons _ (expireOldRanges_perm rest freeRegs pos)

theorem expireOldRanges_active :
    ∀ (active : List LiveRange) (freeRegs : List Int) (pos : Int),
      (∀ a ∈ active, a ∈ (expireOldRanges active freeRegs pos).1 ∨ a.end_ ≤ pos) ∧
      (∀ a ∈ (expireOldRanges active freeRegs pos).1, a ∈ active)
  | [], freeRegs, pos => by simp [expireOldRanges]
  | it :: rest, freeRegs, pos => by
    unfold expireOldRanges
    split
    · rename_i h
      obtain ⟨ih1, ih2⟩ := expireOldRanges_active rest (freeRegs ++ [it.reg]) pos
      refine ⟨?_, fun a ha => List.mem_cons_of_mem _ (ih2 a ha)⟩
      intro a ha
      rcases List.mem_cons.1 ha with rfl | ha
      · exact Or.inr h
      · exact ih1 a ha
    · obtain ⟨ih1, ih2⟩ := expireOldRanges_active rest freeRegs pos
      refine ⟨?_, ?_⟩
      · intro a ha
        rcases List.mem_cons.1 ha with rfl | ha
        · exact Or.inl (List.mem_cons_self _ _)
        · rcases ih1 a ha with h | h
          · exact Or.inl (List.mem_cons_of_mem _ h)
          · exact Or.inr h
      · intro a ha
        rcases List.mem_cons.1 ha with rfl | ha
        · exact List.mem_cons_self _ _
        · exact List.mem_cons_of_mem _ (ih2 a ha)

theorem scanStep_sharing (st : Store) (s : ScanState) (done : List LiveRange) (lo : Int)
    (range : LiveRange) (h : ScanDisjoint s done lo) (hlo : lo ≤ range.start)
    (hreg : range.reg = -1) :
    ScanDisjoint (scanStep st s range).2 ((scanStep st s range).1 :: done) range.start ∧
      (scanStep st s range).1.start = range.start ∧
      (scanStep st s range).1.end_ = range.end_ ∧
      (∀ d ∈ done, d.reg ≠ -1 → d.reg = (scanStep st s range).1.reg →
        d.end_ ≤ range.start) := by
  obtain ⟨hnd, hne, hdone⟩ := h
  have hperm := expireOldRanges_perm s.active s.freeRegs range.start
  obtain ⟨hact1, hact2⟩ := expireOldRanges_active s.active s.freeRegs range.start
  have hnd' : ((expireOldRanges s.active s.freeRegs range.start).1.map LiveRange.reg ++
      (expireOldRanges s.active s.freeRegs range.start).2).Nodup :=
    (List.Perm.nodup_iff hperm).2 hnd
  have hne' : ∀ r ∈ (expireOldRanges s.active s.freeRegs range.start).1.map LiveRange.reg ++
      (expireOldRanges s.active s.freeRegs range.start).2, r ≠ -1 :=
    fun r hr => hne r ((List.Perm.mem_iff hperm).1 hr)
  have hdone' : ∀ d ∈ done, d.reg ≠ -1 →
      d ∈ (expireOldRanges s.active s.freeRegs range.start).1 ∨ d.end_ ≤ range.start := by
    intro d hd hdr
    rcases hdone d hd hdr with h1 | h1
    · exact hact1 d h1
    · exact Or.inr (le_trans h1 hlo)
  unfold scanStep
  simp only []
  generalize hE : expireOldRanges s.active s.freeRegs range.start = e at *
  split
  · rename_i hc
    have hfree : e.2 ≠ [] := by
      intro h0
      simp [h0] at hc
    obtain ⟨init, x, hx⟩ : ∃ init x, e.2 = init ++ [x] := by
      rcases List.eq_nil_or_concat e.2 with h0 | ⟨init, x, h1⟩
      · exact absurd h0 hfree
      · exact ⟨init, x, by rw [h1, List.concat_eq_append]⟩
    have hlast : e.2.getLastD 0 = x := by rw [hx]; simp
    have hdrop : e.2.dropLast = init := by rw [hx]; simp
    rw [hx] at hnd' hne'
    simp only [hlast, hdrop]
    refine ⟨⟨?_, ?_, ?_⟩, trivial, trivial, ?_⟩
    · show (List.map LiveRange.reg (e.1 ++ [{ range with reg := x }]) ++ init).Nodup
      have hp : List.Perm (List.map LiveRange.reg (e.1 ++ [{ range with reg := x }]) ++ init)
          (List.map LiveRange.reg e.1 ++ (init ++ [x])) := by
        simp only [List.map_append, List.map_cons, List.map_nil, List.append_assoc]
        exact List.Perm.append_left _ (by
          simpa using (List.perm_append_singleton x init).symm)
      exact (List.Perm.nodup_iff hp).2 hnd'
    · intro r hr
      have hp : List.Perm (List.map LiveRange.reg (e.1 ++ [{ range with reg := x }]) ++ init)
          (List.map LiveRange.reg e.1 ++ (init ++ [x])) := by
        simp only [List.map_append, List.map_cons, List.map_nil, List.append_assoc]
        exact List.Perm.append_left _ (by
          simpa using (List.perm_append_singleton x init).symm)
      exact hne' r ((List.Perm.mem_iff hp).1 hr)
    · intro d hd hdr
      rcases List.mem_cons.1 hd with rfl | hd
      · exact Or.inl (List.mem_append_right _ (List.mem_singleton_self _))
      · rcases hdone' d hd hdr with h1 | h1
        · exact Or.inl (List.mem_append_left _ h1)
        · exact Or.inr h1
    · intro d hd hdr heq
      rcases hdone' d hd hdr with h1 | h1
      · exfalso
        have hdisj := (List.nodup_append.1 hnd').2.2
        have h2 : d.reg ∈ List.map LiveRange.reg e.1 := List.mem_map_of_mem _ h1
        have h3 : d.reg ∈ init ++ [x] := by
          rw [heq]
          exact List.mem_append_right _ (List.mem_singleton_self _)
        exact hdisj h2 h3
      · exact h1
  · refine ⟨⟨hnd', hne', ?_⟩, rfl, rfl, ?_⟩
    · intro d hd hdr
      rcases List.mem_cons.1 hd with rfl | hd
      · exact absurd hreg hdr
      · exact hdone' d hd hdr
    · intro d _ hdr heq
      exact absurd (heq.trans hreg) hdr

theorem scanLoop_sharing (st : Store) :
    ∀ (ranges : List LiveRange) (s : ScanState) (done : List LiveRange) (lo : Int),
      ScanDisjoint s done lo → List.Pairwise (fun a b => a.start ≤ b.start) ranges →
      (∀ r ∈ ranges, lo ≤ r.start ∧ r.reg = -1) →
      (∀ d ∈ done, ∀ b ∈ (scanLoop st ranges s).1, d.reg ≠ -1 → d.reg = b.reg →
        d.end_ ≤ b.start) ∧
      List.Pairwise (fun a b => a.reg ≠ -1 → a.reg = b.reg → a.end_ ≤ b.start)
        (scanLoop st ranges s).1
  | [], s, done, lo, _, _, _ => by simp [scanLoop]
  | range :: rest, s, done, lo, h, hsorted, hin => by
    obtain ⟨hlo, hreg⟩ := hin range (List.mem_cons_self _ _)
    obtain ⟨hinv, hstart, _, hpair⟩ := scanStep_sharing st s done lo range h hlo hreg
    obtain ⟨hs1, hs2⟩ := List.pairwise_cons.1 hsorted
    obtain ⟨ih1, ih2⟩ := scanLoop_sharing st rest (scanStep st s range).2
      ((scanStep st s range).1 :: done) range.start hinv hs2
      (fun r hr => ⟨hs1 r hr, (hin r (List.mem_cons_of_mem _ hr)).2⟩)
    simp only [scanLoop]
    refine ⟨?_, List.pairwise_cons.2 ⟨?_, ih2⟩⟩
    · intro d hd b hb hdr heq
      rcases List.mem_cons.1 hb with rfl | hb
      · rw [hstart]; exact hpair d hd hdr heq
      · exact ih1 d (List.mem_cons_of_mem _ hd) b hb hdr heq
    · intro b hb hdr heq
      exact ih1 _ (List.mem_cons_self _ _) b hb hdr heq

theorem scanLoop_held (st : Store) :
    ∀ (ranges : List LiveRange) (s : ScanState),
      (heldRegs s).Nodup → (heldRegs (scanLoop st ranges s).2).Nodup
  | [], s, h => by simpa [scanLoop] using h
  | range :: rest, s, h => by
    simp only [scanLoop]
    apply scanLoop_held st rest
    have hperm := expireOldRanges_perm s.active s.freeRegs range.start
    have hnd' := (List.Perm.nodup_iff hperm).2 h
    unfold scanStep
    simp only []
    generalize expireOldRanges s.active s.freeRegs range.start = e at *
    split
    · rename_i hc
      have hfree : e.2 ≠ [] := by
        intro h0
        simp [h0] at hc
      obtain ⟨init, x, hx⟩ : ∃ init x, e.2 = init ++ [x] := by
        rcases List.eq_nil_or_concat e.2 with h0 | ⟨init, x, h1⟩
        · exact absurd h0 hfree
        · exact ⟨init, x, by rw [h1, List.concat_eq_append]⟩
      have hlast : e.2.getLastD 0 = x := by rw [hx]; simp
      have hdrop : e.2.dropLast = init := by rw [hx]; simp
      rw [hx] at hnd'
      simp only [hlast, hdrop]
      show (List.map LiveRange.reg (e.1 ++ [{ range with reg := x }]) ++ init).Nodup
      have hp : List.Perm (List.map LiveRange.reg (e.1 ++ [{ range with reg := x }]) ++ init)
          (List.map LiveRange.reg e.1 ++ (init ++ [x])) := by
        simp only [List.map_append, List.map_cons, List.map_nil, List.append_assoc]
        exact List.Perm.append_left _ (by
          simpa using (List.perm_append_singleton x init).symm)
      exact (List.Perm.nodup_iff hp).2 hnd'
    · exact hnd'

theorem scanLoop_bounds (st : Store) :
    ∀ (ranges : List LiveRange) (s : ScanState),
      List.Forall₂ (fun a b => b.value = a.value ∧ b.start = a.start ∧ b.end_ = a.end_)
        ranges (scanLoop st ranges s).1
  | [], _ => by simp [scanLoop]
  | range :: rest, s => by
    simp only [scanLoop]
    refine List.Forall₂.cons ?_ (scanLoop_bounds st rest _)
    unfold scanStep
    simp only []
    split <;> exact ⟨rfl, rfl, rfl⟩

theorem initialFreeRegs_disjoint (existFuncCall : Bool) (maxDep : Int) (lo : Int) :
    ScanDisjoint
      { freeRegs := initialFreeRegs existFuncCall, active := [], maxDep := maxDep } [] lo := by
  refine ⟨?_, ?_, ?_⟩
  · show (initialFreeRegs existFuncCall).Nodup
    cases existFuncCall <;> decide
  · show ∀ r ∈ initialFreeRegs existFuncCall, r ≠ -1
    cases existFuncCall <;> decide
  · intro d hd
    exact absurd hd (List.not_mem_nil d)

theorem linearScan_sharing (ranges : List LiveRange) (func : Func)
    (hsorted : List.Pairwise (fun a b => a.start ≤ b.start) ranges)
    (hreg : ∀ r ∈ ranges, r.reg = -1) :
    List.Pairwise (fun A B => A.reg ≠ -1 → A.reg = B.reg → A.end_ ≤ B.start)
      (linearScanRegisterAllocation ranges func).1 := by
  cases ranges with
  | nil => simp [linearScanRegisterAllocation, scanLoop]
  | cons r rest =>
    exact (scanLoop_sharing func.vals (r :: rest) _ [] r.start
      (initialFreeRegs_disjoint _ _ _) hsorted (by
        intro x hx
        refine ⟨?_, hreg x hx⟩
        rcases List.mem_cons.1 hx with rfl | hx
        · exact le_refl _
        · exact (List.pairwise_cons.1 hsorted).1 x hx)).2

/-- C35: for ranges sorted by ascending start (none with a register yet, as
`calculateLiveRanges` builds them), `linearScanRegisterAllocation` keeps the
value and the bounds of every range, and whenever two ranges A and B, with A
before B, leave it with the same register, `A.end <= B.start`; after every
prefix of the ranges the registers of the active ranges followed by the free
list have no duplicate, that is the active registers are pairwise distinct and
disjoint from the free pool. -/
theorem shared_register_implies_disjoint_lifetimes (ranges : List LiveRange) (func : Func)
    (hsorted : List.Pairwise (fun a b => a.start ≤ b.start) ranges)
    (hreg : ∀ r ∈ ranges, r.reg = -1) :
    List.Forall₂ (fun a b => b.value = a.value ∧ b.start = a.start ∧ b.end_ = a.end_)
        ranges (linearScanRegisterAllocation ranges func).1 ∧
      List.Pairwise (fun A B => A.reg ≠ -1 → A.reg = B.reg → A.end_ ≤ B.start)
        (linearScanRegisterAllocation ranges func).1 ∧
      ∀ k : Nat, (heldRegs (scanLoop func.vals (ranges.take k)
        { freeRegs := initialFreeRegs func.existFuncCall, active := [],
          maxDep := func.maxDep }).2).Nodup := by
  refine ⟨scanLoop_bounds _ _ _, ?_, ?_⟩
  · exact linearScan_sharing ranges func hsorted hreg
  · intro k
    exact scanLoop_held _ _ _ (initialFreeRegs_disjoint _ func.maxDep 0).1

theorem shared_register_implies_disjoint_lifetimes_witness :
    List.Pairwise (fun a b => a.start ≤ b.start) sampleTouchingRanges ∧
      (∀ r ∈ sampleTouchingRanges, r.reg = -1) ∧
      List.Pairwise (fun A B => A.reg ≠ -1 → A.reg = B.reg → A.end_ ≤ B.start)
        (linearScanRegisterAllocation sampleTouchingRanges sampleArrayFunc).1 ∧
      (linearScanRegisterAllocation sampleTouchingRanges sampleArrayFunc).1.map LiveRange.reg =
        [28, 28] :=
  ⟨by decide, by decide,
   (shared_register_implies_disjoint_lifetimes sampleTouchingRanges sampleArrayFunc
     (by decide) (by decide)).2.1, by decide⟩

/-- C36, as stated, fails: the sorted ranges [0, 2] and [2, 3] of two integer
locals both receive register 28, and `LiveRange::overlaps` holds for them. -/
theorem shared_register_ranges_can_overlap :
    List.Pairwise (fun a b => a.start ≤ b.start) sampleTouchingRanges ∧
      ∃ A B, (linearScanRegisterAllocation sampleTouchingRanges sampleArrayFunc).1 = [A, B] ∧
        A ≠ B ∧ A.reg = 28 ∧ B.reg = 28 ∧ A.overlaps B = true :=
  ⟨by decide,
   { value := VId.user 1, start := 0, end_ := 2, reg := 28 },
   { value := VId.user 2, start := 2, end_ := 3, reg := 28 },
   by decide, by decide, by decide, by decide, by decide⟩

/-- C36, amended: for ranges sorted by ascending start, two ranges A and B, with
A before B, that leave `linearScanRegisterAllocation` with the same register
satisfy `A.end <= B.start`, so `LiveRange::overlaps` holds for them only when
they touch in the single index `A.end = B.start`. -/
theorem shared_register_ranges_overlap_only_at_end (ranges : List LiveRange) (func : Func)
    (hsorted : List.Pairwise (fun a b => a.start ≤ b.start) ranges)
    (hreg : ∀ r ∈ ranges, r.reg = -1) :
    List.Pairwise
      (fun A B => A.reg ≠ -1 → A.reg = B.reg →
        A.end_ ≤ B.start ∧ (A.overlaps B = true → A.end_ = B.start))
      (linearScanRegisterAllocation ranges func).1 := by
  have h := linearScan_sharing ranges func hsorted hreg
  refine h.imp ?_
  intro A B hAB h1 h2
  refine ⟨hAB h1 h2, ?_⟩
  intro ho
  have hle := hAB h1 h2
  unfold LiveRange.overlaps at ho
  simp only [Bool.not_eq_true', Bool.or_eq_false_iff, decide_eq_false_iff_not, not_lt] at ho
  omega

theorem shared_register_ranges_overlap_only_at_end_witness :
    List.Pairwise (fun a b => a.start ≤ b.start) sampleTouchingRanges ∧
      (∀ r ∈ sampleTouchingRanges, r.reg = -1) ∧
      List.Pairwise
        (fun A B => A.reg ≠ -1 → A.reg = B.reg →
          A.end_ ≤ B.start ∧ (A.overlaps B = true → A.end_ = B.start))
        (linearScanRegisterAllocation sampleTouchingRanges sampleArrayFunc).1 :=
  ⟨by decide, by decide,
   shared_register_ranges_overlap_only_at_end sampleTouchingRanges sampleArrayFunc
     (by decide) (by decide)⟩

/-! ## Spill slots -/

theorem scanStep_slot (st : Store) (s : ScanState) (range : LiveRange)
    (h : ScanInv (fun r => r ≠ -1) s) (hsize : 0 ≤ (st range.value).size) :
    s.maxDep ≤ (scanStep st s range).2.maxDep ∧
      ((scanStep st s range).1.reg = -1 →
        (scanStep st s range).1.stackOffset = s.maxDep ∧
        (scanStep st s range).2.maxDep =
          s.maxDep + (st (scanStep st s range).1.value).size) := by
  have he := expireOldRanges_mem (fun r => r ≠ -1) s.active s.freeRegs range.start h.1 h.2
  unfold scanStep
  simp only []
  split
  · rename_i hc
    have hfree : (expireOldRanges s.active s.freeRegs range.start).2 ≠ [] := by
      intro h0
      simp [h0] at hc
    refine ⟨le_refl _, ?_⟩
    intro hr
    exfalso
    have hmem : (expireOldRanges s.active s.freeRegs range.start).2.getLastD 0 ∈
        (expireOldRanges s.active s.freeRegs range.start).2 := by
      rcases List.eq_nil_or_concat (expireOldRanges s.active s.freeRegs range.start).2 with
        h0 | ⟨init, x, h1⟩
      · exact absurd h0 hfree
      · rw [h1, List.concat_eq_append]; simp
    exact he.2 _ hmem hr
  · refine ⟨?_, fun _ => ⟨rfl, rfl⟩⟩
    show s.maxDep ≤ s.maxDep + (st range.value).size
    omega

theorem scanLoop_slots (st : Store) (hsize : ∀ v, 0 ≤ (st v).size) :
    ∀ (ranges : List LiveRange) (s : ScanState), ScanInv (fun r => r ≠ -1) s →
      s.maxDep ≤ (scanLoop st ranges s).2.maxDep ∧
      (∀ o ∈ (scanLoop st ranges s).1, o.reg = -1 →
        s.maxDep ≤ o.stackOffset ∧
          o.stackOffset + (st o.value).size ≤ (scanLoop st ranges s).2.maxDep) ∧
      List.Pairwise
        (fun a b => a.reg = -1 → b.reg = -1 →
          a.stackOffset + (st a.value).size ≤ b.stackOffset)
        (scanLoop st ranges s).1
  | [], s, _ => by simp [scanLoop]
  | range :: rest, s, h => by
    obtain ⟨hmono, hspill⟩ := scanStep_slot st s range h (hsize _)
    obtain ⟨ih1, ih2, ih3⟩ := scanLoop_slots st hsize rest (scanStep st s range).2
      (scanStep_inv _ st s range h).1
    simp only [scanLoop]
    refine ⟨le_trans hmono ih1, ?_, List.pairwise_cons.2 ⟨?_, ih3⟩⟩
    · intro o ho hr
      rcases List.mem_cons.1 ho with rfl | ho
      · obtain ⟨h1, h2⟩ := hspill hr
        rw [h1]
        exact ⟨le_refl _, by rw [← h2]; exact ih1⟩
      · obtain ⟨h1, h2⟩ := ih2 o ho hr
        exact ⟨le_trans hmono h1, h2⟩
    · intro b hb hr hbr
      obtain ⟨h1, h2⟩ := hspill hr
      rw [h1, ← h2]
      exact (ih2 b hb hbr).1

theorem initialFreeRegs_inv (existFuncCall : Bool) (maxDep : Int) :
    ScanInv (fun r => r ≠ -1)
      { freeRegs := initialFreeRegs existFuncCall, active := [], maxDep := maxDep } := by
  refine ⟨fun a ha => absurd ha (List.not_mem_nil a), ?_⟩
  show ∀ r ∈ initialFreeRegs existFuncCall, r ≠ -1
  cases existFuncCall <;> decide

theorem registerAllocation_maxDep (func : Func) (hb : func.builtin = false) :
    (registerAllocation func).maxDep = alignDep (allocateRegisters func).maxDep := by
  unfold registerAllocation
  rw [if_neg (by simp [hb])]
  rfl

/-- C37: for a function that is not built in, whose `max_frame_depth` is 0
before allocation and whose value types have non-negative sizes (the depth that
the spill allocations reach staying, with 15 added, inside the `int` range), take
the ranges that `registerAllocation` hands to `linearScanRegisterAllocation` and
call spilled those that leave it without a register.  Every spilled range has an
offset of at least 0; of two spilled ranges the interval [offset, offset + size)
of the earlier one ends at or before the offset of the later one, so the
intervals are pairwise disjoint; and every interval ends at or before the depth
reached by the scan, which is at most the 16-rounded `max_frame_depth` that
`registerAllocation` leaves. -/
theorem spill_slots_never_collide (func : Func) (hb : func.builtin = false)
    (h0 : func.maxDep = 0) (hsize : ∀ v, 0 ≤ (func.vals v).size)
    (hfit : (allocateRegisters func).maxDep + 15 < 2147483648) :
    (∀ o ∈ (linearScanRegisterAllocation
          (sortRanges (calculateLiveRanges (seedProtectedReg func))) (seedProtectedReg func)).1,
        o.reg = -1 →
          0 ≤ o.stackOffset ∧
            o.stackOffset + (func.vals o.value).size ≤ (allocateRegisters func).maxDep ∧
            o.stackOffset + (func.vals o.value).size ≤ (registerAllocation func).maxDep) ∧
      List.Pairwise
        (fun a b => a.reg = -1 → b.reg = -1 →
          a.stackOffset + (func.vals a.value).size ≤ b.stackOffset)
        (linearScanRegisterAllocation
          (sortRanges (calculateLiveRanges (seedProtectedReg func))) (seedProtectedReg func)).1 ∧
      (16 : Int) ∣ (registerAllocation func).maxDep := by
  obtain ⟨h1, h2, h3⟩ := scanLoop_slots func.vals hsize
    (sortRanges (calculateLiveRanges (seedProtectedReg func)))
    { freeRegs := initialFreeRegs (seedProtectedReg func).existFuncCall, active := [],
      maxDep := (seedProtectedReg func).maxDep }
    (initialFreeRegs_inv _ _)
  have hm : (seedProtectedReg func).maxDep = 0 := h0
  have hD0 : 0 ≤ (allocateRegisters func).maxDep := by
    have h1b : (seedProtectedReg func).maxDep ≤ (allocateRegisters func).maxDep := h1
    rw [hm] at h1b
    exact h1b
  have hD : (registerAllocation func).maxDep =
      16 * (((allocateRegisters func).maxDep + 15) / 16) := by
    rw [registerAllocation_maxDep func hb]
    exact alignDep_eq _ hD0 hfit
  refine ⟨?_, h3, ?_⟩
  · intro o ho hr
    obtain ⟨ha1, hb2⟩ := h2 o ho hr
    have ha : (seedProtectedReg func).maxDep ≤ o.stackOffset := ha1
    rw [hm] at ha
    have hb3 : o.stackOffset + (func.vals o.value).size ≤ (allocateRegisters func).maxDep := hb2
    refine ⟨ha, hb3, ?_⟩
    rw [hD]
    omega
  · rw [hD]
    exact Dvd.intro _ rfl

theorem sampleTwoArrayStore_size (v : VId) : 0 ≤ (sampleTwoArrayStore v).size := by
  unfold sampleTwoArrayStore
  split <;> simp

theorem spill_slots_never_collide_witness :
    (sampleTwoArrayFunc.builtin = false ∧ sampleTwoArrayFunc.maxDep = 0 ∧
        (allocateRegisters sampleTwoArrayFunc).maxDep + 15 < 2147483648) ∧
      (linearScanRegisterAllocation
          (sortRanges (calculateLiveRanges (seedProtectedReg sampleTwoArrayFunc)))
          (seedProtectedReg sampleTwoArrayFunc)).1 =
        [{ value := VId.user 0, start := 1, end_ := 1, reg := -1, stackOffset := 0 },
         { value := VId.user 2, start := 1, end_ := 2, reg := 15, stackOffset := -1 },
         { value := VId.user 1, start := 2, end_ := 2, reg := -1, stackOffset := 40 }] ∧
      (registerAllocation sampleTwoArrayFunc).maxDep = 64 ∧
      List.Pairwise
        (fun a b => a.reg = -1 → b.reg = -1 →
          a.stackOffset + (sampleTwoArrayFunc.vals a.value).size ≤ b.stackOffset)
        (linearScanRegisterAllocation
          (sortRanges (calculateLiveRanges (seedProtectedReg sampleTwoArrayFunc)))
          (seedProtectedReg sampleTwoArrayFunc)).1 :=
  ⟨⟨by decide, by decide, by decide⟩, by decide, by decide,
   (spill_slots_never_collide sampleTwoArrayFunc (by decide) (by decide)
     sampleTwoArrayStore_size (by decide)).2.1⟩

/-! ## Stack-passed parameters -/

theorem entrySaves_length (p : List Int) :
    ((entrySaves p).length : Int) = ((p.length : Int) + 1) / 2 := by
  rw [entrySaves_eq]
  by_cases hodd : p.length % 2 = 1
  · rw [if_pos hodd]
    simp only [List.length_append, List.length_map, List.length_range, List.length_singleton]
    omega
  · rw [if_neg hodd]
    simp only [List.length_append, List.length_map, List.length_range, List.length_nil]
    omega

/-- C38, refuted for every function that the backend produces: with `P >= 1`
protected registers (FP is always one) and a frame size different from 0, the
prologue leaves FP at `S - 16 * ceil(P / 2) - D`, so the address
`FP + D + 4 * P + 4 * (k - 8)` from which the callee reads parameter `k` lies
`16 * ceil(P / 2) - 4 * P > 0` bytes below `S + 4 * (k - 8)`, where the caller
stored argument `k`. -/
theorem stack_param_address_misses_caller_slot (func : Func) (S F k : Int)
    (hP : func.protectedReg ≠ []) (hoff : allocStackOff func ≠ 0) :
    (entryEffect func S F).2 =
        S - 16 * (((func.protectedReg.length : Int) + 1) / 2) - func.maxDep ∧
      (entryEffect func S F).2 + func.maxDep + 4 * (func.protectedReg.length : Int)
          + 4 * (k - 8) =
        S + 4 * (k - 8) - (16 * (((func.protectedReg.length : Int) + 1) / 2)
          - 4 * (func.protectedReg.length : Int)) ∧
      (entryEffect func S F).2 + func.maxDep + 4 * (func.protectedReg.length : Int)
          + 4 * (k - 8) ≠ S + 4 * (k - 8) := by
  have hlen : 0 < func.protectedReg.length := List.length_pos.2 hP
  have hfp : (entryEffect func S F).2 =
      S - 16 * (((func.protectedReg.length : Int) + 1) / 2) - func.maxDep := by
    unfold entryEffect
    simp only []
    rw [if_neg (fun h => hoff h.symm), entrySaves_length]
    unfold allocStackOff
    simp only []
    omega
  refine ⟨hfp, ?_, ?_⟩
  · rw [hfp]; omega
  · rw [hfp]; omega

theorem stack_param_address_misses_caller_slot_witness :
    ((registerAllocation sampleNineParamArrayCaller).protectedReg ≠ [] ∧
        allocStackOff (registerAllocation sampleNineParamArrayCaller) ≠ 0) ∧
      (registerAllocation sampleNineParamArrayCaller).protectedReg = [29, 30, 28] ∧
      (registerAllocation sampleNineParamArrayCaller).maxDep = 48 ∧
      translate_entry (registerAllocation sampleNineParamArrayCaller) =
        [stpLine 29 30, strLine 28,
         { opcode := "sub", result := "sp", arg1 := "sp", arg2 := "#48" },
         { opcode := "add", result := "x29", arg1 := "sp", arg2 := "#0" }] ∧
      ((registerAllocation sampleNineParamArrayCaller).vals (VId.user 8)).regId = -1 ∧
      ((registerAllocation sampleNineParamArrayCaller).vals (VId.user 8)).baseRegNo =
        ARM64_FP_REG_NO ∧
      ((registerAllocation sampleNineParamArrayCaller).vals (VId.user 8)).offset = 60 ∧
      (registerAllocation sampleNineArgCaller).vals (VId.newLocal 0) = stackArgLocal 0 ∧
      (entryEffect (registerAllocation sampleNineParamArrayCaller) 1000 0).2 + 60 = 980 ∧
      (entryEffect (registerAllocation sampleNineParamArrayCaller) 1000 0).2
          + (registerAllocation sampleNineParamArrayCaller).maxDep
          + 4 * ((registerAllocation sampleNineParamArrayCaller).protectedReg.length : Int)
          + 4 * (8 - 8) ≠ 1000 + 4 * (8 - 8) :=
  ⟨⟨by decide, by decide⟩, by decide, by decide, by decide, by decide, by decide, by decide,
   by decide, by decide,
   (stack_param_address_misses_caller_slot (registerAllocation sampleNineParamArrayCaller)
     1000 0 8 (by decide) (by decide)).2.2⟩

/-! ## Fusion and STORE -/

/-- C39, evaluated on `int f(int a, int b) { int t = a + b; if (a == 0) ... }`
after `registerAllocation`: `a` is in register 0 and `t1 = a + b` in register 14;
the addition is emitted as `add w14, w0, w1`, and the comparison `a == 0` is
lowered by turning that line into `adds w14, w0, w1`, with no `subs`.  The
destination of the fused line is `w14`, which is not the register `w0` holding
`a`: the flags describe `a + b`. -/
theorem fused_flags_describe_sum_not_operand :
    (registerAllocation sampleFusionSourceFunc).insts[2]? =
        some { self := VId.user 12, op := IRINST_OP_IEQ,
               operands := [VId.user 0, VId.user 19], hasResultValue := true } ∧
      ((registerAllocation sampleFusionSourceFunc).vals (VId.user 0)).regId = 0 ∧
      ((registerAllocation sampleFusionSourceFunc).vals (VId.user 11)).regId = 14 ∧
      (translate_add_int32 { vals := (registerAllocation sampleFusionSourceFunc).vals }
          { self := VId.user 11, op := IRINST_OP_IADD,
            operands := [VId.user 0, VId.user 1], hasResultValue := true }).code =
        [{ opcode := "add", result := "w14", arg1 := "w0", arg2 := "w1" }] ∧
      fuseWithLast
          (translate_add_int32 { vals := (registerAllocation sampleFusionSourceFunc).vals }
            { self := VId.user 11, op := IRINST_OP_IADD,
              operands := [VId.user 0, VId.user 1], hasResultValue := true })
          (VId.user 0) (VId.user 19) =
        some [{ opcode := "adds", result := "w14", arg1 := "w0", arg2 := "w1" }] ∧
      (translate_bi_op
          (translate_add_int32 { vals := (registerAllocation sampleFusionSourceFunc).vals }
            { self := VId.user 11, op := IRINST_OP_IADD,
              operands := [VId.user 0, VId.user 1], hasResultValue := true })
          { self := VId.user 12, op := IRINST_OP_IEQ,
            operands := [VId.user 0, VId.user 19], hasResultValue := true }).code =
        [{ opcode := "adds", result := "w14", arg1 := "w0", arg2 := "w1" }] ∧
      regName ((registerAllocation sampleFusionSourceFunc).vals (VId.user 0)).regId ≠ "w14" := by
  decide

/-- C40, refuted for every STORE whose value has no register (a constant or a
memory-resident value): `translate_store` loads the value into the scratch
register 16 and passes the same register 16 to `store_base` as offset-synthesis
scratch.  When the target offset is not a valid displacement, the lines behind
the load of the value are those of `load_imm(16, offset)`, which write register
16, and the final `str w16, [base, w16]`. -/
theorem translate_store_scratch_is_value_register (s : Selector) (inst : Inst)
    (ptr src : VId) (rest : List VId) (hops : inst.operands = ptr :: src :: rest)
    (hsrc : (s.vals src).regId = -1) (hptr : (s.vals ptr).regId = -1)
    (hmem : (s.vals ptr).hasMemoryAddr = true) (hoff : isDisp (s.vals ptr).offset = false) :
    (translate_store s inst).code =
      s.code ++ load_var s.vals ARM64_TMP_REG_NO src ++
        store_base ARM64_TMP_REG_NO (s.vals ptr).baseRegNo (s.vals ptr).offset
          ARM64_TMP_REG_NO ∧
      store_base ARM64_TMP_REG_NO (s.vals ptr).baseRegNo (s.vals ptr).offset
          ARM64_TMP_REG_NO =
        load_imm ARM64_TMP_REG_NO (s.vals ptr).offset ++
          [{ opcode := "str", result := "w16",
             arg1 := "[" ++ (wToX (regName (s.vals ptr).baseRegNo) ++ "," ++ "w16") ++ "]" }] := by
  constructor
  · unfold translate_store
    rw [hops]
    simp only [hsrc, hptr, hmem, if_true]
  · unfold store_base
    simp only [hoff]
    rfl

theorem translate_store_scratch_is_value_register_witness :
    (((registerAllocation sampleBigFrameFunc).vals (VId.user 24)).regId = -1 ∧
        ((registerAllocation sampleBigFrameFunc).vals (VId.user 51)).regId = -1 ∧
        ((registerAllocation sampleBigFrameFunc).vals (VId.user 51)).baseRegNo = 29 ∧
        ((registerAllocation sampleBigFrameFunc).vals (VId.user 51)).offset = 4096) ∧
      (translate_store { vals := (registerAllocation sampleBigFrameFunc).vals }
          { self := VId.user 12, op := IRINST_OP_STORE,
            operands := [VId.user 51, VId.user 24] }).code =
        [{ opcode := "mov", result := "w16", arg1 := "#5" },
         { opcode := "mov", result := "w16", arg1 := "#4096" },
         { opcode := "str", result := "w16", arg1 := "[x29,w16]" }] ∧
      (translate_store { vals := (registerAllocation sampleBigFrameFunc).vals }
          { self := VId.user 12, op := IRINST_OP_STORE,
            operands := [VId.user 51, VId.user 24] }).code =
        [] ++ load_var (registerAllocation sampleBigFrameFunc).vals ARM64_TMP_REG_NO
            (VId.user 24) ++
          store_base ARM64_TMP_REG_NO
            ((registerAllocation sampleBigFrameFunc).vals (VId.user 51)).baseRegNo
            ((registerAllocation sampleBigFrameFunc).vals (VId.user 51)).offset
            ARM64_TMP_REG_NO :=
  ⟨by decide, by decide,
   (translate_store_scratch_is_value_register
     { vals := (registerAllocation sampleBigFrameFunc).vals }
     { self := VId.user 12, op := IRINST_OP_STORE, operands := [VId.user 51, VId.user 24] }
     (VId.user 51) (VId.user 24) [] rfl (by decide) (by decide) (by decide) (by decide)).1⟩

/-! ## Array types -/

theorem toU32_ofU32 (n : Nat) (h : n < 4294967296) : toU32 (ofU32 n) = n := by
  unfold ofU32 toU32
  split <;> omega

theorem wrap_eq_foldr (T : IRType) (dims : List Nat) :
    dims.reverse.foldl (fun currentType d => IRType.array currentType d) T =
      dims.foldr (fun d t => IRType.array t d) T := by
  rw [List.foldl_reverse]

theorem wrap_sizes (T : IRType) (hT : T.isArrayType = false) :
    ∀ dims : List Nat,
      (dims.foldr (fun d t => IRType.array t d) T).getDimensionSizes = dims
  | [] => by
    cases T with
    | scalar s => rfl
    | array e n => simp [IRType.isArrayType] at hT
  | d :: rest => by
    simp only [List.foldr_cons, IRType.getDimensionSizes, wrap_sizes T hT rest]

theorem wrap_base (T : IRType) (hT : T.isArrayType = false) :
    ∀ dims : List Nat,
      (dims.foldr (fun d t => IRType.array t d) T).getBaseElementType = T
  | [] => by
    cases T with
    | scalar s => rfl
    | array e n => simp [IRType.isArrayType] at hT
  | [d] => by
    simp only [List.foldr_cons, List.foldr_nil, IRType.getBaseElementType, hT]
    simp
  | d :: d2 :: rest => by
    have ih := wrap_base T hT (d2 :: rest)
    simp only [List.foldr_cons] at ih ⊢
    simp only [IRType.getBaseElementType, IRType.isArrayType, if_true]
    exact ih

theorem getDimensionsLoop_wrap (T : IRType) (hT : T.isArrayType = false) :
    ∀ (dims : List Nat) (i : Nat), i + dims.length < 4294967296 →
      getDimensionsLoop (dims.foldr (fun d t => IRType.array t d) T) i = i + dims.length
  | [], i, _ => by
    cases T with
    | scalar s => rfl
    | array e n => simp [IRType.isArrayType] at hT
  | d :: rest, i, h => by
    simp only [List.foldr_cons, getDimensionsLoop, List.length_cons] at h ⊢
    rw [Nat.mod_eq_of_lt (by omega), getDimensionsLoop_wrap T hT rest (i + 1) (by omega)]
    omega

theorem wrap_size (T : IRType) :
    ∀ dims : List Nat,
      toU32 (dims.foldr (fun d t => IRType.array t d) T).getSize =
        (toU32 T.getSize * dims.prod) % 4294967296
  | [] => by
    simp only [List.foldr_nil, List.prod_nil, Nat.mul_one]
    exact (Nat.mod_eq_of_lt (toU32_lt _)).symm
  | d :: rest => by
    simp only [List.foldr_cons, IRType.getSize, List.prod_cons]
    rw [toU32_ofU32 _ (Nat.mod_lt _ (by norm_num)), wrap_size T rest]
    rw [Nat.mul_mod, Nat.mod_mod, Nat.mod_mod, ← Nat.mul_mod]
    congr 1
    ring

/-- C34: for a base type `T` that is no array and a non-empty list of dimensions
`[d1, ..., dn]` (short enough for the `int` loop index),
`createMultiDimensional(T, [d1, ..., dn])` returns an array type `A` with
`getDimensionSizes(A) = [d1, ..., dn]`, `getDimensions(A) = n`,
`getBaseElementType(A) = T` and `getSize(A)` the 32-bit product
`size(T) * d1 * ... * dn`; for the empty list it returns no type. -/
theorem createMultiDimensional_round_trip (T : IRType) (dims : List Nat)
    (hT : T.isArrayType = false) (hne : dims ≠ []) (hlen : dims.length < 2147483648) :
    (∃ A, createMultiDimensional T dims = some A ∧
        A.isArrayType = true ∧
        A.getDimensionSizes = dims ∧
        A.getDimensions = dims.length ∧
        A.getBaseElementType = T ∧
        A.getSize = ofU32 ((toU32 T.getSize * dims.prod) % 4294967296)) ∧
      createMultiDimensional T [] = none := by
  refine ⟨⟨dims.foldr (fun d t => IRType.array t d) T, ?_, ?_, wrap_sizes T hT dims, ?_,
    wrap_base T hT dims, ?_⟩, rfl⟩
  · unfold createMultiDimensional
    rw [wrap_eq_foldr]
    cases dims with
    | nil => exact absurd rfl hne
    | cons d rest => rfl
  · cases dims with
    | nil => exact absurd rfl hne
    | cons d rest => rfl
  · cases dims with
    | nil => exact absurd rfl hne
    | cons d rest =>
      simp only [List.foldr_cons, IRType.getDimensions, List.length_cons] at hlen ⊢
      rw [getDimensionsLoop_wrap T hT rest 1 (by omega)]
      omega
  · cases dims with
    | nil => exact absurd rfl hne
    | cons d rest =>
      have h := wrap_size T (d :: rest)
      simp only [List.foldr_cons, IRType.getSize] at h ⊢
      rw [toU32_ofU32 _ (Nat.mod_lt _ (by norm_num))] at h
      rw [h]

theorem createMultiDimensional_round_trip_witness :
    ((IRType.scalar 4).isArrayType = false ∧ ([2, 3, 4] : List Nat) ≠ [] ∧
        ([2, 3, 4] : List Nat).length < 2147483648) ∧
      createMultiDimensional (IRType.scalar 4) [2, 3, 4] =
        some (IRType.array (IRType.array (IRType.array (IRType.scalar 4) 4) 3) 2) ∧
      (IRType.array (IRType.array (IRType.array (IRType.scalar 4) 4) 3) 2).getSize = 96 ∧
      ∃ A, createMultiDimensional (IRType.scalar 4) [2, 3, 4] = some A ∧
        A.isArrayType = true ∧
        A.getDimensionSizes = [2, 3, 4] ∧
        A.getDimensions = ([2, 3, 4] : List Nat).length ∧
        A.getBaseElementType = IRType.scalar 4 ∧
        A.getSize = ofU32 ((toU32 (IRType.scalar 4).getSize * ([2, 3, 4] : List Nat).prod)
          % 4294967296) :=
  ⟨⟨by decide, by decide, by decide⟩, by decide, by decide,
   (createMultiDimensional_round_trip (IRType.scalar 4) [2, 3, 4] (by decide) (by decide)
     (by decide)).1⟩

/-! ## Label renaming -/

theorem digitChar_value (k : Nat) (h : k < 10) : (Nat.digitChar k).toNat - 48 = k := by
  interval_cases k <;> decide

theorem decodeDigits_toDigitsCore :
    ∀ (fuel n : Nat) (ds : List Char), n < fuel →
      decodeDigits 0 (Nat.toDigitsCore 10 fuel n ds) = decodeDigits n ds
  | 0, n, ds, h => by omega
  | fuel + 1, n, ds, h => by
    unfold Nat.toDigitsCore
    simp only []
    split
    · rename_i h0
      have hn : n < 10 := by
        by_contra hc
        have : 0 < n / 10 := Nat.div_pos (by omega) (by norm_num)
        omega
      show decodeDigits (10 * 0 + ((Nat.digitChar (n % 10)).toNat - 48)) ds = _
      rw [digitChar_value _ (Nat.mod_lt _ (by norm_num)), Nat.mod_eq_of_lt hn]
      simp
    · rename_i h0
      have hlt : n / 10 < fuel := by
        have : n / 10 < n := Nat.div_lt_self (by omega) (by norm_num)
        omega
      rw [decodeDigits_toDigitsCore fuel (n / 10) _ hlt]
      show decodeDigits (10 * (n / 10) + ((Nat.digitChar (n % 10)).toNat - 48)) ds = _
      rw [digitChar_value _ (Nat.mod_lt _ (by norm_num)), Nat.div_add_mod]

theorem toString_nat_injective (n m : Nat) (h : toString n = toString m) : n = m := by
  have h1 : (Nat.toDigits 10 n) = (Nat.toDigits 10 m) := by
    have := congrArg String.data h
    simpa [toString, Nat.repr, List.asString] using this
  have h2 := congrArg (decodeDigits 0) h1
  unfold Nat.toDigits at h2
  rw [decodeDigits_toDigitsCore _ _ _ (Nat.lt_succ_self n),
    decodeDigits_toDigitsCore _ _ _ (Nat.lt_succ_self m)] at h2
  exact h2

theorem labelName_injective (n m : Nat)
    (h : IR_LABEL_PREFIX ++ toString n = IR_LABEL_PREFIX ++ toString m) : n = m := by
  apply toString_nat_injective
  have := congrArg String.data h
  simp only [String.data_append] at this
  exact String.ext (List.append_cancel_left this)

theorem renameLabels_other :
    ∀ (insts : List Inst) (st : Store) (n : Nat) (v : VId), v ∉ labelSelfs insts →
      (renameLabels insts st n).1 v = st v
  | [], _, _, _, _ => rfl
  | inst :: rest, st, n, v, h => by
    unfold renameLabels
    by_cases hop : inst.op = IRINST_OP_LABEL
    · rw [if_pos hop]
      have hs : labelSelfs (inst :: rest) = inst.self :: labelSelfs rest := by
        simp [labelSelfs, hop]
      rw [hs] at h
      rw [renameLabels_other rest _ _ v (fun hm => h (List.mem_cons_of_mem _ hm))]
      unfold setName
      rw [if_neg (fun he : v = inst.self => h (by rw [he]; exact List.mem_cons_self _ _))]
    · rw [if_neg hop]
      have hs : labelSelfs (inst :: rest) = labelSelfs rest := by
        simp [labelSelfs, hop]
      rw [hs] at h
      exact renameLabels_other rest st n v h

theorem renameLabels_count :
    ∀ (insts : List Inst) (st : Store) (n : Nat),
      (renameLabels insts st n).2 = n + (labelSelfs insts).length
  | [], _, _ => rfl
  | inst :: rest, st, n => by
    unfold renameLabels
    by_cases hop : inst.op = IRINST_OP_LABEL
    · rw [if_pos hop, renameLabels_count rest]
      have hs : labelSelfs (inst :: rest) = inst.self :: labelSelfs rest := by
        simp [labelSelfs, hop]
      rw [hs, List.length_cons]
      omega
    · rw [if_neg hop, renameLabels_count rest]
      have hs : labelSelfs (inst :: rest) = labelSelfs rest := by
        simp [labelSelfs, hop]
      rw [hs]

theorem renameLabels_names :
    ∀ (insts : List Inst) (st : Store) (n : Nat), (labelSelfs insts).Nodup →
      labelNames insts (renameLabels insts st n).1 =
        (List.range (labelSelfs insts).length).map
          (fun j => IR_LABEL_PREFIX ++ toString (n + j))
  | [], _, _, _ => rfl
  | inst :: rest, st, n, hnd => by
    unfold renameLabels
    by_cases hop : inst.op = IRINST_OP_LABEL
    · rw [if_pos hop]
      have hs : labelSelfs (inst :: rest) = inst.self :: labelSelfs rest := by
        simp [labelSelfs, hop]
      rw [hs] at hnd
      obtain ⟨hnot, hnd2⟩ := List.nodup_cons.1 hnd
      have ih := renameLabels_names rest
        (setName st inst.self (IR_LABEL_PREFIX ++ toString n)) (n + 1) hnd2
      unfold labelNames at ih ⊢
      rw [hs, List.map_cons, ih, renameLabels_other rest _ _ _ hnot, List.length_cons,
        List.range_succ_eq_map, List.map_cons, List.map_map]
      congr 1
      · simp [setName]
      · apply List.map_congr_left
        intro j _
        show IR_LABEL_PREFIX ++ toString (n + 1 + j) = IR_LABEL_PREFIX ++ toString (n + (j + 1))
        rw [Nat.add_right_comm, Nat.add_assoc]
    · rw [if_neg hop]
      have hs : labelSelfs (inst :: rest) = labelSelfs rest := by
        simp [labelSelfs, hop]
      rw [hs] at hnd
      have ih := renameLabels_names rest st n hnd
      unfold labelNames at ih ⊢
      rw [hs]
      exact ih

theorem renameModuleLabels_names :
    ∀ (funcs : List Func) (n : Nat), (∀ f ∈ funcs, (labelSelfs f.insts).Nodup) →
      ((renameModuleLabels funcs n).1.map (fun f => labelNames f.insts f.vals)).flatten =
          (List.range (funcs.map (fun f => (labelSelfs f.insts).length)).sum).map
            (fun j => IR_LABEL_PREFIX ++ toString (n + j)) ∧
        (renameModuleLabels funcs n).2 =
          n + (funcs.map (fun f => (labelSelfs f.insts).length)).sum
  | [], _, _ => by simp [renameModuleLabels]
  | func :: rest, n, h => by
    obtain ⟨ih1, ih2⟩ := renameModuleLabels_names rest
      (renameLabels func.insts func.vals n).2 (fun f hf => h f (List.mem_cons_of_mem _ hf))
    have h1 := renameLabels_names func.insts func.vals n (h func (List.mem_cons_self _ _))
    have h2 := renameLabels_count func.insts func.vals n
    simp only [renameModuleLabels, List.map_cons, List.flatten_cons, List.sum_cons]
    refine ⟨?_, by rw [ih2, h2]; omega⟩
    rw [ih1, h1, h2, List.range_add, List.map_append, List.map_map]
    congr 1
    apply List.map_congr_left
    intro j _
    show IR_LABEL_PREFIX ++ toString (n + (labelSelfs func.insts).length + j) = _
    simp only [Function.comp, Nat.add_assoc]

/-- C31: the label loop of `genCodeSection`, started with the counter at `m` on a
function whose `LABEL` instructions are distinct objects, names them
`IR_LABEL_PREFIX` followed by `m`, `m + 1`, ... in instruction order and leaves
the counter advanced by their number.  When the functions of a module are
processed in turn with one counter, the names of all their labels, function
after function, are the prefix followed by `n`, `n + 1`, ..., and no name occurs
twice among them. -/
theorem label_names_are_unique (funcs : List Func) (n : Nat)
    (hnd : ∀ f ∈ funcs, (labelSelfs f.insts).Nodup) :
    (∀ f ∈ funcs, ∀ m : Nat,
        labelNames f.insts (renameLabels f.insts f.vals m).1 =
            (List.range (labelSelfs f.insts).length).map
              (fun j => IR_LABEL_PREFIX ++ toString (m + j)) ∧
          (renameLabels f.insts f.vals m).2 = m + (labelSelfs f.insts).length) ∧
      ((renameModuleLabels funcs n).1.map (fun f => labelNames f.insts f.vals)).flatten =
        (List.range (funcs.map (fun f => (labelSelfs f.insts).length)).sum).map
          (fun j => IR_LABEL_PREFIX ++ toString (n + j)) ∧
      ((renameModuleLabels funcs n).1.map (fun f => labelNames f.insts f.vals)).flatten.Nodup ∧
      (renameModuleLabels funcs n).2 =
        n + (funcs.map (fun f => (labelSelfs f.insts).length)).sum := by
  obtain ⟨h1, h2⟩ := renameModuleLabels_names funcs n hnd
  refine ⟨fun f hf m => ⟨renameLabels_names _ _ _ (hnd f hf), renameLabels_count _ _ _⟩,
    h1, ?_, h2⟩
  rw [h1]
  refine List.Nodup.map ?_ (List.nodup_range _)
  intro a b hab
  have := labelName_injective (n + a) (n + b) hab
  omega

theorem label_names_are_unique_witness :
    (∀ f ∈ [sampleTwoLabelFunc, sampleFusionFunc], (labelSelfs f.insts).Nodup) ∧
      ((renameModuleLabels [sampleTwoLabelFunc, sampleFusionFunc] 0).1.map
          (fun f => labelNames f.insts f.vals)) = [[".L0", ".L1"], [".L2"]] ∧
      ((renameModuleLabels [sampleTwoLabelFunc, sampleFusionFunc] 0).1.map
          (fun f => labelNames f.insts f.vals)).flatten.Nodup :=
  ⟨by decide, by decide,
   (label_names_are_unique [sampleTwoLabelFunc, sampleFusionFunc] 0 (by decide)).2.2.1⟩

/-! ## Instruction selection: dispatch -/

theorem run_append (func : Func) (extra : VId → InstExtra)
    (allocator : SimpleRegisterAllocator) (pre post : List Inst) (s : InstSelector) :
    run func extra allocator (pre ++ post) s =
      run func extra allocator post (run func extra allocator pre s) := by
  unfold run
  rw [List.foldl_append]

theorem run_cons (func : Func) (extra : VId → InstExtra)
    (allocator : SimpleRegisterAllocator) (inst : Inst) (post : List Inst) (s : InstSelector) :
    run func extra allocator (inst :: post) s =
      run func extra allocator post
        (if inst.dead then s else translate func extra allocator s inst) := rfl

/-- C33: for an instruction whose opcode is `IRINST_OP_MAX` or beyond, or has no
handler registered by the constructor, `translate` returns the selector state as
it was: no line is appended to the assembly buffer, and `lstcmp` and
`realArgCount` keep their values.  `run` over a sequence that contains such an
instruction ends in the same state as `run` over the sequence without it, so
every later instruction is translated as it would have been; the same holds for
an instruction flagged dead, which `run` never hands to `translate`. -/
theorem unhandled_opcode_is_skipped (func : Func) (extra : VId → InstExtra)
    (allocator : SimpleRegisterAllocator) (s : InstSelector) (inst : Inst)
    (hop : IRINST_OP_MAX.toInt ≤ inst.op.toInt ∨ inst.op ∉ registeredOps) :
    translate func extra allocator s inst = s ∧
      (translate func extra allocator s inst).code = s.code ∧
      (translate func extra allocator s inst).lstcmp = s.lstcmp ∧
      (translate func extra allocator s inst).realArgCount = s.realArgCount ∧
      (∀ pre post : List Inst,
        run func extra allocator (pre ++ inst :: post) s =
          run func extra allocator (pre ++ post) s) ∧
      (∀ (d : Inst) (pre post : List Inst), d.dead = true →
        run func extra allocator (pre ++ d :: post) s =
          run func extra allocator (pre ++ post) s) := by
  have ht : ∀ t : InstSelector, translate func extra allocator t inst = t := by
    intro t
    unfold translate
    rw [if_pos hop]
  refine ⟨ht s, by rw [ht s], by rw [ht s], by rw [ht s], ?_, ?_⟩
  · intro pre post
    rw [run_append, run_cons, run_append, ht]
    simp
  · intro d pre post hd
    rw [run_append, run_cons, run_append, hd]
    simp

theorem unhandled_opcode_is_skipped_witness :
    (IRINST_OP_MAX.toInt ≤ sampleSkipFeq.op.toInt ∨ sampleSkipFeq.op ∉ registeredOps) ∧
      (run sampleSkipFunc (fun _ => {}) { allocated := 8, allocatedInCall := 8 }
          [sampleSkipAdd, sampleSkipFeq, sampleSkipSub] { vals := sampleSkipStore }).code =
        [{ opcode := "add", result := "w9", arg1 := "w0", arg2 := "w1" },
         { opcode := "sub", result := "w10", arg1 := "w9", arg2 := "w0" }] ∧
      run sampleSkipFunc (fun _ => {}) { allocated := 8, allocatedInCall := 8 }
          ([sampleSkipAdd] ++ sampleSkipFeq :: [sampleSkipSub]) { vals := sampleSkipStore } =
        run sampleSkipFunc (fun _ => {}) { allocated := 8, allocatedInCall := 8 }
          ([sampleSkipAdd] ++ [sampleSkipSub]) { vals := sampleSkipStore } :=
  ⟨by decide, by decide,
   (unhandled_opcode_is_skipped sampleSkipFunc (fun _ => {})
     { allocated := 8, allocatedInCall := 8 } { vals := sampleSkipStore } sampleSkipFeq
     (by decide)).2.2.2.2.1 [sampleSkipAdd] [sampleSkipSub]⟩

/-! ## Leaf function returning a constant -/

theorem load_imm_small (rs c : Int) (h0 : 0 < c) (h1 : c < 65536) :
    load_imm rs c = [{ opcode := "mov", result := regName rs, arg1 := "#" ++ toString c }] := by
  rw [load_imm_eq]
  have hu : toU32 c = c.toNat := by
    unfold toU32
    rw [Int.emod_eq_of_lt (by omega) (by omega)]
  have hd : toU32 c / 65536 = 0 := by
    rw [hu]
    omega
  rw [if_neg (by omega), if_neg (by rw [hd]; simp)]

theorem sampleConstReturn_alloc (c : Int) :
    (registerAllocation (sampleConstReturn c)).insts = (sampleConstReturn c).insts ∧
      (registerAllocation (sampleConstReturn c)).protectedReg = [29] ∧
      (registerAllocation (sampleConstReturn c)).maxDep = 0 ∧
      (registerAllocation (sampleConstReturn c)).maxFuncCallArgCnt = 0 ∧
      (registerAllocation (sampleConstReturn c)).vals (VId.user 20) =
        { kind := ValueKind.constInt, intVal := c } ∧
      (registerAllocation (sampleConstReturn c)).vals (VId.user 100) =
        { kind := ValueKind.localVariable, regId := 15 } := by
  refine ⟨rfl, rfl, ?_, rfl, rfl, rfl⟩
  have e1 : (registerAllocation (sampleConstReturn c)).maxDep =
      alignDep (allocateRegisters (sampleConstReturn c)).maxDep := rfl
  have e2 : (allocateRegisters (sampleConstReturn c)).maxDep = 0 := rfl
  rw [e1, e2]
  decide

theorem constReturn_entry (func : Func) (hp : func.protectedReg = [29]) (hd : func.maxDep = 0)
    (ha : func.maxFuncCallArgCnt = 0) : translate_entry func = [strLine 29] := by
  unfold translate_entry allocStack allocStackOff allocStackArgCnt
  rw [hp, hd, ha]
  decide

theorem constReturn_exit (func : Func) (hp : func.protectedReg = [29]) (hd : func.maxDep = 0)
    (hv : func.vals (VId.user 100) = { kind := ValueKind.localVariable, regId := 15 }) :
    translate_exit func { self := VId.user 14, op := IRINST_OP_EXIT, operands := [VId.user 100] } =
      [{ opcode := "mov", result := "w0", arg1 := "w15" }, ldrLine 29,
       { opcode := "ret", result := "" }] := by
  unfold translate_exit exitStackRelease load_var
  simp only [hp, hd, hv]
  decide

theorem constReturn_deleteUsedLabel (L X : String) (hL : L.data.head? = some '.') :
    deleteUsedLabel
        [strLine 29,
         { opcode := "mov", result := "w15", arg1 := X },
         { opcode := "b", result := L, dead := true },
         { opcode := L, result := ":" },
         { opcode := "mov", result := "w0", arg1 := "w15" },
         ldrLine 29,
         { opcode := "ret", result := "" }] =
      [strLine 29,
       { opcode := "mov", result := "w15", arg1 := X },
       { opcode := "b", result := L, dead := true },
       { opcode := L, result := ":", dead := true },
       { opcode := "mov", result := "w0", arg1 := "w15" },
       ldrLine 29,
       { opcode := "ret", result := "" }] := by
  have hb : ¬ (L.data.head? = some 'b') := by rw [hL]; decide
  have hs : isLabelLine (strLine 29) = false := by decide
  have hm : ∀ r a : String, isLabelLine { opcode := "mov", result := r, arg1 := a } = false := by
    intro r a
    simp [isLabelLine, opcodeStartsWith]
  have hbr : isLabelLine { opcode := "b", result := L, dead := true } = false := by
    simp [isLabelLine]
  have hl : isLabelLine { opcode := L, result := ":" } = true := by
    simp [isLabelLine, opcodeStartsWith, hL]
  have hld : isLabelLine (ldrLine 29) = false := by decide
  have hr : isLabelLine { opcode := "ret", result := "" } = false := by decide
  have hli : labelInsts
      [strLine 29,
       { opcode := "mov", result := "w15", arg1 := X },
       { opcode := "b", result := L, dead := true },
       { opcode := L, result := ":" },
       { opcode := "mov", result := "w0", arg1 := "w15" },
       ldrLine 29,
       { opcode := "ret", result := "" }] = [3] := by
    unfold labelInsts
    simp [List.range_succ, List.filter_cons, hs, hm, hbr, hl, hld, hr]
  unfold deleteUsedLabel
  rw [hli]
  simp [markUnusedLabels, labelUsed, opcodeStartsWith, strLine, ldrLine, hb]

theorem translate_entry_op (func : Func) (extra : VId → InstExtra)
    (allocator : SimpleRegisterAllocator) (s : InstSelector) (inst : Inst)
    (h : inst.op = IRINST_OP_ENTRY) :
    translate func extra allocator s inst =
      { s with code := s.code ++ translate_entry { func with vals := s.vals } } := by
  unfold translate
  rw [if_neg (by rw [h]; decide)]
  simp only [h]

theorem translate_exit_op (func : Func) (extra : VId → InstExtra)
    (allocator : SimpleRegisterAllocator) (s : InstSelector) (inst : Inst)
    (h : inst.op = IRINST_OP_EXIT) :
    translate func extra allocator s inst =
      { s with code := s.code ++ translate_exit { func with vals := s.vals } inst } := by
  unfold translate
  rw [if_neg (by rw [h]; decide)]
  simp only [h]

theorem translate_label_op (func : Func) (extra : VId → InstExtra)
    (allocator : SimpleRegisterAllocator) (s : InstSelector) (inst : Inst)
    (h : inst.op = IRINST_OP_LABEL) :
    translate func extra allocator s inst =
      { s with toSelector := translate_label s.toSelector inst } := by
  unfold translate
  rw [if_neg (by rw [h]; decide)]
  simp only [h]

theorem translate_goto_op (func : Func) (extra : VId → InstExtra)
    (allocator : SimpleRegisterAllocator) (s : InstSelector) (inst : Inst)
    (h : inst.op = IRINST_OP_GOTO) :
    translate func extra allocator s inst =
      { s with
        toSelector := translate_goto s.toSelector
          { cond := (extra inst.self).condiValue,
            iftrue := targetName s.vals (extra inst.self).iftrue,
            iffalse := targetName s.vals (extra inst.self).iffalse } } := by
  unfold translate
  rw [if_neg (by rw [h]; decide)]
  simp only [h]

theorem translate_assign_op (func : Func) (extra : VId → InstExtra)
    (allocator : SimpleRegisterAllocator) (s : InstSelector) (inst : Inst)
    (h : inst.op = IRINST_OP_ASSIGN) :
    translate func extra allocator s inst =
      { s with toSelector := translate_assign s.toSelector inst allocator.allocated } := by
  unfold translate
  rw [if_neg (by rw [h]; decide)]
  simp only [h]

theorem run_nil (func : Func) (extra : VId → InstExtra)
    (allocator : SimpleRegisterAllocator) (s : InstSelector) :
    run func extra allocator [] s = s := rfl

theorem constReturn_step_entry (func : Func) (allocator : SimpleRegisterAllocator)
    (s : InstSelector) (hp : func.protectedReg = [29]) (hd : func.maxDep = 0)
    (ha : func.maxFuncCallArgCnt = 0) (hcode : s.code = []) :
    (translate func sampleConstReturnExtra allocator s
        { self := VId.user 10, op := IRINST_OP_ENTRY }).code = [strLine 29] ∧
      (translate func sampleConstReturnExtra allocator s
        { self := VId.user 10, op := IRINST_OP_ENTRY }).vals = s.vals := by
  rw [translate_entry_op _ _ _ _ _ rfl]
  refine ⟨?_, rfl⟩
  show s.code ++ translate_entry { func with vals := s.vals } = _
  rw [hcode, constReturn_entry { func with vals := s.vals } hp hd ha]
  rfl

theorem constReturn_step_assign (func : Func) (allocator : SimpleRegisterAllocator)
    (s : InstSelector) (c : Int) (h0 : 0 < c) (h1 : c < 65536)
    (h20 : s.vals (VId.user 20) = { kind := ValueKind.constInt, intVal := c })
    (h100 : s.vals (VId.user 100) = { kind := ValueKind.localVariable, regId := 15 }) :
    (translate func sampleConstReturnExtra allocator s
        { self := VId.user 11, op := IRINST_OP_ASSIGN,
          operands := [VId.user 100, VId.user 20] }).code =
        s.code ++ [{ opcode := "mov", result := "w15", arg1 := "#" ++ toString c }] ∧
      (translate func sampleConstReturnExtra allocator s
        { self := VId.user 11, op := IRINST_OP_ASSIGN,
          operands := [VId.user 100, VId.user 20] }).vals = s.vals := by
  rw [translate_assign_op _ _ _ _ _ rfl]
  have e : translate_assign s.toSelector
      { self := VId.user 11, op := IRINST_OP_ASSIGN, operands := [VId.user 100, VId.user 20] }
      allocator.allocated =
      { s.toSelector with code := s.code ++ load_var s.vals 15 (VId.user 20) } := by
    unfold translate_assign
    simp only [h20, h100]
    rfl
  have e2 : load_var s.vals 15 (VId.user 20) =
      [{ opcode := "mov", result := "w15", arg1 := "#" ++ toString c }] := by
    unfold load_var
    simp only [h20, if_true]
    rw [load_imm_small 15 c h0 h1]
    rfl
  constructor
  · show (translate_assign s.toSelector _ allocator.allocated).code = _
    rw [e, e2]
  · show (translate_assign s.toSelector _ allocator.allocated).vals = _
    rw [e]

theorem constReturn_step_goto (func : Func) (allocator : SimpleRegisterAllocator)
    (s : InstSelector) :
    (translate func sampleConstReturnExtra allocator s
        { self := VId.user 12, op := IRINST_OP_GOTO }).code =
        s.code ++ [{ opcode := "b", result := (s.vals (VId.user 13)).name }] ∧
      (translate func sampleConstReturnExtra allocator s
        { self := VId.user 12, op := IRINST_OP_GOTO }).vals = s.vals := by
  rw [translate_goto_op _ _ _ _ _ rfl]
  exact ⟨rfl, rfl⟩

theorem constReturn_step_label (func : Func) (allocator : SimpleRegisterAllocator)
    (s : InstSelector) (pre : List ArmInst)
    (hcode : s.code = pre ++ [{ opcode := "b", result := (s.vals (VId.user 13)).name }]) :
    (translate func sampleConstReturnExtra allocator s
        { self := VId.user 13, op := IRINST_OP_LABEL }).code =
        pre ++ [{ opcode := "b", result := (s.vals (VId.user 13)).name, dead := true },
                { opcode := (s.vals (VId.user 13)).name, result := ":" }] ∧
      (translate func sampleConstReturnExtra allocator s
        { self := VId.user 13, op := IRINST_OP_LABEL }).vals = s.vals := by
  rw [translate_label_op _ _ _ _ _ rfl]
  refine ⟨?_, rfl⟩
  show (translate_label s.toSelector _).code = _
  unfold translate_label
  simp [hcode, opcodeStartsWith]

theorem constReturn_step_exit (func : Func) (allocator : SimpleRegisterAllocator)
    (s : InstSelector) (hp : func.protectedReg = [29]) (hd : func.maxDep = 0)
    (h100 : s.vals (VId.user 100) = { kind := ValueKind.localVariable, regId := 15 }) :
    (translate func sampleConstReturnExtra allocator s
        { self := VId.user 14, op := IRINST_OP_EXIT, operands := [VId.user 100] }).code =
      s.code ++ [{ opcode := "mov", result := "w0", arg1 := "w15" }, ldrLine 29,
                 { opcode := "ret", result := "" }] := by
  rw [translate_exit_op _ _ _ _ _ rfl]
  show s.code ++ translate_exit { func with vals := s.vals } _ = _
  rw [constReturn_exit { func with vals := s.vals } hp hd h100]

theorem constReturn_run (c : Int) (h0 : 0 < c) (h1 : c < 65536)
    (allocator : SimpleRegisterAllocator) (s0 : InstSelector) (func : Func)
    (hp : func.protectedReg = [29]) (hd : func.maxDep = 0) (ha : func.maxFuncCallArgCnt = 0)
    (hcode : s0.code = [])
    (h20 : s0.vals (VId.user 20) = { kind := ValueKind.constInt, intVal := c })
    (h100 : s0.vals (VId.user 100) = { kind := ValueKind.localVariable, regId := 15 }) :
    (run func sampleConstReturnExtra allocator (sampleConstReturn c).insts s0).code =
      [strLine 29,
       { opcode := "mov", result := "w15", arg1 := "#" ++ toString c },
       { opcode := "b", result := (s0.vals (VId.user 13)).name, dead := true },
       { opcode := (s0.vals (VId.user 13)).name, result := ":" },
       { opcode := "mov", result := "w0", arg1 := "w15" },
       ldrLine 29,
       { opcode := "ret", result := "" }] := by
  obtain ⟨c1, v1⟩ := constReturn_step_entry func allocator s0 hp hd ha hcode
  obtain ⟨c2, v2⟩ := constReturn_step_assign func allocator _ c h0 h1
    (by rw [v1]; exact h20) (by rw [v1]; exact h100)
  obtain ⟨c3, v3⟩ := constReturn_step_goto func allocator
    (translate func sampleConstReturnExtra allocator
      (translate func sampleConstReturnExtra allocator s0
        { self := VId.user 10, op := IRINST_OP_ENTRY })
      { self := VId.user 11, op := IRINST_OP_ASSIGN, operands := [VId.user 100, VId.user 20] })
  rw [c2, c1] at c3
  obtain ⟨c4, v4⟩ := constReturn_step_label func allocator _ _ c3
  have c5 := constReturn_step_exit func allocator _ hp hd
    (show _ = _ by rw [v4, v3, v2, v1]; exact h100)
  rw [c4, v3, v2, v1] at c5
  exact c5

theorem labelName_head (n : Nat) :
    (IR_LABEL_PREFIX ++ toString n).data.head? = some '.' := by
  simp [IR_LABEL_PREFIX, String.data_append]

theorem constReturn_genCodeSection (c : Int) (h0 : 0 < c) (h1 : c < 65536)
    (allocator : SimpleRegisterAllocator) (n : Nat) :
    genCodeSection (sampleConstReturn c) sampleConstReturnExtra allocator n =
      ([strLine 29,
        { opcode := "mov", result := "w15", arg1 := "#" ++ toString c },
        { opcode := "b", result := IR_LABEL_PREFIX ++ toString n, dead := true },
        { opcode := IR_LABEL_PREFIX ++ toString n, result := ":", dead := true },
        { opcode := "mov", result := "w0", arg1 := "w15" },
        ldrLine 29,
        { opcode := "ret", result := "" }], n + 1) := by
  obtain ⟨hi, hp, hd, ha, h20, h100⟩ := sampleConstReturn_alloc c
  have hrun := constReturn_run c h0 h1 allocator
    { code := [], lstcmp := IRINST_OP_MAX,
      vals := (renameLabels (registerAllocation (sampleConstReturn c)).insts
        (registerAllocation (sampleConstReturn c)).vals n).1,
      instOp := instOpOf (registerAllocation (sampleConstReturn c)).insts,
      realArgCount := 0, newCnt := (registerAllocation (sampleConstReturn c)).newCnt }
    (registerAllocation (sampleConstReturn c)) hp hd ha rfl h20 h100
  have hname : ((renameLabels (registerAllocation (sampleConstReturn c)).insts
      (registerAllocation (sampleConstReturn c)).vals n).1 (VId.user 13)).name =
      IR_LABEL_PREFIX ++ toString n := rfl
  simp only [hname] at hrun
  unfold genCodeSection
  simp only []
  rw [hi] at hrun ⊢
  rw [hrun, constReturn_deleteUsedLabel _ _ (labelName_head n)]
  rfl

/-- C32, as stated, fails on the scenario `c = 42`: the buffer that the pipeline
leaves holds `mov w15, #42` and `mov w0, w15`, and no line `mov w0, #42`. -/
theorem const_return_has_no_mov_w0_constant :
    (genCodeSection (sampleConstReturn 42) sampleConstReturnExtra
        { allocated := 8, allocatedInCall := 8 } 0).1 =
      [strLine 29,
       { opcode := "mov", result := "w15", arg1 := "#42" },
       { opcode := "b", result := ".L0", dead := true },
       { opcode := ".L0", result := ":", dead := true },
       { opcode := "mov", result := "w0", arg1 := "w15" },
       ldrLine 29,
       { opcode := "ret", result := "" }] ∧
      ({ opcode := "mov", result := "w0", arg1 := "#42" } : ArmInst) ∉
        (genCodeSection (sampleConstReturn 42) sampleConstReturnExtra
          { allocated := 8, allocatedInCall := 8 } 0).1 := by
  decide

/-- C32, amended: for the function whose IR is
`ENTRY; MOVE retVal, #c; GOTO exit; exit: EXIT retVal` with `0 < c < 65536` and
no call, the pipeline (`registerAllocation`, the label loop, instruction
selection, `deleteUsedLabel`) leaves as lines not flagged dead
`str x29, [sp,#-16]!`, `mov w15, #c`, `mov w0, w15`, `ldr x29, [sp],#16` and
`ret`: the constant goes to the register 15 of `retVal` and from there to `w0`.
No line of the buffer is a `movk`, an `stp` or an `ldp`; the jump to the exit
label and the label itself are flagged dead. -/
theorem const_return_goes_through_allocated_register (c : Int) (h0 : 0 < c) (h1 : c < 65536)
    (allocator : SimpleRegisterAllocator) (n : Nat) :
    liveLines (genCodeSection (sampleConstReturn c) sampleConstReturnExtra allocator n).1 =
        [strLine 29,
         { opcode := "mov", result := "w15", arg1 := "#" ++ toString c },
         { opcode := "mov", result := "w0", arg1 := "w15" },
         ldrLine 29,
         { opcode := "ret", result := "" }] ∧
      (∀ l ∈ (genCodeSection (sampleConstReturn c) sampleConstReturnExtra allocator n).1,
        l.opcode ≠ "movk" ∧ l.opcode ≠ "stp" ∧ l.opcode ≠ "ldp") ∧
      (genCodeSection (sampleConstReturn c) sampleConstReturnExtra allocator n).1 =
        [strLine 29,
         { opcode := "mov", result := "w15", arg1 := "#" ++ toString c },
         { opcode := "b", result := IR_LABEL_PREFIX ++ toString n, dead := true },
         { opcode := IR_LABEL_PREFIX ++ toString n, result := ":", dead := true },
         { opcode := "mov", result := "w0", arg1 := "w15" },
         ldrLine 29,
         { opcode := "ret", result := "" }] := by
  rw [constReturn_genCodeSection c h0 h1 allocator n]
  have hne : ∀ t : String, t.data.head? ≠ some '.' → IR_LABEL_PREFIX ++ toString n ≠ t := by
    intro t ht he
    exact ht (he ▸ labelName_head n)
  refine ⟨?_, ?_, rfl⟩
  · simp [liveLines, strLine, ldrLine]
  · intro l hl
    simp only [List.mem_cons, List.mem_singleton, List.not_mem_nil, or_false] at hl
    rcases hl with rfl | rfl | rfl | rfl | rfl | rfl | rfl
    · decide
    · exact ⟨by simp, by simp, by simp⟩
    · exact ⟨by simp, by simp, by simp⟩
    · exact ⟨hne _ (by decide), hne _ (by decide), hne _ (by decide)⟩
    · exact ⟨by decide, by decide, by decide⟩
    · decide
    · exact ⟨by decide, by decide, by decide⟩

theorem const_return_goes_through_allocated_register_witness :
    ((0 : Int) < 42 ∧ (42 : Int) < 65536) ∧
      liveLines (genCodeSection (sampleConstReturn 42) sampleConstReturnExtra
          { allocated := 8, allocatedInCall := 8 } 0).1 =
        [strLine 29,
         { opcode := "mov", result := "w15", arg1 := "#" ++ toString (42 : Int) },
         { opcode := "mov", result := "w0", arg1 := "w15" },
         ldrLine 29,
         { opcode := "ret", result := "" }] :=
  ⟨⟨by decide, by decide⟩,
   (const_return_goes_through_allocated_register 42 (by decide) (by decide)
     { allocated := 8, allocatedInCall := 8 } 0).1⟩

/-! ## GEP with a variable subscript: scratch registers -/

end Arm64
